import Mathlib

/-!
Verification of the 2-3DReplayer decoding core

A shallow embedding, in Lean, of the decoding pipeline of the 2-3DReplayer
repository: the incremental line cursor (`DataIterator`), the parenthesised
token-tree sub-parser (`SymbolTreeParser`), the snapshot accumulator
(`PartialWorldState`), the two format decoders (`ReplayParser`, `ULGParser`)
and the resulting append-only simulation log, together with theorems about
the properties the specification claims for them.

Modelling conventions, used throughout:

* JavaScript numbers are modelled as exact rationals (`ℚ`).  Floating-point
  rounding, overflow and non-finite values are outside the model; the
  numeric parsing helpers (`jsParseIntDec` and friends) return `0` on input
  for which JavaScript would produce `NaN`.  No theorem below evaluates a
  definition on such input.
* Strings are Lean `String`s; buffers handled by the line cursor are
  `List Char`.  The two line terminators are `'\r'` and `'\n'`, exactly the
  character class of the `[^\r\n]+` regular expression in the source.
* Reference identity of the small value classes (`GameState`, `GameScore`,
  the per-type `ParameterMap` instances) matters to the source (`!==`,
  `indexOf`).  Each such allocation therefore carries a numeric `id` drawn
  from an allocation counter threaded through the state, and `!==` is
  modelled as inequality of ids (structural inequality).
* Host builtins used by the decoders (`JSON.parse`, `Math.sin`, `Math.cos`,
  `Math.PI`) are abstracted into a `JsHost` record; general theorems
  quantify over the host, while concrete evaluations use `refHost`, which
  is exact at every argument those evaluations reach.
* Recursive loops whose termination is not structural take an explicit
  fuel argument, so that every definition evaluates by `decide`/`rfl`.
  Wrappers pass fuel that is provably sufficient; fuel exhaustion can only
  be reached from states the source itself cannot reach (or on which the
  source diverges, as noted inline).
-/

/- The Batteries rational-number operations are `@[irreducible]`; the
concrete evaluations below go through `decide`, so they are unsealed for
elaboration (kernel checking is unaffected). -/
unseal Rat.ofScientific Rat.mul Rat.inv Rat.add Rat.sub

namespace Replayer

/-! ## Numeric helpers -/

/-- JavaScript `Math.round`: round half towards positive infinity
(`Rat.floor` is the floor function on `ℚ`). -/
def jsRound (q : ℚ) : ℤ := (q + 1 / 2).floor

/-- `Math.round(x * 1000) / 1000`, the millisecond rounding used by
`PartialWorldState` for time keeping. -/
def roundMs (q : ℚ) : ℚ := (jsRound (q * 1000) : ℚ) / 1000

/-- Decimal digit value. -/
def digitVal (c : Char) : Option ℕ :=
  if '0' ≤ c ∧ c ≤ '9' then some (c.toNat - '0'.toNat) else none

/-- Hexadecimal digit value. -/
def hexVal (c : Char) : Option ℕ :=
  if '0' ≤ c ∧ c ≤ '9' then some (c.toNat - '0'.toNat)
  else if 'a' ≤ c ∧ c ≤ 'f' then some (c.toNat - 'a'.toNat + 10)
  else if 'A' ≤ c ∧ c ≤ 'F' then some (c.toNat - 'A'.toNat + 10)
  else none

/-- Read a maximal digit prefix; returns the accumulated value, the number of
digits consumed and the rest. -/
def takeDigits (dv : Char → Option ℕ) (base : ℕ) : List Char → ℕ → ℕ → ℕ × ℕ × List Char
  | [], acc, n => (acc, n, [])
  | c :: t, acc, n =>
    match dv c with
    | some d => takeDigits dv base t (acc * base + d) (n + 1)
    | none => (acc, n, c :: t)

/-- Leading whitespace accepted by the JS numeric parsers. -/
def skipWs (l : List Char) : List Char := l.dropWhile (fun c => c = ' ' ∨ c = '\t')

/-- Optional sign; returns the sign factor and the rest. -/
def takeSign : List Char → ℤ × List Char
  | '-' :: t => (-1, t)
  | '+' :: t => (1, t)
  | l => (1, l)

/-- JavaScript `parseInt(s, 10)`: optional whitespace and sign, then a maximal
run of decimal digits; further characters are ignored.  Returns `0` where
JavaScript returns `NaN` (no digits); no theorem below evaluates that case. -/
def jsParseIntDec (s : String) : ℚ :=
  let l := skipWs s.data
  let (sg, l) := takeSign l
  let (v, n, _) := takeDigits digitVal 10 l 0 0
  if n = 0 then 0 else (sg * v : ℤ)

/-- JavaScript `parseInt(s, 16)`: like `jsParseIntDec` with hex digits and an
optional `0x`/`0X` prefix. -/
def jsParseIntHex (s : String) : ℚ :=
  let l := skipWs s.data
  let (sg, l) := takeSign l
  let l := match l with
    | '0' :: 'x' :: t => t
    | '0' :: 'X' :: t => t
    | t => t
  let (v, n, _) := takeDigits hexVal 16 l 0 0
  if n = 0 then 0 else (sg * v : ℤ)

/-- JavaScript `parseFloat`: optional whitespace and sign, integer part,
optional fraction, optional exponent; trailing characters are ignored.
Returns `0` where JavaScript returns `NaN`. -/
def jsParseFloat (s : String) : ℚ :=
  let l := skipWs s.data
  let (sg, l) := takeSign l
  let (ip, ni, l) := takeDigits digitVal 10 l 0 0
  let (fp, nf, l) := match l with
    | '.' :: t => takeDigits digitVal 10 t 0 0
    | t => (0, 0, t)
  if ni = 0 ∧ nf = 0 then 0
  else
    let mant : ℚ := (sg : ℚ) * ((ip : ℚ) + (fp : ℚ) / (10 ^ nf : ℕ))
    match l with
    | 'e' :: t | 'E' :: t =>
      let (es, t) := takeSign t
      let (ev, ne, _) := takeDigits digitVal 10 t 0 0
      if ne = 0 then mant
      else if es = 1 then mant * (10 ^ ev : ℕ) else mant / (10 ^ ev : ℕ)
    | _ => mant

/-! ## JavaScript string helpers -/

/-- JS `charAt(i)` comparison form: the character at `i`, or `none` for the
empty string JS returns out of range. -/
def jsCharAt (s : String) (i : ℕ) : Option Char := s.data.get? i

/-- JS `slice(a, b)` with non-negative clamped indices. -/
def jsSliceNat (s : String) (a b : ℕ) : String := ⟨(s.data.take b).drop a⟩

/-- JS `slice(a)` from a non-negative index to the end. -/
def jsDrop (s : String) (a : ℕ) : String := ⟨s.data.drop a⟩

/-- JS `slice(1, -1)`: drop the first and last character. -/
def jsSliceShrink (s : String) : String := ⟨(s.data.dropLast).drop 1⟩

/-- JS `slice(-1)`: the last character as a string. -/
def jsSliceLast (s : String) : String :=
  match s.data.getLast? with
  | some c => ⟨[c]⟩
  | none => ""

/-- Split a character list at every occurrence of a separator (empty parts
preserved, as JS `split` does). -/
def splitChar : List Char → Char → List (List Char)
  | [], _ => [[]]
  | c :: t, sep =>
    match splitChar t sep with
    | [] => [[c]]
    | h :: rest => if c = sep then [] :: h :: rest else (c :: h) :: rest

/-- JS `split(' ')`. -/
def jsSplitSpace (s : String) : List String :=
  (splitChar s.data ' ').map (fun l => (⟨l⟩ : String))

/-- JS `indexOf(c, from)`: first index `≥ from` of `c`, or `none` for `-1`. -/
def jsIndexOfFrom (s : String) (c : Char) (start : ℕ) : Option ℕ :=
  (List.range s.data.length).find? (fun i => start ≤ i ∧ s.data.get? i = some c)

/-- `copyString` of the source deep-copies a string for garbage-collection
reasons; observationally it is the identity. -/
def copyString (s : String) : String := s

/-- `name.split('_').join(' ')` from the `TeamDescription` name setter. -/
def underscoresToSpaces (s : String) : String :=
  ⟨s.data.map (fun c => if c = '_' then ' ' else c)⟩

/-! ## Line structure of a buffer

The `DataIterator` of the source scans its buffer with the global regular
expression `[^\r\n]+`.  A *run* is a maximal nonempty stretch of
non-terminator characters; the sequence of runs of a buffer is exactly the
sequence of lines the regular expression yields. -/

/-- A line-terminator character (the class `[\r\n]`). -/
def isTerm (c : Char) : Bool := c = '\r' ∨ c = '\n'

/-- The first match of `[^\r\n]+` at or after the start of `u`, as a
half-open index span `(i, j)` relative to `u`. -/
def runSpan (u : List Char) : Option (ℕ × ℕ) :=
  match u with
  | [] => none
  | c :: t =>
    if isTerm c then (runSpan t).map (fun p => (p.1 + 1, p.2 + 1))
    else some (0, 1 + (t.takeWhile (fun d => ! isTerm d)).length)

/-- All maximal `[^\r\n]+` runs of a buffer, in order (single pass). -/
def runsAux : List Char → List Char → List (List Char)
  | [], cur => if cur.isEmpty then [] else [cur.reverse]
  | c :: t, cur =>
    if isTerm c then
      if cur.isEmpty then runsAux t [] else cur.reverse :: runsAux t []
    else runsAux t (c :: cur)

/-- The lines (maximal non-terminator runs) of a buffer. -/
def runs (u : List Char) : List (List Char) := runsAux u []

/-- The trailing unterminated segment of a buffer: the maximal suffix of
non-terminator characters (empty when the buffer ends at a terminator). -/
def pending (u : List Char) : List Char :=
  (u.reverse.takeWhile (fun c => ! isTerm c)).reverse

/-- The complete lines at the head of a partial buffer (those whose match
does not touch the buffer end), with the total length consumed.  Fuel
decreases on every recursion; `length + 1` always suffices. -/
def splitLinesF : ℕ → List Char → List String × ℕ
  | 0, _ => ([], 0)
  | fuel + 1, u =>
    match runSpan u with
    | none => ([], 0)
    | some (i, j) =>
      if j = u.length then ([], 0)
      else
        let (ls, k) := splitLinesF fuel (u.drop j)
        (⟨(u.take j).drop i⟩ :: ls, j + k)

def splitLines (u : List Char) : List String × ℕ := splitLinesF (u.length + 1) u

/-! ## The `DataIterator` (line cursor)

State: the buffer (`data`), the regular expression's `lastIndex` (`pos`),
the most recently yielded line (`line`) and the partial-data flag. -/

structure Iter where
  data : List Char
  pos : ℕ
  line : Option String
  partialData : Bool
  deriving DecidableEq, Repr

/-- `new DataIterator(data, partial)`. -/
def mkIter (data : String) (partialData : Bool) : Iter :=
  ⟨data.data, 0, none, partialData⟩

/-- `DataIterator.next()`: execute the regular expression from `pos`.  A
match that touches the very end of the buffer is rejected while the data is
partial (the cursor is restored); otherwise the cursor advances past the
match and the line is returned. -/
def itNext (it : Iter) : Iter × Option String :=
  match runSpan (it.data.drop it.pos) with
  | none => ({ it with line := none }, none)
  | some (i, j) =>
    if it.partialData ∧ it.pos + j = it.data.length then
      ({ it with line := none }, none)
    else
      let l : String := ⟨((it.data.drop it.pos).take j).drop i⟩
      ({ it with pos := it.pos + j, line := some l }, some l)

/-- `DataIterator.hasNext()`: like `next` but with the cursor restored. -/
def itHasNext (it : Iter) : Bool :=
  match runSpan (it.data.drop it.pos) with
  | none => false
  | some (_, j) => ¬ (it.partialData ∧ it.pos + j = it.data.length)

/-- `DataIterator.update(data, partial, incremental)`: incremental updates
keep the unconsumed remainder and append; non-incremental updates replace
the buffer (the cursor is left untouched).  Returns `true` when the
iterator had reached the end of the data before the update. -/
def itUpdate (it : Iter) (data : String) (partialData incremental : Bool) :
    Iter × Bool :=
  let it' :=
    if incremental then
      { it with data := it.data.drop it.pos ++ data.data, pos := 0,
                partialData := partialData }
    else
      { it with data := data.data, partialData := partialData }
  (it', it.line.isNone)

/-- `DataIterator.dispose()`. -/
def itDispose (_it : Iter) : Iter := ⟨[], 0, none, false⟩

/-- Repeatedly `next` until no line is returned, collecting the yielded
lines.  Fuel-recursive; `it.data.length + 1` fuel always suffices because a
successful `next` strictly advances the cursor. -/
def iterYieldF : ℕ → Iter → Iter × List String
  | 0, it => (it, [])
  | fuel + 1, it =>
    match itNext it with
    | (it₁, none) => (it₁, [])
    | (it₁, some l) =>
      let (it₂, ls) := iterYieldF fuel it₁
      (it₂, l :: ls)

/-! ## The `SymbolTreeParser` (token-tree parser) -/

/-- A node of the symbol tree: ordered raw string values and ordered child
nodes. -/
inductive SymbolNode where
  | mk (values : List String) (children : List SymbolNode)

/-- The ordered raw values of a node. -/
def SymbolNode.values : SymbolNode → List String
  | .mk v _ => v

/-- The ordered children of a node. -/
def SymbolNode.children : SymbolNode → List SymbolNode
  | .mk _ c => c

/-- `SymbolTreeParser.parseNode`: a single left-to-right scan of the current
node from `idx`, with `startIdx` marking the start of a pending raw token;
`(` recurses into a child, `)` closes the node and returns the position just
past it, a space flushes the pending token.  `vals`/`kids` accumulate the
node under construction.  Fuel-recursive (the source loop advances `idx` or
recurses on every step). -/
def parseNodeF : ℕ → List Char → ℕ → ℕ → List String → List SymbolNode →
    Except String (SymbolNode × ℕ)
  | 0, _, _, _, _, _ => .error "out of fuel"
  | fuel + 1, input, startIdx, idx, vals, kids =>
    if idx < input.length then
      let c := input.getD idx ' '
      if c = '(' then
        let vals := if startIdx < idx then
          vals ++ [(⟨(input.take idx).drop startIdx⟩ : String)] else vals
        match parseNodeF fuel input (idx + 1) (idx + 1) [] [] with
        | .error e => .error e
        | .ok (child, pos) => parseNodeF fuel input pos pos vals (kids ++ [child])
      else if c = ')' then
        let vals := if startIdx < idx then
          vals ++ [(⟨(input.take idx).drop startIdx⟩ : String)] else vals
        .ok (SymbolNode.mk vals kids, idx + 1)
      else if c = ' ' then
        let vals := if startIdx < idx then
          vals ++ [(⟨(input.take idx).drop startIdx⟩ : String)] else vals
        parseNodeF fuel input (idx + 1) (idx + 1) vals kids
      else
        parseNodeF fuel input startIdx (idx + 1) vals kids
    else .error "Invalid tree structure in input"

/-- `SymbolTreeParser.parse`: the input must be wrapped in `(`…`)`, contain
exactly one top-level node, and be fully consumed. -/
def symParse (s : String) : Except String SymbolNode :=
  if jsCharAt s 0 ≠ some '(' ∨ jsCharAt s (s.data.length - 1) ≠ some ')' then
    .error "Input not embedded in braces"
  else
    match parseNodeF (2 * s.data.length + 2) s.data 1 1 [] [] with
    | .error e => .error e
    | .ok (node, pos) =>
      if pos ≠ s.data.length then .error "Multiple root nodes in input"
      else .ok node

/-! ## The `ParameterMap` (parameter store) -/

/-- A parameter value: number, boolean, string or nested object. -/
inductive ParamVal where
  | num (q : ℚ)
  | bool (b : Bool)
  | str (s : String)
  | obj (o : List (String × ParamVal))

/-- A `ParameterObject`: an ordered string-keyed map. -/
abbrev ParamObj := List (String × ParamVal)

/-- JS property assignment `params[k] = v`: overwrite in place, or append a
new key at the end. -/
def setParam (o : ParamObj) (k : String) (v : ParamVal) : ParamObj :=
  if o.any (fun p => p.1 = k) then
    o.map (fun p => if p.1 = k then (k, v) else p)
  else o ++ [(k, v)]

/-- JS property lookup `params[k]`. -/
def getParam (o : ParamObj) (k : String) : Option ParamVal :=
  (o.find? (fun p => p.1 = k)).map Prod.snd

/-- `ParameterMap.getNumber`. -/
def getNumberP (o : ParamObj) (k : String) : Option ℚ :=
  match getParam o k with
  | some (.num q) => some q
  | _ => none

/-! ## Object and agent states -/

/-- `ObjectState.encodeObjectState`: the flat 7-slot layout
`[x, y, z, qx, qy, qz, qw]`. -/
def encodeObjectState (x y z qx qy qz qw : ℚ) : List ℚ :=
  [x, y, z, qx, qy, qz, qw]

/-- An `ObjectState`: position and orientation in the flat array layout. -/
structure ObjectState where
  state : List ℚ
  deriving DecidableEq, Repr

/-- `new ObjectState()`: origin position and unit quaternion. -/
def ObjectState.default : ObjectState :=
  ⟨encodeObjectState 0 0 0 0 0 0 1⟩

def ObjectState.x (o : ObjectState) : ℚ := o.state.getD 0 0
def ObjectState.y (o : ObjectState) : ℚ := o.state.getD 1 0
def ObjectState.z (o : ObjectState) : ℚ := o.state.getD 2 0
def ObjectState.qx (o : ObjectState) : ℚ := o.state.getD 3 0
def ObjectState.qy (o : ObjectState) : ℚ := o.state.getD 4 0
def ObjectState.qz (o : ObjectState) : ℚ := o.state.getD 5 0

/-- `qw`: slot 6 when present (`!== undefined`), else `1`. -/
def ObjectState.qw (o : ObjectState) : ℚ :=
  match o.state.get? 6 with
  | some v => v
  | none => 1

/-- `ObjectState.isValid`: some quaternion slot differs from `0` (an absent
slot compares `!== 0` in JS, hence counts as valid). -/
def ObjectState.isValid (o : ObjectState) : Bool :=
  o.state.get? 3 ≠ some 0 ∨ o.state.get? 4 ≠ some 0 ∨
  o.state.get? 5 ≠ some 0 ∨ o.state.get? 6 ≠ some 0

/-- `AgentState.encodeAgentState`: the object-state layout extended with
model index, flags and the joint/data segments; slot 9 records where the
joint segment ends. -/
def encodeAgentState (modelIdx flags x y z qx qy qz qw : ℚ)
    (jointAngles data : List ℚ) : List ℚ :=
  [x, y, z, qx, qy, qz, qw, modelIdx, flags, ((10 + jointAngles.length : ℕ) : ℚ)]
    ++ jointAngles ++ data

/-- An `AgentState` (the flat array; the class wraps the same layout). -/
structure AgentState where
  state : List ℚ
  deriving DecidableEq, Repr

/-- `AgentState.isValid`: a valid quaternion and an array long enough to
contain the data-offset slot. -/
def AgentState.isValid (a : AgentState) : Bool :=
  (ObjectState.mk a.state).isValid ∧ 9 < a.state.length

/-! ## Game state, game score, world state -/

/-- A `GameState` value: play mode and the time it took effect.  `id` is the
allocation identity (see the module comment); `!==` on game states is id
inequality. -/
structure GameState where
  id : ℕ
  time : ℚ
  playMode : String
  deriving DecidableEq, Repr

/-- A `GameScore` value; `id` as in `GameState`. -/
structure GameScore where
  id : ℕ
  time : ℚ
  goalsLeft : ℚ
  penaltyScoreLeft : ℚ
  penaltyMissLeft : ℚ
  goalsRight : ℚ
  penaltyScoreRight : ℚ
  penaltyMissRight : ℚ
  deriving DecidableEq, Repr

/-- One committed, immutable tick. -/
structure WorldState where
  time : ℚ
  gameTime : ℚ
  gameState : GameState
  score : GameScore
  ballStateArr : List ℚ
  leftAgentStateArrs : List (Option (List ℚ))
  rightAgentStateArrs : List (Option (List ℚ))
  deriving DecidableEq, Repr

/-- Sparse JS array assignment `arr[i] = v` (holes are `none`). -/
def setSparse {α : Type} (l : List (Option α)) (i : ℕ) (v : α) : List (Option α) :=
  if i < l.length then l.set i (some v)
  else l ++ List.replicate (i - l.length) none ++ [some v]

/-- `WorldState.unwrapAgentStatesArray`. -/
def unwrapAgentStates (l : List (Option AgentState)) : List (Option (List ℚ)) :=
  l.map (fun a => a.map AgentState.state)

/-! ## The `PartialWorldState` (snapshot accumulator) -/

structure PartialWorldState where
  time : ℚ
  timeStep : ℚ
  gameTime : ℚ
  gameState : GameState
  score : GameScore
  ballState : ObjectState
  leftAgentStates : List (Option AgentState)
  rightAgentStates : List (Option AgentState)
  /-- Allocation counter for `GameState`/`GameScore` instances. -/
  nextId : ℕ
  deriving DecidableEq, Repr

/-- `new PartialWorldState(time, timeStep, gameTime)`. -/
def mkPartialWorldState (time timeStep gameTime : ℚ) : PartialWorldState where
  time := time
  timeStep := timeStep
  gameTime := gameTime
  gameState := ⟨0, time, "unknown"⟩
  score := ⟨1, time, 0, 0, 0, 0, 0, 0⟩
  ballState := ObjectState.default
  leftAgentStates := []
  rightAgentStates := []
  nextId := 2

/-- `PartialWorldState.setGameTime`. -/
def PartialWorldState.setGameTime (p : PartialWorldState) (gameTime : ℚ) :
    PartialWorldState :=
  { p with gameTime := roundMs gameTime }

/-- `PartialWorldState.setPlaymode`: allocate a new `GameState` only when the
play mode actually changes. -/
def PartialWorldState.setPlaymode (p : PartialWorldState) (playMode : String) :
    PartialWorldState :=
  if p.gameState.playMode ≠ playMode then
    { p with gameState := ⟨p.nextId, p.time, playMode⟩, nextId := p.nextId + 1 }
  else p

/-- `PartialWorldState.setScore`: allocate a new `GameScore` only when one of
the six score fields actually changes. -/
def PartialWorldState.setScore (p : PartialWorldState)
    (goalsLeft goalsRight penScoreLeft penMissLeft penScoreRight penMissRight : ℚ) :
    PartialWorldState :=
  if p.score.goalsLeft ≠ goalsLeft ∨ p.score.goalsRight ≠ goalsRight ∨
     p.score.penaltyScoreLeft ≠ penScoreLeft ∨ p.score.penaltyMissLeft ≠ penMissLeft ∨
     p.score.penaltyScoreRight ≠ penScoreRight ∨ p.score.penaltyMissRight ≠ penMissRight then
    { p with
      score := ⟨p.nextId, p.time, goalsLeft, penScoreLeft, penMissLeft,
                goalsRight, penScoreRight, penMissRight⟩,
      nextId := p.nextId + 1 }
  else p

/-- `PartialWorldState.appendTo(states)`: commit the snapshot only when at
least one agent is present; on commit, advance `time` by `timeStep` rounded
to millisecond precision and clear the per-side agent arrays.  Returns the
updated accumulator, the extended list and the commit indicator. -/
def PartialWorldState.appendTo (p : PartialWorldState) (states : List WorldState) :
    PartialWorldState × List WorldState × Bool :=
  if p.leftAgentStates.length + p.rightAgentStates.length > 0 then
    let w : WorldState :=
      ⟨p.time, p.gameTime, p.gameState, p.score, p.ballState.state,
       unwrapAgentStates p.leftAgentStates, unwrapAgentStates p.rightAgentStates⟩
    ({ p with
        time := roundMs (p.time + p.timeStep),
        leftAgentStates := [],
        rightAgentStates := [] },
     states ++ [w], true)
  else (p, states, false)

/-! ## Team and agent descriptions

The per-type `ParameterMap` instances are referred to by identity in the
source (`Array.prototype.indexOf`); agent descriptions therefore store the
instance ids (`Option ℕ`, `none` standing for the JS `undefined` obtained
from an out-of-range `playerTypes[idx]` access). -/

structure AgentDesc where
  playerNo : ℚ
  side : ℤ
  playerTypes : List (Option ℕ)
  recentTypeIdx : ℕ
  deriving DecidableEq, Repr

/-- `AgentDescription.addPlayerType`: record the player type if not yet
present; either way the recent index points at it. -/
def AgentDesc.addPlayerType (a : AgentDesc) (pt : Option ℕ) : AgentDesc × Bool :=
  match a.playerTypes.findIdx? (fun q => q = pt) with
  | some idx => ({ a with recentTypeIdx := idx }, false)
  | none =>
    ({ a with playerTypes := a.playerTypes ++ [pt],
              recentTypeIdx := a.playerTypes.length }, true)

structure TeamDescription where
  side : ℤ
  name : String
  color : String
  agents : List AgentDesc
  deriving DecidableEq, Repr

/-- The `name` setter: underscores become spaces (the change event is not
modelled; no listener is attached during decoding). -/
def TeamDescription.setName (t : TeamDescription) (newName : String) :
    TeamDescription :=
  { t with name := underscoresToSpaces newName }

/-- The `color` setter. -/
def TeamDescription.setColor (t : TeamDescription) (c : String) : TeamDescription :=
  { t with color := c }

/-- `TeamDescription.addAgent`: the source scans the agent list from the end
(`while (i--)`) for the player number and updates that description, else
pushes a fresh one. -/
def TeamDescription.addAgent (t : TeamDescription) (number : ℚ) (pt : Option ℕ) :
    TeamDescription × Bool :=
  match (t.agents.reverse.findIdx? (fun a => a.playerNo = number)) with
  | some ridx =>
    let idx := t.agents.length - 1 - ridx
    match t.agents.get? idx with
    | some a =>
      let (a', changed) := a.addPlayerType pt
      ({ t with agents := t.agents.set idx a' }, changed)
    | none => (t, false)
  | none =>
    ({ t with agents := t.agents ++ [⟨number, t.side, [pt], 0⟩] }, true)

/-- `TeamDescription.getRecentTypeIdx`: scan from the end; `0` when the
player number is unknown. -/
def TeamDescription.getRecentTypeIdx (t : TeamDescription) (playerNo : ℚ) : ℕ :=
  match t.agents.reverse.find? (fun a => a.playerNo = playerNo) with
  | some a => a.recentTypeIdx
  | none => 0

/-! ## The simulation log aggregate

`Replay` and `SServerLog` both extend `SimulationLog` with a version number;
the flattened structure below carries both.  The five derived fields that
`onStatesUpdated` recomputes from `states` live in `GDerived`; everything
the per-line handlers read or write lives in `GCore` (inspection of the
handlers below shows none of them touches a derived field, which the split
makes structural). -/

/-- `SimulationType.TWOD`. -/
def simTWOD : ℕ := 1

/-- `SimulationType.THREED`. -/
def simTHREED : ℕ := 2

structure GCore where
  simType : ℕ
  version : ℚ
  frequency : ℚ
  environmentParams : ParamObj
  playerParams : ParamObj
  /-- Sparse list of per-type parameter maps, each with its instance id. -/
  playerTypes : List (Option (ℕ × ParamObj))
  leftTeam : TeamDescription
  rightTeam : TeamDescription
  states : List WorldState
  fullyLoaded : Bool
  /-- Allocation counter for `ParameterMap` instance ids. -/
  nextPMId : ℕ

structure GDerived where
  startTime : ℚ
  endTime : ℚ
  duration : ℚ
  gameStateList : List GameState
  gameScoreList : List GameScore

structure GLog where
  core : GCore
  derived : GDerived

/-- Modelled from the spec: the 2D environment-parameter key for the
simulator step (`SServerUtil.ts` is not part of the provided sources; the
spec fixes that game time advances in simulator steps measured in
milliseconds, `frequency = 1000 / step`). -/
def simulatorStepKey : String := "simulator_step"

/-- `Environment3DParams.LOG_STEP`. -/
def logStepKey : String := "log_step"

/-- `SparkUtil.createEnvironmentParamsV62`. -/
def sparkEnvParamsV62 : ParamObj :=
  [(logStepKey, .num 200),
   ("FieldLength", .num 12), ("FieldWidth", .num 8), ("FieldHeight", .num 40),
   ("GoalWidth", .num (7/5)), ("GoalDepth", .num (2/5)), ("GoalHeight", .num (4/5)),
   ("FreeKickDistance", .num 1), ("AgentRadius", .num (2/5)),
   ("BallRadius", .num (21/500)), ("RuleHalfTime", .num 300)]

/-- `SparkUtil.createEnvironmentParamsV63`. -/
def sparkEnvParamsV63 : ParamObj :=
  setParam (setParam (setParam (setParam (setParam sparkEnvParamsV62
    "FieldLength" (.num 18)) "FieldWidth" (.num 12))
    "GoalWidth" (.num (21/10))) "GoalDepth" (.num (3/5)))
    "FreeKickDistance" (.num (9/5))

/-- `SparkUtil.createEnvironmentParamsV64`. -/
def sparkEnvParamsV64 : ParamObj :=
  setParam (setParam sparkEnvParamsV63 "FieldLength" (.num 21)) "FieldWidth" (.num 14)

/-- `SparkUtil.createEnvironmentParamsV66`. -/
def sparkEnvParamsV66 : ParamObj :=
  setParam (setParam (setParam sparkEnvParamsV63 "FieldLength" (.num 30))
    "FieldWidth" (.num 20)) "FreeKickDistance" (.num 2)

/-- `SparkUtil.createDefaultPlayerTypeParams`: `nao_hetero` types 0–4 (ids
are the instance identities of the five fresh maps). -/
def sparkDefaultPlayerTypes : List (Option (ℕ × ParamObj)) :=
  (List.range 5).map (fun i =>
    some (i, [("model", .str "nao_hetero"), ("model_type", .num i)]))

/-- Modelled from the spec: the seeded 2D defaults (`SServerUtil.ts` is not
part of the provided sources).  The spec only fixes that versioned defaults
are seeded and that `frequency = 1000 / simulator_step`; the concrete
contents below (step 100 ms, seven empty default player types) follow the
sserver conventions and no theorem depends on them. -/
def sserverDefaultEnvParams : ParamObj := [(simulatorStepKey, .num 100)]

/-- Modelled from the spec: seeded 2D default player parameters. -/
def sserverDefaultPlayerParams : ParamObj := []

/-- Modelled from the spec: seeded 2D default player types. -/
def sserverDefaultPlayerTypes : List (Option (ℕ × ParamObj)) :=
  (List.range 7).map (fun i => some (i, []))

/-- `SimulationLog.updateFrequency`: read the step parameter for the
simulation type; a truthy value updates `frequency = 1000 / step`. -/
def updateFrequency (c : GCore) : GCore :=
  let step :=
    if c.simType = simTWOD then getNumberP c.environmentParams simulatorStepKey
    else getNumberP c.environmentParams logStepKey
  match step with
  | some v => if v ≠ 0 then { c with frequency := 1000 / v } else c
  | none => c

/-- The `SimulationLog` constructor (flattened for both subclasses): set the
type-specific defaults, then derive the frequency. -/
def mkGLog (simType : ℕ) (version : ℚ) : GLog :=
  let core : GCore :=
    { simType := simType
      version := version
      frequency := 1
      environmentParams :=
        if simType = simTWOD then sserverDefaultEnvParams else sparkEnvParamsV66
      playerParams := if simType = simTWOD then sserverDefaultPlayerParams else []
      playerTypes :=
        if simType = simTWOD then sserverDefaultPlayerTypes else sparkDefaultPlayerTypes
      leftTeam := ⟨-1, "Left Team", "0xffff00", []⟩
      rightTeam := ⟨1, "Right Team", "0xff0000", []⟩
      states := []
      fullyLoaded := false
      nextPMId := if simType = simTWOD then 7 else 5 }
  ⟨updateFrequency core, ⟨0, 0, 0, [], []⟩⟩

/-- The change-timeline loop of `SimulationLog.onStatesUpdated`: starting
from the first value, push a value exactly when it differs (by instance)
from the previously pushed one. -/
def changeTimeline {α : Type} [DecidableEq α] : α → List α → List α
  | prev, [] => [prev]
  | prev, b :: t =>
    if prev ≠ b then prev :: changeTimeline b t else changeTimeline prev t

/-- `SimulationLog.onStatesUpdated`: recompute start/end/duration and the
game-state/score change timelines from the states list (a no-op on the
derived data when the list is empty). -/
def onStatesUpdated (log : GLog) : GLog :=
  match log.core.states with
  | [] => log
  | s₀ :: rest =>
    let last := (s₀ :: rest).getLast (by simp)
    { log with derived :=
      { startTime := s₀.time
        endTime := last.time
        duration := last.time - s₀.time
        gameStateList := changeTimeline s₀.gameState (rest.map WorldState.gameState)
        gameScoreList := changeTimeline s₀.score (rest.map WorldState.score) } }

/-- `SimulationLog.finalize`. -/
def finalizeLog (log : GLog) : GLog :=
  onStatesUpdated { log with core := { log.core with fullyLoaded := true } }

/-! ## The `LogParserStorage` -/

structure LogParserStorage where
  partialState : Option PartialWorldState
  maxStates : ℕ
  leftIndexList : List (Option ℕ)
  rightIndexList : List (Option ℕ)
  deriving DecidableEq, Repr

def mkStorage : LogParserStorage := ⟨none, 500, [], []⟩

/-! ## The host environment

`JSON.parse`, `Math.sin`/`Math.cos` (through three.js quaternions) and
`Math.PI` are host builtins.  General theorems quantify over an arbitrary
host; concrete evaluations use `refHost` below, which is exact at every
argument reached by those evaluations. -/

structure JsHost where
  /-- `JSON.parse`, as a partial function into parameter objects
  (`none` = the JSON exception). -/
  jsonParse : String → Option ParamObj
  sin : ℚ → ℚ
  cos : ℚ → ℚ
  /-- The value of `Math.PI / 180`. -/
  piBy180 : ℚ

/-- `JsMath.toRad`. -/
def toRad (host : JsHost) (deg : ℚ) : ℚ := deg * host.piBy180

/-- three.js `Quaternion.setFromAxisAngle(new Vector3(0, 1, 0), angle)`:
`(0, sin(angle / 2), 0, cos(angle / 2))` as `(qx, qy, qz, qw)`. -/
def quatFromYAngle (host : JsHost) (angle : ℚ) : ℚ × ℚ × ℚ × ℚ :=
  (0, host.sin (angle / 2), 0, host.cos (angle / 2))

/-- Convert a JS number used as an array index: integral non-negative
numbers address elements; anything else addresses an ordinary object
property, invisible to array iteration. -/
def qToIdx (q : ℚ) : Option ℕ :=
  if q.den = 1 ∧ 0 ≤ q.num then some q.num.toNat else none

/-- Sparse read `l[q]` with a JS-number index. -/
def lookupSparse {α : Type} (l : List (Option α)) (q : ℚ) : Option α :=
  match qToIdx q with
  | some n => (l.getD n none)
  | none => none

/-- Sparse write `l[q] = v` with a JS-number index; a non-element index is
an ordinary property assignment, invisible to the array contents. -/
def writeSparse {α : Type} (l : List (Option α)) (q : ℚ) (v : α) : List (Option α) :=
  match qToIdx q with
  | some n => setSparse l n v
  | none => l

/-- Dense JS number-array write `l[i] = v`; holes created by writing past
the end are modelled as `0` (a `Float32Array` copy would turn them into
`NaN`; no theorem below evaluates a decode that creates holes). -/
def writeNumArr (l : List ℚ) (i : ℕ) (v : ℚ) : List ℚ :=
  if i < l.length then l.set i v
  else l ++ List.replicate (i - l.length) 0 ++ [v]

/-! Modelled from the spec: the `Agent2DData` slot indices and
`Agent2DFlags` bits (`SServerUtil.ts` is not part of the provided sources;
the spec fixes only that a bit-flag word and a generic data segment with
stamina/focus/count slots exist).  The concrete numbers below are
placeholders no theorem depends on. -/

def ad2STAMINA : ℕ := 0
def ad2STAMINA_EFFORT : ℕ := 1
def ad2STAMINA_RECOVERY : ℕ := 2
def ad2STAMINA_CAPACITY : ℕ := 3
def ad2FOCUS_SIDE : ℕ := 4
def ad2FOCUS_UNUM : ℕ := 5
def ad2KICK_COUNT : ℕ := 6
def ad2DASH_COUNT : ℕ := 7
def ad2TURN_COUNT : ℕ := 8
def ad2CATCH_COUNT : ℕ := 9
def ad2MOVE_COUNT : ℕ := 10
def ad2TURN_NECK_COUNT : ℕ := 11
def ad2VIEW_COUNT : ℕ := 12
def ad2SAY_COUNT : ℕ := 13
def ad2TACKLE_COUNT : ℕ := 14
def ad2POINT_TO_COUNT : ℕ := 15
def ad2ATTENTION_COUNT : ℕ := 16

/-- Modelled from the spec: `Agent2DFlags.STAND`. -/
def af2STAND : ℚ := 1

/-- Modelled from the spec: `Agent2DFlags.GOALIE`. -/
def af2GOALIE : ℚ := 2

/-- Modelled from the spec: `PlayerType2DParams.ID`, the key under which a
2D player type records its own index. -/
def playerTypeIdKey : String := "id"

/-! ## The ULG decoder: per-line handlers

The handler state is the pair of the log core and the parser storage; the
body loop's `try`/`catch` is folded into the handlers (a handler returns
the state as mutated up to the point where the source would throw). -/

abbrev LState := GCore × LogParserStorage

/-- `ULGParser.parseParameters`: parse the line as a symbol tree, then write
each well-formed name/value child pair into the parameter object (boolean
and quoted-string literals recognised by shape, everything else as a
float). -/
def parseParametersU (line : String) (params : ParamObj) : Except String ParamObj :=
  match symParse line with
  | .error e => .error e
  | .ok root =>
    .ok (root.children.foldl (fun ps child =>
      let vs := child.values
      if vs.length < 2 then ps
      else
        let k := vs.getD 0 ""
        let v := vs.getD 1 ""
        if v = "true" then setParam ps k (.bool true)
        else if v = "false" then setParam ps k (.bool false)
        else if jsCharAt v 0 = some '"' then
          setParam ps k (.str (copyString (jsSliceShrink v)))
        else setParam ps k (.num (jsParseFloat v))) params)

/-- `ULGParser.parseServerParamLine`: note that the map is cleared *before*
the token-tree parse, so a parse failure leaves it empty. -/
def parseServerParamLineU (line : String) (s : LState) : LState :=
  let core := { s.1 with environmentParams := [] }
  match parseParametersU line [] with
  | .error _ => (core, s.2)
  | .ok ps =>
    let core := updateFrequency { core with environmentParams := ps }
    let storage :=
      match s.2.partialState with
      | some pws =>
        { s.2 with partialState := (some { pws with timeStep := 1 / core.frequency }) }
      | none => s.2
    (core, storage)

/-- `ULGParser.parsePlayerParamLine` (clears before parsing, like
`parseServerParamLine`). -/
def parsePlayerParamLineU (line : String) (s : LState) : LState :=
  let core := { s.1 with playerParams := [] }
  match parseParametersU line [] with
  | .error _ => (core, s.2)
  | .ok ps => ({ core with playerParams := ps }, s.2)

/-- `ULGParser.parsePlayerTypeLine`: parse into a local object first; store
it under its own `id` parameter when that is a number. -/
def parsePlayerTypeLineU (line : String) (s : LState) : LState :=
  match parseParametersU line [] with
  | .error _ => s
  | .ok pt =>
    match getParam pt playerTypeIdKey with
    | some (.num q) =>
      let core := { s.1 with nextPMId := s.1.nextPMId + 1 }
      match qToIdx q with
      | some n =>
        ({ core with playerTypes := setSparse core.playerTypes n (s.1.nextPMId, pt) }, s.2)
      | none => (core, s.2)
    | _ => s

/-- `ULGParser.parsePlaymodeLine`: commit the pending snapshot, then set the
new game time and play mode. -/
def parsePlaymodeLineU (line : String) (s : LState) : LState :=
  match s.2.partialState with
  | none => s
  | some pws =>
    match symParse line with
    | .error _ => s
    | .ok root =>
      if root.values.length > 2 then
        let gameTime := jsParseIntDec (root.values.getD 1 "") / 10
        let (pws, states, _) := pws.appendTo s.1.states
        let pws := (pws.setGameTime gameTime).setPlaymode (copyString (root.values.getD 2 ""))
        ({ s.1 with states := states }, { s.2 with partialState := some pws })
      else s

/-- `ULGParser.parseTeamLine`: update the team names, commit the pending
snapshot, then set the new game time and score. -/
def parseTeamLineU (line : String) (s : LState) : LState :=
  match s.2.partialState with
  | none => s
  | some pws =>
    match symParse line with
    | .error _ => s
    | .ok root =>
      if root.values.length > 5 then
        let gameTime := jsParseIntDec (root.values.getD 1 "") / 10
        let goalsLeft := jsParseIntDec (root.values.getD 4 "")
        let goalsRight := jsParseIntDec (root.values.getD 5 "")
        let pens : ℚ × ℚ × ℚ × ℚ :=
          if root.values.length > 9 then
            (jsParseIntDec (root.values.getD 6 ""), jsParseIntDec (root.values.getD 7 ""),
             jsParseIntDec (root.values.getD 8 ""), jsParseIntDec (root.values.getD 9 ""))
          else (0, 0, 0, 0)
        let core := { s.1 with
          leftTeam := s.1.leftTeam.setName (copyString (root.values.getD 2 "")),
          rightTeam := s.1.rightTeam.setName (copyString (root.values.getD 3 "")) }
        let (pws, states, _) := pws.appendTo core.states
        let pws := (pws.setGameTime gameTime).setScore goalsLeft goalsRight
          pens.1 pens.2.1 pens.2.2.1 pens.2.2.2
        ({ core with states := states }, { s.2 with partialState := some pws })
      else s

/-- `ULGParser.parseBallState`: `((b) <x> <y> <vx> <vy>)`, the ball forced
to height `0.2` with identity orientation. -/
def parseBallStateU (node : SymbolNode) (pws : PartialWorldState) : PartialWorldState :=
  if node.values.length < 2 then pws
  else
    { pws with ballState :=
        ⟨encodeObjectState (jsParseFloat (node.values.getD 0 "")) (1/5)
          (jsParseFloat (node.values.getD 1 "")) 0 0 0 1⟩ }

/-- `ULGParser.parseAgentState` for one agent node of a `show` line:
register the player type, decode pose/joint/stamina/focus/count data and
store the agent state under its player number. -/
def parseAgentStateU (host : JsHost) (node : SymbolNode) (core : GCore)
    (team : TeamDescription) (teamStates : List (Option AgentState)) :
    TeamDescription × List (Option AgentState) :=
  if node.values.length < 7 then (team, teamStates)
  else
    let playerNo := jsParseIntDec (((node.children.getD 0 (.mk [] [])).values).getD 1 "")
    let typeIdx := jsParseIntDec (node.values.getD 0 "")
    let flags := jsParseIntHex (node.values.getD 1 "")
    let ptRef : Option ℕ := (lookupSparse core.playerTypes typeIdx).map Prod.fst
    let (team, _) := team.addAgent playerNo ptRef
    let px := jsParseFloat (node.values.getD 2 "")
    let pz := jsParseFloat (node.values.getD 3 "")
    let angle := jsParseFloat (node.values.getD 6 "")
    let quat := quatFromYAngle host (toRad host (-angle))
    let jointData : List ℚ :=
      if node.values.length > 7 then [toRad host (-(jsParseFloat (node.values.getD 7 "")))]
      else []
    let agentData : List ℚ :=
      (node.children.drop 1).foldl (fun ad child =>
        let vs := child.values
        if vs.length > 0 then
          if vs.getD 0 "" = "v" then ad
          else if vs.getD 0 "" = "s" then
            let ad := if vs.length > 1 then
              writeNumArr ad ad2STAMINA (jsParseFloat (vs.getD 1 "")) else ad
            let ad := if vs.length > 2 then
              writeNumArr ad ad2STAMINA_EFFORT (jsParseFloat (vs.getD 2 "")) else ad
            let ad := if vs.length > 3 then
              writeNumArr ad ad2STAMINA_RECOVERY (jsParseFloat (vs.getD 3 "")) else ad
            if vs.length > 4 then
              writeNumArr ad ad2STAMINA_CAPACITY (jsParseFloat (vs.getD 4 "")) else ad
          else if vs.getD 0 "" = "f" then
            if vs.length > 2 then
              writeNumArr (writeNumArr ad ad2FOCUS_SIDE
                  (if vs.getD 1 "" = "l" then -1 else 1))
                ad2FOCUS_UNUM (jsParseIntDec (vs.getD 2 ""))
            else ad
          else if vs.getD 0 "" = "c" then
            let idxs := [ad2KICK_COUNT, ad2DASH_COUNT, ad2TURN_COUNT, ad2CATCH_COUNT,
              ad2MOVE_COUNT, ad2TURN_NECK_COUNT, ad2VIEW_COUNT, ad2SAY_COUNT,
              ad2TACKLE_COUNT, ad2POINT_TO_COUNT, ad2ATTENTION_COUNT]
            (List.range 11).foldl (fun ad i =>
              if vs.length > i + 1 then
                writeNumArr ad (idxs.getD i 0) (jsParseIntDec (vs.getD (i + 1) ""))
              else ad) ad
          else ad
        else ad) []
    let st : AgentState :=
      ⟨encodeAgentState (team.getRecentTypeIdx playerNo) flags px 0 pz
        quat.1 quat.2.1 quat.2.2.1 quat.2.2.2 jointData agentData⟩
    (team, writeSparse teamStates playerNo st)

/-- `ULGParser.parseShowLine`: commit the pending snapshot, set the game
time, then decode the ball node and every agent node into the fresh
snapshot.  The second component is `true` exactly when the source call
returns without throwing (the body counts such lines against the batch
limit). -/
def parseShowLineU (host : JsHost) (line : String) (s : LState) : LState × Bool :=
  match s.2.partialState with
  | none => (s, true)
  | some pws =>
    match symParse line with
    | .error _ => (s, false)
    | .ok root =>
      if root.values.length > 1 then
        let (pws, states, _) := pws.appendTo s.1.states
        let pws := pws.setGameTime (jsParseIntDec (root.values.getD 1 "") / 10)
        let core := { s.1 with states := states }
        let folded :=
          root.children.foldl (fun (acc : GCore × PartialWorldState) child =>
            let (core, pws) := acc
            if child.children.length > 0 then
              if (child.children.getD 0 (.mk [] [])).values.getD 0 "" = "b" then
                (core, parseBallStateU child pws)
              else if (child.children.getD 0 (.mk [] [])).values.getD 0 "" = "l" then
                let (team, sts) :=
                  parseAgentStateU host child core core.leftTeam pws.leftAgentStates
                ({ core with leftTeam := team }, { pws with leftAgentStates := sts })
              else if (child.children.getD 0 (.mk [] [])).values.getD 0 "" = "r" then
                let (team, sts) :=
                  parseAgentStateU host child core core.rightTeam pws.rightAgentStates
                ({ core with rightTeam := team }, { pws with rightAgentStates := sts })
              else (core, pws)
            else (core, pws)) (core, pws)
        ((folded.1, { s.2 with partialState := some folded.2 }), true)
      else (s, true)

/-- The per-line dispatch of `ULGParser.parseULGBody` (the surrounding
`try`/`catch` is folded into the handlers; unknown lines are logged and
skipped).  The boolean reports whether the line counted as a show line. -/
def ulgHandle (host : JsHost) (line : String) (s : LState) : LState × Bool :=
  if jsSliceNat line 0 14 = "(server_param " then (parseServerParamLineU line s, false)
  else if jsSliceNat line 0 14 = "(player_param " then (parsePlayerParamLineU line s, false)
  else if jsSliceNat line 0 13 = "(player_type " then (parsePlayerTypeLineU line s, false)
  else if jsSliceNat line 0 6 = "(team " then (parseTeamLineU line s, false)
  else if jsSliceNat line 0 10 = "(playmode " then (parsePlaymodeLineU line s, false)
  else if jsSliceNat line 0 5 = "(msg " then (s, false)
  else if jsSliceNat line 0 6 = "(draw " then (s, false)
  else if jsSliceNat line 0 6 = "(show " then parseShowLineU host line s
  else (s, false)

/-! ## The Replay decoder: per-line handlers -/

/-- `parseEnvironmentParams` (`EP <json>`): parse the JSON first, replace the
map wholesale on success, then refresh frequency and time step either way. -/
def parseEnvParamsR (host : JsHost) (line : String) (s : LState) : LState :=
  let core :=
    match host.jsonParse (jsDrop line 3) with
    | some ps => { s.1 with environmentParams := ps }
    | none => s.1
  let core := updateFrequency core
  let storage :=
    match s.2.partialState with
    | some pws =>
      { s.2 with partialState := (some { pws with timeStep := 1 / core.frequency }) }
    | none => s.2
  (core, storage)

/-- `parsePlayerParams` (`PP <json>`). -/
def parsePlayerParamsR (host : JsHost) (line : String) (s : LState) : LState :=
  match host.jsonParse (jsDrop line 3) with
  | some ps => ({ s.1 with playerParams := ps }, s.2)
  | none => s

/-- `parsePlayerTypeParams` (`PT <idx> <json>`). -/
def parsePlayerTypeParamsR (host : JsHost) (line : String) (s : LState) : LState :=
  match jsIndexOfFrom line ' ' 4 with
  | none => s
  | some idx =>
    if 3 < idx ∧ idx < 10 then
      let typeIdx := jsParseIntDec (jsSliceNat line 3 idx)
      match host.jsonParse (jsDrop line (idx + 1)) with
      | some ps =>
        let core := { s.1 with nextPMId := s.1.nextPMId + 1 }
        match qToIdx typeIdx with
        | some n =>
          ({ core with playerTypes := setSparse core.playerTypes n (s.1.nextPMId, ps) }, s.2)
        | none => (core, s.2)
      | none => s
    else s

/-- `parseTeamLine` (`T <left> <right>[ <left-color> <right-color>]`). -/
def parseTeamLineR (line : String) (s : LState) : LState :=
  let tk := jsSplitSpace line
  if tk.length < 3 then s
  else
    let core := { s.1 with
      leftTeam := s.1.leftTeam.setName (copyString (tk.getD 1 "")),
      rightTeam := s.1.rightTeam.setName (copyString (tk.getD 2 "")) }
    if tk.length > 4 then
      ({ core with
          leftTeam := core.leftTeam.setColor (tk.getD 3 ""),
          rightTeam := core.rightTeam.setColor (tk.getD 4 "") }, s.2)
    else (core, s.2)

/-- `parseStateLine` (`S <game-time> <playmode> <scores…>`): commit the
pending snapshot (creating the accumulator on the first `S` line), then set
game time, play mode and score.  The boolean reports whether a new world
state was committed. -/
def parseStateLineR (line : String) (s : LState) : LState × Bool :=
  let tk := jsSplitSpace line
  if tk.length < 5 then (s, false)
  else
    let (pws, states, created) :=
      match s.2.partialState with
      | some pws =>
        let (pws, states, created) := pws.appendTo s.1.states
        (pws, states, created)
      | none => (mkPartialWorldState 0 (1 / s.1.frequency) 0, s.1.states, false)
    let gameTime :=
      if s.1.version = 0 then jsParseFloat (tk.getD 1 "") / 10
      else jsParseFloat (tk.getD 1 "")
    let pws := (pws.setGameTime gameTime).setPlaymode (copyString (tk.getD 2 ""))
    let pws :=
      if tk.length > 8 then
        pws.setScore (jsParseIntDec (tk.getD 3 "")) (jsParseIntDec (tk.getD 4 ""))
          (jsParseIntDec (tk.getD 5 "")) (jsParseIntDec (tk.getD 6 ""))
          (jsParseIntDec (tk.getD 7 "")) (jsParseIntDec (tk.getD 8 ""))
      else pws.setScore (jsParseIntDec (tk.getD 3 "")) (jsParseIntDec (tk.getD 4 "")) 0 0 0 0
    (({ s.1 with states := states }, { s.2 with partialState := some pws }), created)

/-- `parseBallState_2D` (`b <x> <y>`): height forced to `0.2`. -/
def parseBallState2D (line : String) (s : LState) : LState :=
  let tk := jsSplitSpace line
  match s.2.partialState with
  | none => s
  | some pws =>
    if tk.length < 3 then s
    else
      (s.1,
       { s.2 with partialState := some { pws with ballState :=
          ⟨encodeObjectState (jsParseFloat (tk.getD 1 "")) (1/5)
            (jsParseFloat (tk.getD 2 "")) 0 0 0 1⟩ } })

/-- `parseBallState_V0_3D` (`b` + 7 scaled integers): position and
quaternion scaled by 1/1000, vertical/depth axes swapped, depth negated. -/
def parseBallStateV03D (line : String) (s : LState) : LState :=
  let tk := jsSplitSpace line
  match s.2.partialState with
  | none => s
  | some pws =>
    if tk.length < 8 then s
    else
      (s.1,
       { s.2 with partialState := some { pws with ballState :=
          ⟨encodeObjectState
            (jsParseIntDec (tk.getD 1 "") / 1000)
            (jsParseIntDec (tk.getD 3 "") / 1000)
            (-(jsParseIntDec (tk.getD 2 "")) / 1000)
            (jsParseIntDec (tk.getD 5 "") / 1000)
            (jsParseIntDec (tk.getD 7 "") / 1000)
            (-(jsParseIntDec (tk.getD 6 "")) / 1000)
            (jsParseIntDec (tk.getD 4 "") / 1000)⟩ } })

/-- `parseBallState_V1_3D` (`b` + 7 floats, same axis convention). -/
def parseBallStateV13D (line : String) (s : LState) : LState :=
  let tk := jsSplitSpace line
  match s.2.partialState with
  | none => s
  | some pws =>
    if tk.length < 8 then s
    else
      (s.1,
       { s.2 with partialState := some { pws with ballState :=
          ⟨encodeObjectState
            (jsParseFloat (tk.getD 1 ""))
            (jsParseFloat (tk.getD 3 ""))
            (-(jsParseFloat (tk.getD 2 "")))
            (jsParseFloat (tk.getD 5 ""))
            (jsParseFloat (tk.getD 7 ""))
            (-(jsParseFloat (tk.getD 6 "")))
            (jsParseFloat (tk.getD 4 ""))⟩ } })

/-- `parseAgentState_V0_2D`: heading in degrees, negated, about the
vertical axis; an optional second angle yields a neck joint as the wrapped
angular delta, plus a stamina value. -/
def parseAgentStateV02D (host : JsHost) (line : String) (s : LState)
    (leftSide : Bool) : LState :=
  let tk := jsSplitSpace line
  match s.2.partialState with
  | none => s
  | some pws =>
    if tk.length < 5 then s
    else
      let playerNo := jsParseIntDec (tk.getD 1 "")
      let flags :=
        if tk.getD 0 "" = "L" ∨ tk.getD 0 "" = "R" then af2STAND + af2GOALIE
        else af2STAND
      let px := jsParseFloat (tk.getD 2 "")
      let pz := jsParseFloat (tk.getD 3 "")
      let angle := jsParseFloat (tk.getD 4 "")
      let quat := quatFromYAngle host (toRad host (-angle))
      let (jointData, agentData) : List ℚ × List ℚ :=
        if tk.length > 6 then
          let a := jsParseFloat (tk.getD 5 "") - angle
          let a := if a > 180 then a - 360 else if a < -180 then a + 360 else a
          ([toRad host (-a)], [jsParseFloat (jsDrop (tk.getD 6 "") 1)])
        else ([], [])
      let st : AgentState :=
        ⟨encodeAgentState 0 flags px 0 pz quat.1 quat.2.1 quat.2.2.1 quat.2.2.2
          jointData agentData⟩
      if leftSide then
        (s.1, { s.2 with partialState :=
            (some { pws with leftAgentStates := writeSparse pws.leftAgentStates playerNo st }) })
      else
        (s.1, { s.2 with partialState :=
          (some { pws with rightAgentStates := writeSparse pws.rightAgentStates playerNo st }) })

/-- `parseAgentState_V0_3D`: scaled integer pose with swapped/negated axes;
joint angles in hundredths of a degree arrive in the historical order
(head, left arm, left legs, right arm, right legs) and are reshuffled into
the canonical order (head, right arm, left arm, right legs, left legs). -/
def parseAgentStateV03D (host : JsHost) (line : String) (s : LState)
    (leftSide : Bool) : LState :=
  let tk := jsSplitSpace line
  match s.2.partialState with
  | none => s
  | some pws =>
    if tk.length < 9 then s
    else
      let playerNo := jsParseIntDec (tk.getD 1 "")
      let team := if leftSide then s.1.leftTeam else s.1.rightTeam
      let indexList := if leftSide then s.2.leftIndexList else s.2.rightIndexList
      let hasModel := tk.getD 0 "" = "L" ∨ tk.getD 0 "" = "R"
      if hasModel ∧ tk.length < 10 then s
      else
        let dataIdx := if hasModel then 3 else 2
        let (team, indexList) :=
          if hasModel then
            let modelType := jsParseIntDec (jsSliceLast (tk.getD 2 ""))
            let ptRef : Option ℕ := (lookupSparse s.1.playerTypes modelType).map Prod.fst
            let (team, _) := team.addAgent playerNo ptRef
            (team, writeSparse indexList playerNo (team.getRecentTypeIdx playerNo))
          else (team, indexList)
        let modelIdx : ℚ :=
          match lookupSparse indexList playerNo with
          | some m => (m : ℚ)
          | none => 0
        let px := jsParseIntDec (tk.getD dataIdx "") / 1000
        let py := jsParseIntDec (tk.getD (dataIdx + 2) "") / 1000
        let pz := -(jsParseIntDec (tk.getD (dataIdx + 1) "")) / 1000
        let qx := jsParseIntDec (tk.getD (dataIdx + 4) "") / 1000
        let qy := jsParseIntDec (tk.getD (dataIdx + 6) "") / 1000
        let qz := -(jsParseIntDec (tk.getD (dataIdx + 5) "")) / 1000
        let qw := jsParseIntDec (tk.getD (dataIdx + 3) "") / 1000
        let jStart := dataIdx + 7
        let numLegJoints := if tk.length - jStart > 22 then 7 else 6
        let grab := fun (start cnt : ℕ) =>
          ((tk.drop start).take cnt).map (fun t => toRad host (jsParseFloat t / 100))
        let headData := grab jStart 2
        let i₁ := jStart + headData.length
        let lArmData := grab i₁ 4
        let i₂ := i₁ + lArmData.length
        let lLegData := grab i₂ numLegJoints
        let i₃ := i₂ + lLegData.length
        let rArmData := grab i₃ 4
        let i₄ := i₃ + rArmData.length
        let rLegData := grab i₄ numLegJoints
        let jointData := headData ++ rArmData ++ lArmData ++ rLegData ++ lLegData
        let st : AgentState :=
          ⟨encodeAgentState modelIdx 0 px py pz qx qy qz qw jointData []⟩
        let core :=
          if leftSide then { s.1 with leftTeam := team } else { s.1 with rightTeam := team }
        let storage :=
          if leftSide then
            { s.2 with leftIndexList := indexList, partialState :=
              (some { pws with leftAgentStates := writeSparse pws.leftAgentStates playerNo st }) }
          else
            { s.2 with rightIndexList := indexList, partialState :=
              (some { pws with rightAgentStates := writeSparse pws.rightAgentStates playerNo st }) }
        (core, storage)

/-- `parseJointNode`: push every value of a `j` node, scaled by
degrees-to-radians (sign negated for 2D headings). -/
def parseJointNodeVals (host : JsHost) (node : SymbolNode) (is2D : Bool) : List ℚ :=
  (node.values.drop 1).map (fun v =>
    jsParseFloat v * (if is2D then -host.piBy180 else host.piBy180))

/-- `parseAgentState_V1`: token-tree agent line (2D and 3D layouts), with
optional leading type index on uppercase tags, hex flags field and optional
`j`/`s` sub-nodes. -/
def parseAgentStateV1 (host : JsHost) (line : String) (s : LState)
    (leftSide : Bool) : LState :=
  match symParse ("(" ++ line ++ ")") with
  | .error _ => s
  | .ok root =>
    match s.2.partialState with
    | none => s
    | some pws =>
      if root.values.length < 6 then s
      else
        let vs := root.values
        let playerNo := jsParseIntDec (vs.getD 1 "")
        let team := if leftSide then s.1.leftTeam else s.1.rightTeam
        let indexList := if leftSide then s.2.leftIndexList else s.2.rightIndexList
        let hasModel := vs.getD 0 "" = "L" ∨ vs.getD 0 "" = "R"
        let (team, indexList, dataIdx) :=
          if hasModel then
            let ptRef : Option ℕ :=
              (lookupSparse s.1.playerTypes (jsParseIntDec (vs.getD 2 ""))).map Prod.fst
            let (team, _) := team.addAgent playerNo ptRef
            (team, writeSparse indexList playerNo (team.getRecentTypeIdx playerNo), 3)
          else (team, indexList, 2)
        let modelIdx : ℚ :=
          match lookupSparse indexList playerNo with
          | some m => (m : ℚ)
          | none => 0
        let flags := jsParseIntHex (vs.getD dataIdx "")
        let dataIdx := dataIdx + 1
        let is2D := s.1.simType = simTWOD
        let (px, py, pz, qx, qy, qz, qw) :=
          if is2D then
            let quat :=
              quatFromYAngle host (toRad host (-1 * jsParseFloat (vs.getD (dataIdx + 2) "")))
            (jsParseFloat (vs.getD dataIdx ""), 0, jsParseFloat (vs.getD (dataIdx + 1) ""),
             quat.1, quat.2.1, quat.2.2.1, quat.2.2.2)
          else
            (jsParseFloat (vs.getD dataIdx ""), jsParseFloat (vs.getD (dataIdx + 2) ""),
             -(jsParseFloat (vs.getD (dataIdx + 1) "")),
             jsParseFloat (vs.getD (dataIdx + 4) ""), jsParseFloat (vs.getD (dataIdx + 6) ""),
             -(jsParseFloat (vs.getD (dataIdx + 5) "")), jsParseFloat (vs.getD (dataIdx + 3) ""))
        let (jointData, agentData) :=
          root.children.foldl (fun (acc : List ℚ × List ℚ) child =>
            if child.values.getD 0 "" = "j" then
              (acc.1 ++ parseJointNodeVals host child is2D, acc.2)
            else if child.values.getD 0 "" = "s" then
              (acc.1, writeNumArr acc.2 ad2STAMINA (jsParseFloat (child.values.getD 1 "")))
            else acc) ([], [])
        let st : AgentState :=
          ⟨encodeAgentState modelIdx flags px py pz qx qy qz qw jointData agentData⟩
        let core :=
          if leftSide then { s.1 with leftTeam := team } else { s.1 with rightTeam := team }
        let storage :=
          if leftSide then
            { s.2 with leftIndexList := indexList, partialState :=
              (some { pws with leftAgentStates := writeSparse pws.leftAgentStates playerNo st }) }
          else
            { s.2 with rightIndexList := indexList, partialState :=
              (some { pws with rightAgentStates := writeSparse pws.rightAgentStates playerNo st }) }
        (core, storage)

/-- The ball-line decoder selected by `parseReplayBody` from the log's
type and version. -/
def replayBallFcn (line : String) (s : LState) : LState :=
  if s.1.simType = simTHREED then
    if s.1.version = 0 then parseBallStateV03D line s else parseBallStateV13D line s
  else parseBallState2D line s

/-- The agent-line decoder selected by `parseReplayBody` from the log's
type and version. -/
def replayAgentFcn (host : JsHost) (line : String) (s : LState) (leftSide : Bool) :
    LState :=
  if s.1.simType = simTHREED then
    if s.1.version = 0 then parseAgentStateV03D host line s leftSide
    else parseAgentStateV1 host line s leftSide
  else
    if s.1.version > 0 then parseAgentStateV1 host line s leftSide
    else parseAgentStateV02D host line s leftSide

/-- The per-line dispatch of `parseReplayBody` (a flat switch on the first
one or two characters; unmatched tags are skipped).  The boolean reports
whether the line committed a new world state. -/
def replayHandle (host : JsHost) (line : String) (s : LState) : LState × Bool :=
  match jsCharAt line 0 with
  | some 'E' =>
    if jsCharAt line 1 = some 'P' then (parseEnvParamsR host line s, false) else (s, false)
  | some 'P' =>
    if jsCharAt line 1 = some 'P' then (parsePlayerParamsR host line s, false)
    else if jsCharAt line 1 = some 'T' then (parsePlayerTypeParamsR host line s, false)
    else (s, false)
  | some 'T' => (parseTeamLineR line s, false)
  | some 'S' => parseStateLineR line s
  | some 'b' => (replayBallFcn line s, false)
  | some 'l' => (replayAgentFcn host line s true, false)
  | some 'L' => (replayAgentFcn host line s true, false)
  | some 'r' => (replayAgentFcn host line s false, false)
  | some 'R' => (replayAgentFcn host line s false, false)
  | _ => (s, false)

/-! ## The body-parsing loop

Both decoders drive the same loop shape: process the current line, fetch
the next, stop after `storage.maxStates` state-bearing lines and schedule a
continuation (`setTimeout`) when a line remains; when the input is
exhausted and not partial, commit the pending snapshot and finalize the
log.  `bodyPass` is a *single* invocation of `parseReplayBody` /
`parseULGBody` (what one task-queue entry executes); `bodyDrain` is the
invocation together with its whole continuation cascade, which is the
state the claims about final logs speak about ("after all scheduled
continuations have run"). -/

/-- The decoder state a body loop evolves: the full log and the parser
storage. -/
abbrev DState := GLog × LogParserStorage

/-- Apply a per-line handler (which touches only the log core). -/
def applyHandle (h : String → LState → LState × Bool) (line : String) (d : DState) :
    DState × Bool :=
  let ((c, st), b) := h line (d.1.core, d.2)
  ((⟨c, d.1.derived⟩, st), b)

/-- The per-batch `onStatesUpdated` refresh. -/
def refreshD (d : DState) : DState := (onStatesUpdated d.1, d.2)

/-- The end-of-data step (`!partial` and no line left): push the pending
snapshot and finalize the log. -/
def endD (d : DState) : DState :=
  let (log, st) := d
  let (log, st) :=
    match st.partialState with
    | some pws =>
      let (pws, states, _) := pws.appendTo log.core.states
      (({ log with core := { log.core with states := states } } : GLog),
       { st with partialState := some pws })
    | none => (log, st)
  (finalizeLog log, st)

/-- The body loop proper (`while (!!line && newStatesCnt < maxStates)`),
returning the iterator (whose `line` is the unprocessed line, if any), the
state, the state-line count and the processed-line count.  Fuel-recursive;
a successful `next` strictly advances the cursor, so
`data.length + 1` steps always suffice. -/
def bodyPassLoop (h : String → LState → LState × Bool) :
    ℕ → Iter → DState → ℕ → ℕ → Iter × DState × ℕ × ℕ
  | 0, it, d, cnt, ln => (it, d, cnt, ln)
  | fuel + 1, it, d, cnt, ln =>
    match it.line with
    | none => (it, d, cnt, ln)
    | some l =>
      if cnt ≥ d.2.maxStates then (it, d, cnt, ln)
      else
        let (d, isSt) := applyHandle h l d
        bodyPassLoop h fuel ((itNext it).1) d (cnt + if isSt then 1 else 0) (ln + 1)

/-- One invocation of the body-parsing pass: the restart attempt
(`if (!line) line = iterator.next()`), the bounded loop, the per-batch
refresh, then either a scheduled continuation (third component `true`) or,
at the end of non-partial data, the final commit.  The last two components
are the number of state-bearing lines and the number of lines processed by
this single invocation. -/
def bodyPass (h : String → LState → LState × Bool) (it : Iter) (d : DState) :
    Iter × DState × Bool × ℕ × ℕ :=
  let it := if it.line.isNone then (itNext it).1 else it
  let (it, d, cnt, ln) := bodyPassLoop h (2 * it.data.length + 2) it d 0 0
  let d := if cnt > 0 then refreshD d else d
  if it.line.isSome then (it, d, true, cnt, ln)
  else if ¬ it.partialData then (itDispose it, endD d, false, cnt, ln)
  else (it, d, false, cnt, ln)

/-- The body pass together with its continuation cascade: a batch boundary
(`cnt ≥ maxStates` with a line remaining) refreshes and re-enters with a
fresh batch counter, exactly what the scheduled `setTimeout` continuation
does.  Fuel exhaustion is only reachable when `maxStates = 0`, a state the
`parse` entry points never create (the source would loop in the task queue
forever there). -/
def bodyDrainLoop (h : String → LState → LState × Bool) :
    ℕ → Iter → DState → ℕ → Iter × DState
  | 0, it, d, _ => (it, d)
  | fuel + 1, it, d, cnt =>
    match it.line with
    | none =>
      let d := if cnt > 0 then refreshD d else d
      if ¬ it.partialData then (itDispose it, endD d) else (it, d)
    | some l =>
      if cnt ≥ d.2.maxStates then
        let d := if cnt > 0 then refreshD d else d
        bodyDrainLoop h fuel it d 0
      else
        let (d, isSt) := applyHandle h l d
        bodyDrainLoop h fuel ((itNext it).1) d (cnt + if isSt then 1 else 0)

/-- The continuation-complete body run. -/
def bodyDrain (h : String → LState → LState × Bool) (it : Iter) (d : DState) :
    Iter × DState :=
  let it := if it.line.isNone then (itNext it).1 else it
  bodyDrainLoop h (2 * it.data.length + 4) it d 0

/-! ## `ULGParser.parse` -/

structure UParserObj where
  iterator : Option Iter
  sserverLog : Option GLog
  storage : Option LogParserStorage

def emptyUParser : UParserObj := ⟨none, none, none⟩

/-- The header test of `ULGParser.parse`, exactly as written: the error is
raised only when *all three* positions mismatch (`&&` in the source). -/
def ulgHeaderBad (line : String) : Bool :=
  jsCharAt line 0 ≠ some 'U' ∧ jsCharAt line 1 ≠ some 'L' ∧ jsCharAt line 2 ≠ some 'G'

/-- `ULGParser.parse(data, ressource, partial, incremental)`.  Structural
failures are the `Except.error` results; the parser object is returned as
mutated up to the throw point (`this.iterator` is assigned before the
header check).  The scheduled continuations of the body are run to
completion; as the batch bound is positive, the states list is empty after
the source's own call returns exactly when it is empty after the cascade,
so the `Empty log` check and the returned boolean are unaffected. -/
def uparse (host : JsHost) (p : UParserObj) (data : String)
    (partialD incremental : Bool) : UParserObj × Except String Bool :=
  match p.iterator, p.sserverLog, p.storage with
  | some it, some log, some st =>
    let wasEmpty := log.core.states.isEmpty
    let (it, doBody) := itUpdate it data partialD incremental
    let (it, log, st) :=
      if doBody then
        let (it, d) := bodyDrain (ulgHandle host) it (log, st)
        (it, d.1, d.2)
      else (it, log, st)
    let p : UParserObj := ⟨some it, some log, some st⟩
    if ¬ partialD ∧ log.core.states.isEmpty then (p, .error "Empty SServer log file!")
    else (p, .ok (wasEmpty ∧ ¬ log.core.states.isEmpty))
  | _, _, _ =>
    let it := mkIter data partialD
    let (it, lineQ) := itNext it
    match lineQ with
    | none =>
      (⟨some it, none, none⟩, .error "Failed parsing ULG log file - no ULG header found!")
    | some line =>
      if ulgHeaderBad line then
        (⟨some it, none, none⟩, .error "Failed parsing ULG log file - no ULG header found!")
      else
        let ulgVersion := jsParseIntDec (jsDrop line 3)
        let log := mkGLog simTWOD ulgVersion
        let st : LogParserStorage :=
          { mkStorage with partialState := some (mkPartialWorldState 0 (1/10) 0),
                           maxStates := 100 }
        let (it, _) := itNext it
        let (it, d) := bodyDrain (ulgHandle host) it (log, st)
        let (log, st) := d
        let p : UParserObj := ⟨some it, some log, some st⟩
        if ¬ partialD ∧ log.core.states.isEmpty then (p, .error "Empty SServer log file!")
        else (p, .ok (¬ log.core.states.isEmpty))

/-! ## `ReplayParser.parse` -/

structure RParserObj where
  iterator : Option Iter
  replay : Option GLog
  storage : Option LogParserStorage

def emptyRParser : RParserObj := ⟨none, none, none⟩

/-- The `T`-legacy header creates default agents 1–11 on both sides with
`playerTypes[0]`. -/
def addDefaultAgents (log : GLog) : GLog :=
  let pt : Option ℕ := (lookupSparse log.core.playerTypes 0).map Prod.fst
  let left := (List.range 11).foldl (fun t i => (t.addAgent ((i + 1 : ℕ) : ℚ) pt).1)
    log.core.leftTeam
  let right := (List.range 11).foldl (fun t i => (t.addAgent ((i + 1 : ℕ) : ℚ) pt).1)
    log.core.rightTeam
  { log with core := { log.core with leftTeam := left, rightTeam := right } }

/-- The common tail of every successful `ReplayParser.parse` header branch:
create the storage with the family batch bound (300 for 2D, 50 for 3D),
run the body, and check for an empty log on non-partial data. -/
def rFinishInit (host : JsHost) (it : Iter) (log : GLog) (partialD : Bool) :
    RParserObj × Except String Bool :=
  let st : LogParserStorage :=
    { mkStorage with maxStates := if log.core.simType = simTWOD then 300 else 50 }
  let (it, d) := bodyDrain (replayHandle host) it (log, st)
  let (log, st) := d
  let p : RParserObj := ⟨some it, some log, some st⟩
  if ¬ partialD ∧ log.core.states.isEmpty then (p, .error "Empty replay file!")
  else (p, .ok (¬ log.core.states.isEmpty))

/-- `ReplayParser.parse`: the `RPL` header and the two legacy fallbacks
(`T…` for the initial 2D format, `V…` for the initial 3D format with its
teams and world lines), then the body; the progress path mirrors
`ULGParser.parse`. -/
def rparse (host : JsHost) (p : RParserObj) (data : String)
    (partialD incremental : Bool) : RParserObj × Except String Bool :=
  match p.iterator, p.replay, p.storage with
  | some it, some log, some st =>
    let wasEmpty := log.core.states.isEmpty
    let (it, doBody) := itUpdate it data partialD incremental
    let (it, log, st) :=
      if doBody then
        let (it, d) := bodyDrain (replayHandle host) it (log, st)
        (it, d.1, d.2)
      else (it, log, st)
    let p : RParserObj := ⟨some it, some log, some st⟩
    if ¬ partialD ∧ log.core.states.isEmpty then (p, .error "Empty replay file!")
    else (p, .ok (wasEmpty ∧ ¬ log.core.states.isEmpty))
  | _, _, _ =>
    let it := mkIter data partialD
    let (it, lineQ) := itNext it
    match lineQ with
    | none => (⟨some it, none, none⟩, .error "Replay corrupt!")
    | some line =>
      let tk := jsSplitSpace line
      if jsCharAt line 0 = some 'R' ∧ jsCharAt line 1 = some 'P' ∧
         jsCharAt line 2 = some 'L' then
        if tk.length < 3 then
          (⟨some it, none, none⟩, .error "Malformated Replay Header!")
        else
          let ty := if tk.getD 1 "" = "2D" then simTWOD else simTHREED
          let log := mkGLog ty (jsParseIntDec (tk.getD 2 ""))
          let (it, _) := itNext it
          rFinishInit host it log partialD
      else if jsCharAt line 0 = some 'T' then
        if tk.length < 3 then (⟨some it, none, none⟩, .error "Invalid team line!")
        else
          let log := mkGLog simTWOD 0
          let log := { log with core := { log.core with
            leftTeam := log.core.leftTeam.setName (copyString (jsSliceShrink (tk.getD 1 ""))),
            rightTeam := log.core.rightTeam.setName (copyString (jsSliceShrink (tk.getD 2 ""))) } }
          let (it, _) := itNext it
          let log := addDefaultAgents log
          rFinishInit host it log partialD
      else if jsCharAt line 0 = some 'V' then
        if tk.length < 4 then
          (⟨some it, none, none⟩, .error "Malformated Replay Header!")
        else
          let log := mkGLog simTHREED 0
          let log := { log with core := { log.core with
            frequency := jsParseIntDec (tk.getD 3 "") } }
          let (it, line2Q) := itNext it
          match line2Q with
          | none => (⟨some it, some log, none⟩, .error "Replay corrupt!")
          | some line2 =>
            let tk2 := jsSplitSpace line2
            if tk2.length < 5 ∨ tk2.getD 0 "" ≠ "T" then
              (⟨some it, some log, none⟩, .error "Invalid teams line!")
            else
              let log := { log with core := { log.core with
                leftTeam := ((log.core.leftTeam.setName
                  (copyString (jsSliceShrink (tk2.getD 1 "")))).setColor (tk2.getD 2 "")),
                rightTeam := ((log.core.rightTeam.setName
                  (copyString (jsSliceShrink (tk2.getD 3 "")))).setColor (tk2.getD 4 "")) } }
              let (it, line3Q) := itNext it
              match line3Q with
              | none => (⟨some it, some log, none⟩, .error "Replay corrupt!")
              | some line3 =>
                let tk3 := jsSplitSpace line3
                if tk3.length < 2 ∨ tk3.getD 0 "" ≠ "F" then
                  (⟨some it, some log, none⟩, .error "Invalid world line!")
                else
                  let sv := jsParseIntDec (tk3.getD 1 "")
                  let log :=
                    if sv = 62 then { log with core := { log.core with
                      environmentParams := sparkEnvParamsV62 } }
                    else if sv = 63 then { log with core := { log.core with
                      environmentParams := sparkEnvParamsV63 } }
                    else if sv = 64 then { log with core := { log.core with
                      environmentParams := sparkEnvParamsV64 } }
                    else if sv = 66 then { log with core := { log.core with
                      environmentParams := sparkEnvParamsV66 } }
                    else log
                  let (it, _) := itNext it
                  rFinishInit host it log partialD
      else
        (⟨some it, none, none⟩,
         .error "Failed parsing replay file - no Replay header found!")

/-- The fresh storage `ReplayParser` creates after a successful header:
the family batch bound is 300 for 2D and 50 for 3D. -/
def rInitStorage (log : GLog) : LogParserStorage :=
  { mkStorage with maxStates := if log.core.simType = simTWOD then 300 else 50 }

/-- The log the `T`-legacy (initial 2D) header builds before the body. -/
def tLegacyLog (line : String) : GLog :=
  let tk := jsSplitSpace line
  let log := mkGLog simTWOD 0
  let log := { log with core := { log.core with
    leftTeam := log.core.leftTeam.setName (copyString (jsSliceShrink (tk.getD 1 ""))),
    rightTeam := log.core.rightTeam.setName (copyString (jsSliceShrink (tk.getD 2 ""))) } }
  addDefaultAgents log

/-- The log the `V`-legacy (initial 3D) three-line header builds before
the body. -/
def vLegacyLog (line line2 line3 : String) : GLog :=
  let tk := jsSplitSpace line
  let tk2 := jsSplitSpace line2
  let tk3 := jsSplitSpace line3
  let log := mkGLog simTHREED 0
  let log := { log with core := { log.core with
    frequency := jsParseIntDec (tk.getD 3 "") } }
  let log := { log with core := { log.core with
    leftTeam := ((log.core.leftTeam.setName
      (copyString (jsSliceShrink (tk2.getD 1 "")))).setColor (tk2.getD 2 "")),
    rightTeam := ((log.core.rightTeam.setName
      (copyString (jsSliceShrink (tk2.getD 3 "")))).setColor (tk2.getD 4 "")) } }
  let sv := jsParseIntDec (tk3.getD 1 "")
  if sv = 62 then { log with core := { log.core with
    environmentParams := sparkEnvParamsV62 } }
  else if sv = 63 then { log with core := { log.core with
    environmentParams := sparkEnvParamsV63 } }
  else if sv = 64 then { log with core := { log.core with
    environmentParams := sparkEnvParamsV64 } }
  else if sv = 66 then { log with core := { log.core with
    environmentParams := sparkEnvParamsV66 } }
  else log

/-! ## Whole-input and chunked runs -/

/-- A single complete, non-partial `parse` call on the whole text. -/
def ulgParseFull (host : JsHost) (text : String) : UParserObj × Except String Bool :=
  uparse host emptyUParser text false false

/-- The incremental-partial protocol: every chunk but the last arrives with
`partial = true`, the last with `partial = false`; continuation chunks are
incremental. -/
def ulgParseChunksFrom (host : JsHost) : UParserObj → List String → UParserObj
  | p, [] => p
  | p, [c] => (uparse host p c false true).1
  | p, c :: rest => ulgParseChunksFrom host (uparse host p c true true).1 rest

def ulgParseChunks (host : JsHost) (chunks : List String) : UParserObj :=
  ulgParseChunksFrom host emptyUParser chunks

def rplParseFull (host : JsHost) (text : String) : RParserObj × Except String Bool :=
  rparse host emptyRParser text false false

def rplParseChunksFrom (host : JsHost) : RParserObj → List String → RParserObj
  | p, [] => p
  | p, [c] => (rparse host p c false true).1
  | p, c :: rest => rplParseChunksFrom host (rparse host p c true true).1 rest

def rplParseChunks (host : JsHost) (chunks : List String) : RParserObj :=
  rplParseChunksFrom host emptyRParser chunks

/-- The per-line fold of a handler over a list of lines (core and storage
only; the derived data is recomputed from the core at the end). -/
def lsFold (h : String → LState → LState × Bool) (ls : List String) (cs : LState) :
    LState :=
  ls.foldl (fun cs l => (h l cs).1) cs

/-- The core/storage effect of the end-of-data step. -/
def endCS (cs : LState) : LState :=
  match cs.2.partialState with
  | some pws =>
    let (pws2, states, _) := pws.appendTo cs.1.states
    ({ cs.1 with states := states, fullyLoaded := true },
     { cs.2 with partialState := some pws2 })
  | none => ({ cs.1 with fullyLoaded := true }, cs.2)

/-- The core/storage state created by a successful ULG header. -/
def ulgInitCS (headerLine : String) : LState :=
  ((mkGLog simTWOD (jsParseIntDec (jsDrop headerLine 3))).core,
   { mkStorage with partialState := some (mkPartialWorldState 0 (1/10) 0),
                    maxStates := 100 })

/-- The final world-state sequence held by a ULG parser (empty when no log
was ever created). -/
def statesOfU (p : UParserObj) : List WorldState :=
  match p.sserverLog with
  | some log => log.core.states
  | none => []

/-- The final world-state sequence held by a Replay parser. -/
def statesOfR (p : RParserObj) : List WorldState :=
  match p.replay with
  | some log => log.core.states
  | none => []

/-! ## A concrete reference host

`jsonParseFlat` models the host `JSON.parse` on the fragment the concrete
evaluations below feed it: a flat object whose keys are plain strings and
whose values are numbers.  On anything else it reports failure, which the
evaluations below never reach; the trigonometric entries are exact at `0`,
the only argument the evaluations below reach (every decoded heading angle
in the concrete inputs is `0`, so `Math.PI / 180` is multiplied by `0` and
its value is irrelevant). -/

def jfSkipWs (l : List Char) : List Char := l.dropWhile (fun c => c = ' ')

def jfString : List Char → Option (String × List Char)
  | '"' :: t =>
    let k := t.takeWhile (fun c => c ≠ '"')
    match t.drop k.length with
    | '"' :: r => some (⟨k⟩, r)
    | _ => none
  | _ => none

def jfNumber (l : List Char) : Option (ℚ × List Char) :=
  let (sg, l1) := takeSign l
  let (ip, ni, l2) := takeDigits digitVal 10 l1 0 0
  if ni = 0 then none
  else
    let (fp, nf, l3) :=
      match l2 with
      | '.' :: t => takeDigits digitVal 10 t 0 0
      | t => (0, 0, t)
    some ((sg : ℚ) * ((ip : ℚ) + (fp : ℚ) / (10 ^ nf : ℕ)), l3)

def jfPairs : ℕ → List Char → ParamObj → Option ParamObj
  | 0, _, _ => none
  | fuel + 1, l, acc =>
    match jfString (jfSkipWs l) with
    | none => none
    | some (k, r) =>
      match jfSkipWs r with
      | ':' :: r2 =>
        match jfNumber (jfSkipWs r2) with
        | none => none
        | some (v, r3) =>
          match jfSkipWs r3 with
          | ',' :: r4 => jfPairs fuel r4 (setParam acc k (.num v))
          | '}' :: r5 =>
            if (jfSkipWs r5).isEmpty then some (setParam acc k (.num v)) else none
          | _ => none
      | _ => none

/-- `JSON.parse` on flat numeric objects. -/
def jsonParseFlat (s : String) : Option ParamObj :=
  match jfSkipWs s.data with
  | '{' :: r =>
    match jfSkipWs r with
    | '}' :: r2 => if (jfSkipWs r2).isEmpty then some [] else none
    | _ => jfPairs (s.data.length + 1) r []
  | _ => none

def refHost : JsHost where
  jsonParse := jsonParseFlat
  sin := fun _ => 0
  cos := fun q => if q = 0 then 1 else 0
  piBy180 := 0

/-- A host whose `JSON.parse` throws on every input. -/
def noJsonHost : JsHost := { refHost with jsonParse := fun _ => none }

/-! ## The accumulator-level operation model (for the time-ordering claim)

Between two commits, the decoders mutate the accumulator and the log only
through the operations below: the field setters of `PartialWorldState`,
the time-step refresh performed by a parameter line, and `appendTo`.  The
states list is extended by `appendTo` alone, and `time` is advanced by
`appendTo` alone — which is how the ordering invariant is stated and
proved for every interleaving at once. -/

inductive PwsOp where
  | gameTime (q : ℚ)
  | playmode (pm : String)
  | score (a b c d e f : ℚ)
  | ball (o : ObjectState)
  | agentL (i : ℕ) (a : AgentState)
  | agentR (i : ℕ) (a : AgentState)
  | timeStep (q : ℚ)
  | commit

/-- Apply one accumulator operation to the accumulator and the log's
states list. -/
def applyPwsOp (s : PartialWorldState × List WorldState) (op : PwsOp) :
    PartialWorldState × List WorldState :=
  match op with
  | .gameTime q => (s.1.setGameTime q, s.2)
  | .playmode pm => (s.1.setPlaymode pm, s.2)
  | .score a b c d e f => (s.1.setScore a b c d e f, s.2)
  | .ball o => ({ s.1 with ballState := o }, s.2)
  | .agentL i a => ({ s.1 with leftAgentStates := setSparse s.1.leftAgentStates i a }, s.2)
  | .agentR i a => ({ s.1 with rightAgentStates := setSparse s.1.rightAgentStates i a }, s.2)
  | .timeStep q => ({ s.1 with timeStep := q }, s.2)
  | .commit =>
    let (p, states, _) := s.1.appendTo s.2
    (p, states)

/-- Apply a sequence of accumulator operations. -/
def applyPwsOps (ops : List PwsOp) (s : PartialWorldState × List WorldState) :
    PartialWorldState × List WorldState :=
  ops.foldl applyPwsOp s

/-- The time steps a sequence of operations installs. -/
def opsTimeSteps (ops : List PwsOp) : List ℚ :=
  ops.filterMap (fun op => match op with | .timeStep q => some q | _ => none)

/-- Strict monotonicity of the committed time stamps (executable form). -/
def timesIncreasingB : List WorldState → Bool
  | [] => true
  | [_] => true
  | a :: b :: t => (a.time < b.time) && timesIncreasingB (b :: t)

/-- Strict monotonicity of the committed time stamps: every adjacent pair
satisfies `states[i].time < states[i+1].time`. -/
def timeStrictMono (l : List WorldState) : Prop := timesIncreasingB l = true

/-- A rational on the millisecond grid. -/
def msMultiple (q : ℚ) : Prop := ∃ n : ℤ, q = (n : ℚ) / 1000

/-- The invariant carried through the accumulator operations: the clock is
on the millisecond grid, the pending step is at least one millisecond,
every committed state is strictly older than the clock, and the committed
times are strictly increasing. -/
def pwsInv (s : PartialWorldState × List WorldState) : Prop :=
  msMultiple s.1.time ∧ 1/1000 ≤ s.1.timeStep ∧
  (∀ w ∈ s.2, w.time < s.1.time) ∧ timesIncreasingB s.2 = true

/-- The number of maximal runs of equal consecutive elements. -/
def runCount {α : Type} [DecidableEq α] : List α → ℕ
  | [] => 0
  | [_] => 1
  | a :: b :: t => (if a = b then 0 else 1) + runCount (b :: t)

/-! ## Concrete sample inputs used by the theorems below -/

/-- A Replay 3D version-1 log whose `EP` line installs `log_step = 0.25`
(frequency 4000, time step 0.00025 s, which millisecond rounding collapses
to zero). -/
def cexTinyStepText : String :=
  "RPL 3D 1\nEP \x7b\"log_step\":0.25\x7d\nS 10 p 0 0\nl 1 0 0 0 0 0 0 0 0\nS 11 p 0 0\nl 1 0 0 0 0 0 0 0 0\nS 12 p 0 0\n"

/-- A minimal complete ULG log with one `show` line. -/
def ulgOneShowText : String := "ULG5\n(show 1 ((b) 0 0) ((l 1) 0 0 0 0 0 0 0))\n"

/-- `ulgOneShowText` split in the middle of its header line. -/
def ulgOneShowChunks : List String :=
  ["UL", "G5\n(show 1 ((b) 0 0) ((l 1) 0 0 0 0 0 0 0))\n"]

/-- A ULG log whose play mode changes away and back (`A`, `B`, `A`) between
two commits, with four committed ticks whose play-mode value is always
`A`. -/
def cexPlaymodeFlipText : String :=
  "ULG5\n(playmode 0 A)\n(show 1 ((b) 0 0) ((l 1) 0 0 0 0 0 0 0))\n(show 2 ((b) 0 0) ((l 1) 0 0 0 0 0 0 0))\n(playmode 2 B)\n(playmode 2 A)\n(show 3 ((b) 0 0) ((l 1) 0 0 0 0 0 0 0))\n(show 4 ((b) 0 0) ((l 1) 0 0 0 0 0 0 0))\n"

/-- A log whose first line starts with `XXG`, not `ULG` (only the third
header character matches). -/
def cexBadHeaderText : String := "XXG5\n(show 1 ((b) 0 0) ((l 1) 0 0 0 0 0 0 0))\n"

/-- Fifty-one decodable team-info lines for a 3D replay body. -/
def cexManyTeamLines : String := String.join (List.replicate 51 "T a b\n")

/-- A two-state log (equal play modes and scores under value equality,
fresh instances per tick as the decoders allocate them). -/
def cexC3Log : GLog :=
  { mkGLog simTWOD 5 with core := { (mkGLog simTWOD 5).core with states :=
      [⟨0, 0, ⟨0, 0, "A"⟩, ⟨1, 0, 0, 0, 0, 0, 0, 0⟩, [], [some [0]], []⟩,
       ⟨1, 0, ⟨0, 0, "A"⟩, ⟨1, 0, 0, 0, 0, 0, 0, 0⟩, [], [some [0]], []⟩] } }

/-- The sample ULG team line of the specification. -/
def sampleTeamLine : String := "(team 100 \"TeamA\" \"TeamB\" 1 0)"

/-- The sample Replay 3D version-0 agent line of the specification. -/
def sampleAgentLine3D : String := "l 1 1000 2000 500 1000 0 0 0"

/-- A fresh 3D version-0 decoder state with an accumulator present. -/
def sample3DState : LState :=
  ((mkGLog simTHREED 0).core,
   { mkStorage with partialState := some (mkPartialWorldState 0 (1/5) 0),
                    maxStates := 50 })

/-- A fresh 2D decoder state with an accumulator present (as the ULG
decoder creates it). -/
def sample2DState : LState :=
  ((mkGLog simTWOD 5).core,
   { mkStorage with partialState := some (mkPartialWorldState 0 (1/10) 0),
                    maxStates := 100 })

/-- A 2D log core whose environment parameters hold one known key. -/
def sampleEnvCore : GCore :=
  { (mkGLog simTWOD 5).core with environmentParams := [("foo", .num 5)] }

/-- A malformed `server_param` line (the token tree is never closed). -/
def badServerParamLine : String := "(server_param foo"

/-!
Theorems
-/

set_option maxRecDepth 16000

/-! ## Properties of the line cursor -/

theorem takeWhile_getD_pred {p : Char → Bool} :
    ∀ (l : List Char) (k : ℕ), k < (l.takeWhile p).length → p (l.getD k ' ') = true := by
  intro l
  induction l with
  | nil => intro k h; simp at h
  | cons c t ih =>
    intro k h
    rw [List.takeWhile_cons] at h
    by_cases hc : p c
    · rw [if_pos hc] at h
      cases k with
      | zero => simpa using hc
      | succ k => exact ih k (by simpa using h)
    · rw [if_neg hc] at h
      simp at h

theorem takeWhile_getD_after {p : Char → Bool} :
    ∀ (l : List Char), (l.takeWhile p).length < l.length →
      p (l.getD (l.takeWhile p).length ' ') = false := by
  intro l
  induction l with
  | nil => intro h; simp at h
  | cons c t ih =>
    intro h
    rw [List.takeWhile_cons] at h ⊢
    by_cases hc : p c
    · rw [if_pos hc] at h ⊢
      simpa using ih (by simpa using h)
    · rw [if_neg hc]
      simpa using hc

theorem takeWhile_length_le {p : Char → Bool} (l : List Char) :
    (l.takeWhile p).length ≤ l.length :=
  (List.takeWhile_sublist p).length_le

theorem runSpan_lt : ∀ {u : List Char} {i j : ℕ}, runSpan u = some (i, j) → i < j := by
  intro u
  induction u with
  | nil => intro i j h; simp [runSpan] at h
  | cons c t ih =>
    intro i j h
    rw [runSpan] at h
    by_cases hc : isTerm c
    · rw [if_pos hc] at h
      cases ht : runSpan t with
      | none => rw [ht] at h; simp at h
      | some p =>
        rw [ht] at h
        obtain ⟨i', j'⟩ := p
        simp at h
        have := ih ht
        omega
    · rw [if_neg hc] at h
      simp at h
      omega

theorem runSpan_le_len : ∀ {u : List Char} {i j : ℕ},
    runSpan u = some (i, j) → j ≤ u.length := by
  intro u
  induction u with
  | nil => intro i j h; simp [runSpan] at h
  | cons c t ih =>
    intro i j h
    rw [runSpan] at h
    by_cases hc : isTerm c
    · rw [if_pos hc] at h
      cases ht : runSpan t with
      | none => rw [ht] at h; simp at h
      | some p =>
        rw [ht] at h
        obtain ⟨i', j'⟩ := p
        simp at h
        have := ih ht
        simp only [List.length_cons]
        omega
    · rw [if_neg hc] at h
      simp at h
      have := takeWhile_length_le (p := fun d => ! isTerm d) t
      simp only [List.length_cons]
      omega

theorem runSpan_run_nonterm : ∀ {u : List Char} {i j : ℕ},
    runSpan u = some (i, j) → ∀ k, i ≤ k → k < j → isTerm (u.getD k ' ') = false := by
  intro u
  induction u with
  | nil => intro i j h; simp [runSpan] at h
  | cons c t ih =>
    intro i j h k hik hkj
    rw [runSpan] at h
    by_cases hc : isTerm c
    · rw [if_pos hc] at h
      cases ht : runSpan t with
      | none => rw [ht] at h; simp at h
      | some p =>
        rw [ht] at h
        obtain ⟨i', j'⟩ := p
        simp at h
        cases k with
        | zero => omega
        | succ k =>
          have := ih ht k (by omega) (by omega)
          simpa using this
    · rw [if_neg hc] at h
      simp at h
      obtain ⟨hi, hj⟩ := h
      cases k with
      | zero => simpa using hc
      | succ k =>
        have hk : k < (t.takeWhile (fun d => ! isTerm d)).length := by omega
        have := takeWhile_getD_pred t k hk
        simp only [Bool.not_eq_true'] at this
        simpa using this

theorem runSpan_term_after : ∀ {u : List Char} {i j : ℕ},
    runSpan u = some (i, j) → j < u.length → isTerm (u.getD j ' ') = true := by
  intro u
  induction u with
  | nil => intro i j h; simp [runSpan] at h
  | cons c t ih =>
    intro i j h hj
    rw [runSpan] at h
    by_cases hc : isTerm c
    · rw [if_pos hc] at h
      cases ht : runSpan t with
      | none => rw [ht] at h; simp at h
      | some p =>
        rw [ht] at h
        obtain ⟨i', j'⟩ := p
        simp at h
        obtain ⟨hi, hjj⟩ := h
        subst hjj
        have hlt : j' < t.length := by
          simp only [List.length_cons] at hj; omega
        have := ih ht hlt
        simpa using this
    · rw [if_neg hc] at h
      simp at h
      obtain ⟨hi, hjj⟩ := h
      subst hjj
      have hlt : (t.takeWhile (fun d => ! isTerm d)).length < t.length := by
        simp only [List.length_cons] at hj; omega
      have := takeWhile_getD_after t hlt
      simp only [Bool.not_eq_false'] at this
      have hgd : (c :: t).getD (1 + (t.takeWhile (fun d => ! isTerm d)).length) ' ' =
          t.getD ((t.takeWhile (fun d => ! isTerm d)).length) ' ' := by
        rw [Nat.add_comm]
        rfl
      rw [hgd]
      exact this

theorem runSpan_none_all_term : ∀ {u : List Char}, runSpan u = none →
    ∀ c ∈ u, isTerm c = true := by
  intro u
  induction u with
  | nil => intro _ c hc; simp at hc
  | cons c t ih =>
    intro h d hd
    rw [runSpan] at h
    by_cases hc : isTerm c
    · rw [if_pos hc] at h
      cases ht : runSpan t with
      | none =>
        rcases List.mem_cons.mp hd with rfl | hd2
        · exact hc
        · exact ih ht d hd2
      | some p => rw [ht] at h; simp at h
    · rw [if_neg hc] at h
      simp at h



theorem getD_drop (l : List Char) (p k : ℕ) :
    (l.drop p).getD k ' ' = l.getD (p + k) ' ' := by
  simp [List.getD_eq_getElem?_getD, List.getElem?_drop]

theorem drop_ne_nil_of_runSpan {l : List Char} {p : ℕ} {i j : ℕ}
    (h : runSpan (l.drop p) = some (i, j)) : p < l.length := by
  by_contra hge
  have : l.drop p = [] := List.drop_eq_nil_of_le (by omega)
  rw [this] at h
  simp [runSpan] at h



/-- Case analysis of a single `next()` step. -/
theorem itNext_cases (it : Iter) :
    (runSpan (it.data.drop it.pos) = none ∧
      itNext it = ({ it with line := none }, none)) ∨
    (∃ i j, runSpan (it.data.drop it.pos) = some (i, j) ∧
      ((it.partialData = true ∧ it.pos + j = it.data.length ∧
          itNext it = ({ it with line := none }, none)) ∨
       (¬ (it.partialData = true ∧ it.pos + j = it.data.length) ∧
          itNext it =
            ({ it with pos := it.pos + j,
                       line := some ⟨((it.data.drop it.pos).take j).drop i⟩ },
             some ⟨((it.data.drop it.pos).take j).drop i⟩)))) := by
  rw [itNext]
  cases hrs : runSpan (it.data.drop it.pos) with
  | none => exact .inl ⟨rfl, rfl⟩
  | some q =>
    obtain ⟨i, j⟩ := q
    by_cases hrej : it.partialData = true ∧ it.pos + j = it.data.length
    · exact .inr ⟨i, j, rfl, .inl ⟨hrej.1, hrej.2, by dsimp only; rw [if_pos hrej]⟩⟩
    · exact .inr ⟨i, j, rfl, .inr ⟨hrej, by dsimp only; rw [if_neg hrej]⟩⟩

/-- Claim C9: while `partialData` is true, `next()` never yields a trailing
buffer segment that is not followed by a line terminator, and yields nothing
while leaving the cursor unchanged in that situation; the same buffer with
the flag false yields that final unterminated segment; and a buffer ending
exactly at a line terminator behaves identically under both flags (its last
line is yielded even while partial). -/
theorem claim_C9_lineCursor (it : Iter) (hp : it.partialData = true) :
    (∀ l, (itNext it).2 = some l →
      (itNext it).1.pos < it.data.length ∧
      isTerm (it.data.getD (itNext it).1.pos ' ') = true) ∧
    ((itNext it).2 = none → (itNext it).1.pos = it.pos) ∧
    (∀ i j, (itNext it).2 = none → runSpan (it.data.drop it.pos) = some (i, j) →
      j = (it.data.drop it.pos).length ∧
      (itNext { it with partialData := false }).2 =
        some ⟨((it.data.drop it.pos).take j).drop i⟩) ∧
    (it.data ≠ [] → isTerm (it.data.getD (it.data.length - 1) ' ') = true →
      (itNext it).2 = (itNext { it with partialData := false }).2 ∧
      (itNext it).1.pos = (itNext { it with partialData := false }).1.pos) := by
  refine ⟨?_, ?_, ?_, ?_⟩
  · intro l hl
    rcases itNext_cases it with ⟨hrs, heq⟩ | ⟨i, j, hrs, ⟨_, _, heq⟩ | ⟨hrej, heq⟩⟩
    · rw [heq] at hl; simp at hl
    · rw [heq] at hl; simp at hl
    · rw [heq]
      have hple := drop_ne_nil_of_runSpan hrs
      have hjle := runSpan_le_len hrs
      rw [List.length_drop] at hjle
      have hne : it.pos + j ≠ it.data.length := fun hcon => hrej ⟨hp, hcon⟩
      have hlt : it.pos + j < it.data.length := by omega
      refine ⟨hlt, ?_⟩
      have := runSpan_term_after hrs (by rw [List.length_drop]; omega)
      rw [getD_drop] at this
      exact this
  · intro hl
    rcases itNext_cases it with ⟨hrs, heq⟩ | ⟨i, j, hrs, ⟨_, _, heq⟩ | ⟨hrej, heq⟩⟩
    · rw [heq]
    · rw [heq]
    · rw [heq] at hl; simp at hl
  · intro i j hl hrs
    have hple := drop_ne_nil_of_runSpan hrs
    have hjle := runSpan_le_len hrs
    rw [List.length_drop] at hjle
    rcases itNext_cases it with ⟨hrs', heq⟩ | ⟨i', j', hrs', ⟨_, hend, heq⟩ | ⟨hrej, heq⟩⟩
    · rw [hrs] at hrs'; simp at hrs'
    · rw [hrs] at hrs'
      simp only [Option.some.injEq, Prod.mk.injEq] at hrs'
      obtain ⟨rfl, rfl⟩ := hrs'
      refine ⟨by rw [List.length_drop]; omega, ?_⟩
      rcases itNext_cases { it with partialData := false } with
          ⟨hrs2, heq2⟩ | ⟨i2, j2, hrs2, ⟨hp2, _, _⟩ | ⟨_, heq2⟩⟩
      · dsimp only at hrs2
        rw [hrs] at hrs2; simp at hrs2
      · simp at hp2
      · dsimp only at hrs2 heq2
        rw [hrs] at hrs2
        simp only [Option.some.injEq, Prod.mk.injEq] at hrs2
        obtain ⟨rfl, rfl⟩ := hrs2
        rw [heq2]
    · rw [heq] at hl
      simp at hl
  · intro hne hterm
    have hsame : ∀ i j, runSpan (it.data.drop it.pos) = some (i, j) →
        it.pos + j ≠ it.data.length := by
      intro i j hrs hcon
      have hple := drop_ne_nil_of_runSpan hrs
      have hjle := runSpan_le_len hrs
      rw [List.length_drop] at hjle
      have hilt := runSpan_lt hrs
      have hlast : isTerm ((it.data.drop it.pos).getD (j - 1) ' ') = false :=
        runSpan_run_nonterm hrs (j - 1) (by omega) (by omega)
      rw [getD_drop] at hlast
      have hidx : it.pos + (j - 1) = it.data.length - 1 := by omega
      rw [hidx, hterm] at hlast
      simp at hlast
    rcases itNext_cases it with ⟨hrs, heq⟩ | ⟨i, j, hrs, ⟨_, hend, _⟩ | ⟨hrej, heq⟩⟩
    · rcases itNext_cases { it with partialData := false } with
          ⟨hrs2, heq2⟩ | ⟨i2, j2, hrs2, ⟨hp2, _, _⟩ | ⟨_, heq2⟩⟩
      · rw [heq, heq2]; exact ⟨rfl, rfl⟩
      · simp at hp2
      · dsimp only at hrs2
        rw [hrs] at hrs2; simp at hrs2
    · exact absurd hend (hsame i j hrs)
    · rcases itNext_cases { it with partialData := false } with
          ⟨hrs2, heq2⟩ | ⟨i2, j2, hrs2, ⟨hp2, _, _⟩ | ⟨_, heq2⟩⟩
      · dsimp only at hrs2
        rw [hrs] at hrs2; simp at hrs2
      · simp at hp2
      · dsimp only at hrs2 heq2
        rw [hrs] at hrs2
        simp only [Option.some.injEq, Prod.mk.injEq] at hrs2
        obtain ⟨rfl, rfl⟩ := hrs2
        rw [heq, heq2]
        exact ⟨rfl, rfl⟩



/-- Claim C9, witness: the three situations at concrete buffers: `"ab\ncd"`
yields the terminated line `ab`; `"cd"` under partial yields nothing, and
with the flag false yields `cd`; `"ab\n"` behaves identically under both
flags. -/
theorem claim_C9_witness :
    (itNext (mkIter "ab\ncd" true)).1.pos < (mkIter "ab\ncd" true).data.length ∧
    (itNext (mkIter "cd" true)).2 = none ∧
    (itNext { mkIter "cd" true with partialData := false }).2 =
      some ⟨(((mkIter "cd" true).data.drop (mkIter "cd" true).pos).take 2).drop 0⟩ ∧
    (itNext (mkIter "ab\n" true)).2 =
      (itNext { mkIter "ab\n" true with partialData := false }).2 := by
  have h1 := claim_C9_lineCursor (mkIter "ab\ncd" true) rfl
  have h2 := claim_C9_lineCursor (mkIter "cd" true) rfl
  have h3 := claim_C9_lineCursor (mkIter "ab\n" true) rfl
  exact ⟨(h1.1 "ab" (by decide)).1, by decide,
    (h2.2.2.1 0 2 (by decide) (by decide)).2, (h3.2.2.2 (by decide) (by decide)).1⟩

/-- `setScore` never touches the game-time field. -/
theorem setScore_gameTime (p : PartialWorldState) (a b c d e f : ℚ) :
    (p.setScore a b c d e f).gameTime = p.gameTime := by
  unfold PartialWorldState.setScore
  split <;> rfl

/-- After `setScore`, the goal counters hold the requested values (either a
fresh score was allocated with them, or the old one already held them). -/
theorem setScore_goals (p : PartialWorldState) (a b c d e f : ℚ) :
    (p.setScore a b c d e f).score.goalsLeft = a ∧
    (p.setScore a b c d e f).score.goalsRight = b := by
  unfold PartialWorldState.setScore
  split
  · exact ⟨rfl, rfl⟩
  · next h =>
    push_neg at h
    exact ⟨h.1, h.2.1⟩

/-- Advancing a millisecond-grid time by at least one millisecond and
re-rounding strictly increases it and stays on the grid. -/
theorem roundMs_advance (t step : ℚ) (ht : msMultiple t) (hs : 1/1000 ≤ step) :
    t < roundMs (t + step) ∧ msMultiple (roundMs (t + step)) := by
  obtain ⟨n, rfl⟩ := ht
  refine ⟨?_, ⟨jsRound (((n : ℚ)/1000 + step) * 1000), rfl⟩⟩
  have hfl : (n + 1 : ℤ) ≤ (((n : ℚ)/1000 + step) * 1000 + 1/2).floor := by
    rw [Rat.le_floor]
    push_cast
    nlinarith
  have hq : ((n : ℚ) + 1) ≤ ((((n : ℚ)/1000 + step) * 1000 + 1/2).floor : ℚ) := by
    exact_mod_cast hfl
  rw [roundMs, jsRound]
  rw [div_lt_div_iff₀ (by norm_num) (by norm_num : (0:ℚ) < 1000)]
  nlinarith

/-- Appending a state later than everything in a strictly increasing list
keeps it strictly increasing. -/
theorem timesIncreasingB_append_last (l : List WorldState) (w : WorldState)
    (hl : timesIncreasingB l = true) (hw : ∀ u ∈ l, u.time < w.time) :
    timesIncreasingB (l ++ [w]) = true := by
  induction l with
  | nil => rfl
  | cons a t ih =>
    cases t with
    | nil =>
      simp only [List.cons_append, List.nil_append, timesIncreasingB,
        Bool.and_eq_true, decide_eq_true_eq]
      exact ⟨hw a (by simp), trivial⟩
    | cons b t2 =>
      simp only [timesIncreasingB, Bool.and_eq_true, decide_eq_true_eq] at hl
      have := ih hl.2 (fun u hu => hw u (List.mem_cons_of_mem a hu))
      simp only [List.cons_append, timesIncreasingB, Bool.and_eq_true, decide_eq_true_eq]
      exact ⟨hl.1, by simpa using this⟩

/-- A time step recorded in a tail is recorded in the whole list. -/
theorem opsTimeSteps_mem_cons (op : PwsOp) (t : List PwsOp) (q : ℚ)
    (hq : q ∈ opsTimeSteps t) : q ∈ opsTimeSteps (op :: t) := by
  simp only [opsTimeSteps] at *
  cases op with
  | timeStep r => exact List.mem_cons_of_mem _ hq
  | gameTime a => exact hq
  | playmode a => exact hq
  | score a b c d e f => exact hq
  | ball a => exact hq
  | agentL i a => exact hq
  | agentR i a => exact hq
  | commit => exact hq

/-- A time step installed at the head is recorded. -/
theorem opsTimeSteps_mem_head (q : ℚ) (t : List PwsOp) :
    q ∈ opsTimeSteps (.timeStep q :: t) := by
  simp only [opsTimeSteps]
  exact List.mem_cons_self _ _

/-- Every single accumulator operation (with an installed time step of at
least one millisecond) preserves the invariant. -/
theorem applyPwsOp_inv (s : PartialWorldState × List WorldState) (op : PwsOp)
    (hs : pwsInv s)
    (hop : ∀ q, op = .timeStep q → 1/1000 ≤ q) :
    pwsInv (applyPwsOp s op) := by
  obtain ⟨h1, h2, h3, h4⟩ := hs
  cases op with
  | gameTime q => exact ⟨h1, h2, h3, h4⟩
  | playmode pm =>
    refine ⟨?_, ?_, ?_, h4⟩ <;>
      simp only [applyPwsOp, PartialWorldState.setPlaymode] <;> split <;>
      first | exact h1 | exact h2 | exact h3
  | score a b c d e f =>
    refine ⟨?_, ?_, ?_, h4⟩ <;>
      simp only [applyPwsOp, PartialWorldState.setScore] <;> split <;>
      first | exact h1 | exact h2 | exact h3
  | ball o => exact ⟨h1, h2, h3, h4⟩
  | agentL i a => exact ⟨h1, h2, h3, h4⟩
  | agentR i a => exact ⟨h1, h2, h3, h4⟩
  | timeStep q => exact ⟨h1, hop q rfl, h3, h4⟩
  | commit =>
    simp only [applyPwsOp, PartialWorldState.appendTo]
    split
    · have hadv := roundMs_advance s.1.time s.1.timeStep h1 h2
      refine ⟨hadv.2, h2, ?_, ?_⟩
      · intro w hw
        rcases List.mem_append.mp hw with hw | hw
        · exact lt_trans (h3 w hw) hadv.1
        · rcases List.mem_singleton.mp hw with rfl
          exact hadv.1
      · exact timesIncreasingB_append_last _ _ h4 (fun u hu => h3 u hu)
    · exact ⟨h1, h2, h3, h4⟩

/-- A whole operation sequence preserves the invariant. -/
theorem applyPwsOps_inv (ops : List PwsOp) (s : PartialWorldState × List WorldState)
    (hs : pwsInv s) (hops : ∀ q ∈ opsTimeSteps ops, 1/1000 ≤ q) :
    pwsInv (applyPwsOps ops s) := by
  induction ops generalizing s with
  | nil => exact hs
  | cons op t ih =>
    have hop : ∀ q, op = .timeStep q → 1/1000 ≤ q := by
      intro q hq
      subst hq
      exact hops q (opsTimeSteps_mem_head q t)
    have ht : ∀ q ∈ opsTimeSteps t, 1/1000 ≤ q :=
      fun q hq => hops q (opsTimeSteps_mem_cons op t q hq)
    exact ih (applyPwsOp s op) (applyPwsOp_inv s op hs hop) ht

/-- `changeTimeline` emits one entry per maximal run of equal consecutive
elements. -/
theorem changeTimeline_length {α : Type} [DecidableEq α] (a : α) (l : List α) :
    (changeTimeline a l).length = runCount (a :: l) := by
  induction l generalizing a with
  | nil => rfl
  | cons b t ih =>
    by_cases hab : a = b
    · subst hab
      have h1 : changeTimeline a (a :: t) = changeTimeline a t := by
        simp [changeTimeline]
      have h2 : runCount (a :: a :: t) = runCount (a :: t) := by
        simp [runCount]
      rw [h1, h2]
      exact ih a
    · have h1 : changeTimeline a (b :: t) = a :: changeTimeline b t := by
        simp [changeTimeline, hab]
      have h2 : runCount (a :: b :: t) = 1 + runCount (b :: t) := by
        simp [runCount, hab]
      rw [h1, h2, List.length_cons, ih b]
      omega

/-! ## Batch-bound preservation through the handlers -/

theorem parseServerParamLineU_max (l : String) (s : LState) :
    (parseServerParamLineU l s).2.maxStates = s.2.maxStates := by
  simp only [parseServerParamLineU]
  repeat' split
  all_goals rfl

theorem parsePlayerParamLineU_max (l : String) (s : LState) :
    (parsePlayerParamLineU l s).2.maxStates = s.2.maxStates := by
  simp only [parsePlayerParamLineU]
  repeat' split
  all_goals rfl

theorem parsePlayerTypeLineU_max (l : String) (s : LState) :
    (parsePlayerTypeLineU l s).2.maxStates = s.2.maxStates := by
  simp only [parsePlayerTypeLineU]
  repeat' split
  all_goals rfl

theorem parsePlaymodeLineU_max (l : String) (s : LState) :
    (parsePlaymodeLineU l s).2.maxStates = s.2.maxStates := by
  simp only [parsePlaymodeLineU]
  repeat' split
  all_goals rfl

theorem parseTeamLineU_max (l : String) (s : LState) :
    (parseTeamLineU l s).2.maxStates = s.2.maxStates := by
  simp only [parseTeamLineU]
  repeat' split
  all_goals rfl

theorem parseShowLineU_max (host : JsHost) (l : String) (s : LState) :
    ((parseShowLineU host l s).1).2.maxStates = s.2.maxStates := by
  simp only [parseShowLineU]
  repeat' split
  all_goals rfl

theorem ulgHandle_max (host : JsHost) (l : String) (s : LState) :
    ((ulgHandle host l s).1).2.maxStates = s.2.maxStates := by
  simp only [ulgHandle]
  repeat' split
  all_goals first
    | rfl
    | exact parseServerParamLineU_max l s
    | exact parsePlayerParamLineU_max l s
    | exact parsePlayerTypeLineU_max l s
    | exact parseTeamLineU_max l s
    | exact parsePlaymodeLineU_max l s
    | exact parseShowLineU_max host l s

theorem parseEnvParamsR_max (host : JsHost) (l : String) (s : LState) :
    (parseEnvParamsR host l s).2.maxStates = s.2.maxStates := by
  simp only [parseEnvParamsR]
  repeat' split
  all_goals rfl

theorem parsePlayerParamsR_max (host : JsHost) (l : String) (s : LState) :
    (parsePlayerParamsR host l s).2.maxStates = s.2.maxStates := by
  simp only [parsePlayerParamsR]
  repeat' split
  all_goals rfl

theorem parsePlayerTypeParamsR_max (host : JsHost) (l : String) (s : LState) :
    (parsePlayerTypeParamsR host l s).2.maxStates = s.2.maxStates := by
  simp only [parsePlayerTypeParamsR]
  repeat' split
  all_goals rfl

theorem parseTeamLineR_max (l : String) (s : LState) :
    (parseTeamLineR l s).2.maxStates = s.2.maxStates := by
  simp only [parseTeamLineR]
  repeat' split
  all_goals rfl

theorem parseStateLineR_max (l : String) (s : LState) :
    ((parseStateLineR l s).1).2.maxStates = s.2.maxStates := by
  simp only [parseStateLineR]
  repeat' split
  all_goals rfl

theorem parseBallState2D_max (l : String) (s : LState) :
    (parseBallState2D l s).2.maxStates = s.2.maxStates := by
  simp only [parseBallState2D]
  repeat' split
  all_goals rfl

theorem parseBallStateV03D_max (l : String) (s : LState) :
    (parseBallStateV03D l s).2.maxStates = s.2.maxStates := by
  simp only [parseBallStateV03D]
  repeat' split
  all_goals rfl

theorem parseBallStateV13D_max (l : String) (s : LState) :
    (parseBallStateV13D l s).2.maxStates = s.2.maxStates := by
  simp only [parseBallStateV13D]
  repeat' split
  all_goals rfl

theorem parseAgentStateV02D_max (host : JsHost) (l : String) (s : LState) (b : Bool) :
    (parseAgentStateV02D host l s b).2.maxStates = s.2.maxStates := by
  simp only [parseAgentStateV02D]
  repeat' split
  all_goals rfl

theorem parseAgentStateV03D_max (host : JsHost) (l : String) (s : LState) (b : Bool) :
    (parseAgentStateV03D host l s b).2.maxStates = s.2.maxStates := by
  simp only [parseAgentStateV03D]
  repeat' split
  all_goals rfl

theorem parseAgentStateV1_max (host : JsHost) (l : String) (s : LState) (b : Bool) :
    (parseAgentStateV1 host l s b).2.maxStates = s.2.maxStates := by
  simp only [parseAgentStateV1]
  repeat' split
  all_goals rfl

theorem replayBallFcn_max (l : String) (s : LState) :
    (replayBallFcn l s).2.maxStates = s.2.maxStates := by
  simp only [replayBallFcn]
  repeat' split
  all_goals first
    | rfl
    | exact parseBallStateV03D_max l s
    | exact parseBallStateV13D_max l s
    | exact parseBallState2D_max l s

theorem replayAgentFcn_max (host : JsHost) (l : String) (s : LState) (b : Bool) :
    (replayAgentFcn host l s b).2.maxStates = s.2.maxStates := by
  simp only [replayAgentFcn]
  repeat' split
  all_goals first
    | rfl
    | exact parseAgentStateV03D_max host l s b
    | exact parseAgentStateV1_max host l s b
    | exact parseAgentStateV02D_max host l s b

set_option maxHeartbeats 1000000 in
theorem replayHandle_max (host : JsHost) (l : String) (s : LState) :
    ((replayHandle host l s).1).2.maxStates = s.2.maxStates := by
  simp only [replayHandle]
  repeat' split
  all_goals first
    | rfl
    | exact parseEnvParamsR_max host l s
    | exact parsePlayerParamsR_max host l s
    | exact parsePlayerTypeParamsR_max host l s
    | exact parseTeamLineR_max l s
    | exact parseStateLineR_max l s
    | exact replayBallFcn_max l s
    | exact replayAgentFcn_max host l s true
    | exact replayAgentFcn_max host l s false

theorem applyHandle_max (h : String → LState → LState × Bool)
    (hpres : ∀ l s, ((h l s).1).2.maxStates = s.2.maxStates)
    (l : String) (d : DState) :
    ((applyHandle h l d).1).2.maxStates = d.2.maxStates := by
  have hp := hpres l (d.1.core, d.2)
  simp only [applyHandle]
  rcases hh : h l (d.1.core, d.2) with ⟨⟨c, st⟩, b⟩
  rw [hh] at hp
  exact hp

theorem refreshD_max (d : DState) : (refreshD d).2.maxStates = d.2.maxStates := rfl

theorem endD_max (d : DState) : (endD d).2.maxStates = d.2.maxStates := by
  simp only [endD]
  repeat' split
  all_goals rfl

/-- The bounded body loop keeps the batch bound and never lets the
state-line counter pass it. -/
theorem bodyPassLoop_inv (h : String → LState → LState × Bool)
    (hpres : ∀ l s, ((h l s).1).2.maxStates = s.2.maxStates) :
    ∀ (fuel : ℕ) (it : Iter) (d : DState) (cnt ln : ℕ), cnt ≤ d.2.maxStates →
      ((bodyPassLoop h fuel it d cnt ln).2.1).2.maxStates = d.2.maxStates ∧
      (bodyPassLoop h fuel it d cnt ln).2.2.1 ≤ d.2.maxStates := by
  intro fuel
  induction fuel with
  | zero => exact fun it d cnt ln hc => ⟨rfl, hc⟩
  | succ fuel ih =>
    intro it d cnt ln hc
    rw [bodyPassLoop]
    cases hl : it.line with
    | none => exact ⟨rfl, hc⟩
    | some l =>
      dsimp only
      by_cases hcm : cnt ≥ d.2.maxStates
      · rw [if_pos hcm]
        exact ⟨rfl, hc⟩
      · rw [if_neg hcm]
        rcases hA : applyHandle h l d with ⟨d₁, isSt⟩
        have hm : d₁.2.maxStates = d.2.maxStates := by
          have := applyHandle_max h hpres l d
          rw [hA] at this
          exact this
        have hc₁ : cnt + (if isSt then 1 else 0) ≤ d₁.2.maxStates := by
          rw [hm]
          have : cnt < d.2.maxStates := Nat.lt_of_not_le hcm
          split <;> omega
        obtain ⟨ih1, ih2⟩ := ih (itNext it).1 d₁ (cnt + if isSt then 1 else 0) (ln + 1) hc₁
        rw [hm] at ih1 ih2
        exact ⟨ih1, ih2⟩

/-- The continuation cascade never changes the batch bound. -/
theorem bodyDrainLoop_max (h : String → LState → LState × Bool)
    (hpres : ∀ l s, ((h l s).1).2.maxStates = s.2.maxStates) :
    ∀ (fuel : ℕ) (it : Iter) (d : DState) (cnt : ℕ),
      ((bodyDrainLoop h fuel it d cnt).2).2.maxStates = d.2.maxStates := by
  intro fuel
  induction fuel with
  | zero => exact fun it d cnt => rfl
  | succ fuel ih =>
    intro it d cnt
    rw [bodyDrainLoop]
    cases hl : it.line with
    | none =>
      dsimp only
      by_cases hcnt : cnt > 0
      · rw [if_pos hcnt]
        by_cases hp : ¬ it.partialData
        · rw [if_pos hp]; try exact endD_max _
        · rw [if_neg hp]; try rfl
      · rw [if_neg hcnt]
        by_cases hp : ¬ it.partialData
        · rw [if_pos hp]; try exact endD_max _
        · rw [if_neg hp]; try rfl
    | some l =>
      dsimp only
      by_cases hcm : cnt ≥ d.2.maxStates
      · rw [if_pos hcm]
        by_cases hcnt : cnt > 0
        · rw [if_pos hcnt]
          exact ih it (refreshD d) 0
        · rw [if_neg hcnt]
          exact ih it d 0
      · rw [if_neg hcm]
        rcases hA : applyHandle h l d with ⟨d₁, isSt⟩
        have hm : d₁.2.maxStates = d.2.maxStates := by
          have := applyHandle_max h hpres l d
          rw [hA] at this
          exact this
        rw [← hm]
        exact ih (itNext it).1 d₁ (cnt + if isSt then 1 else 0)

theorem bodyDrain_max (h : String → LState → LState × Bool)
    (hpres : ∀ l s, ((h l s).1).2.maxStates = s.2.maxStates)
    (it : Iter) (d : DState) :
    ((bodyDrain h it d).2).2.maxStates = d.2.maxStates := by
  simp only [bodyDrain]
  exact bodyDrainLoop_max h hpres _ _ d 0

/-! ## Line-level semantics of the body runs (for the chunking claim) -/

/-- A terminator at the head does not contribute a run. -/
theorem runs_cons_term {c : Char} (hc : isTerm c = true) (u : List Char) :
    runs (c :: u) = runs u := by
  simp [runs, runsAux, hc]

/-- Scanning a non-terminator stretch accumulates it. -/
theorem runsAux_nonterm : ∀ (w : List Char), (∀ d ∈ w, isTerm d = false) →
    ∀ (t cur : List Char), runsAux (w ++ t) cur = runsAux t (w.reverse ++ cur) := by
  intro w
  induction w with
  | nil => intro _ t cur; simp
  | cons c w ih =>
    intro hw t cur
    have hc : isTerm c = false := hw c (by simp)
    have hw' : ∀ d ∈ w, isTerm d = false := fun d hd => hw d (by simp [hd])
    rw [show (c :: w) ++ t = c :: (w ++ t) from rfl]
    show (if isTerm c then _ else runsAux (w ++ t) (c :: cur)) = _
    rw [if_neg (by simp [hc])]
    rw [ih hw' t (c :: cur)]
    simp

/-- A terminator flushes a nonempty accumulator. -/
theorem runsAux_term_head {c : Char} (hc : isTerm c = true) (t cur : List Char)
    (hcur : cur ≠ []) : runsAux (c :: t) cur = cur.reverse :: runsAux t [] := by
  simp only [runsAux, hc, if_true]
  rw [if_neg (by simpa [List.isEmpty_iff] using hcur)]

/-- Taking as many elements as `takeWhile` keeps returns the same list. -/
theorem take_takeWhile (p : Char → Bool) : ∀ (t : List Char),
    t.take (t.takeWhile p).length = t.takeWhile p := by
  intro t
  induction t with
  | nil => rfl
  | cons c t ih =>
    by_cases hc : p c
    · rw [List.takeWhile_cons, if_pos hc, List.length_cons, List.take_succ_cons, ih]
    · rw [List.takeWhile_cons, if_neg hc, List.length_nil, List.take_zero]

/-- The head of the `takeWhile` remainder fails the predicate. -/
theorem dropWhile_head_false (p : Char → Bool) : ∀ (t : List Char) (e : Char)
    (t'' : List Char), t.dropWhile p = e :: t'' → p e = false := by
  intro t
  induction t with
  | nil => intro e t'' h; simp at h
  | cons c t ih =>
    intro e t'' h
    by_cases hc : p c
    · rw [List.dropWhile_cons, if_pos hc] at h
      exact ih e t'' h
    · rw [List.dropWhile_cons, if_neg hc] at h
      cases h
      exact Bool.eq_false_iff.mpr hc

/-- `takeWhile` ignores everything past the first failing element. -/
theorem takeWhile_append_stop (p : Char → Bool) : ∀ (w : List Char),
    (∀ d ∈ w, p d = true) → ∀ (e : Char), p e = false → ∀ (z : List Char),
    (w ++ e :: z).takeWhile p = w := by
  intro w
  induction w with
  | nil =>
    intro _ e he z
    rw [List.nil_append, List.takeWhile_cons, if_neg (by simp [he])]
  | cons c w ih =>
    intro hw e he z
    have hc : p c = true := hw c (by simp)
    have hw' : ∀ d ∈ w, p d = true := fun d hd => hw d (by simp [hd])
    rw [List.cons_append, List.takeWhile_cons, if_pos hc, ih hw' e he z]

/-- Dropping as many elements as `takeWhile` keeps leaves `dropWhile`. -/
theorem drop_takeWhile_length (p : Char → Bool) : ∀ (t : List Char),
    t.drop (t.takeWhile p).length = t.dropWhile p := by
  intro t
  induction t with
  | nil => rfl
  | cons c t ih =>
    by_cases hc : p c
    · rw [List.takeWhile_cons, if_pos hc, List.length_cons, List.drop_succ_cons, ih,
        List.dropWhile_cons, if_pos hc]
    · rw [List.takeWhile_cons, if_neg hc, List.length_nil, List.drop_zero,
        List.dropWhile_cons, if_neg hc]

/-- The structural equation of `runs` along the first span. -/
theorem runs_eq_span : ∀ {u : List Char} {i j : ℕ}, runSpan u = some (i, j) →
    runs u = ((u.take j).drop i) :: runs (u.drop j) := by
  intro u
  induction u with
  | nil => intro i j h; simp [runSpan] at h
  | cons c t ih =>
    intro i j h
    rw [runSpan] at h
    by_cases hc : isTerm c
    · rw [if_pos hc] at h
      cases ht : runSpan t with
      | none => rw [ht] at h; exact Option.noConfusion h
      | some q =>
        obtain ⟨i', j'⟩ := q
        rw [ht] at h
        simp at h
        obtain ⟨rfl, rfl⟩ := h
        rw [runs_cons_term hc, ih ht]
        simp [List.take_succ_cons, List.drop_succ_cons]
    · rw [if_neg hc] at h
      simp only [Option.some.injEq, Prod.mk.injEq] at h
      obtain ⟨rfl, rfl⟩ := h
      have hw : ∀ d ∈ t.takeWhile (fun d => ! isTerm d), isTerm d = false := by
        intro d hd
        have := List.mem_takeWhile_imp hd
        simpa using this
      have hcw : ∀ d ∈ c :: t.takeWhile (fun d => ! isTerm d), isTerm d = false := by
        intro d hd
        rcases List.mem_cons.mp hd with rfl | hd2
        · simpa using hc
        · exact hw d hd2
      have hdec : t = t.takeWhile (fun d => ! isTerm d) ++ t.dropWhile (fun d => ! isTerm d) :=
        (List.takeWhile_append_dropWhile (p := fun d => ! isTerm d) (l := t)).symm
      rw [List.drop_zero, Nat.add_comm 1, List.take_succ_cons, take_takeWhile,
        List.drop_succ_cons]
      rw [drop_takeWhile_length]
      have hlhs : runs (c :: t)
          = runsAux (t.dropWhile (fun d => ! isTerm d))
              ((t.takeWhile (fun d => ! isTerm d)).reverse ++ [c]) := by
        rw [runs]
        conv_lhs => rw [hdec]
        rw [show c :: (t.takeWhile (fun d => ! isTerm d) ++ t.dropWhile (fun d => ! isTerm d))
              = (c :: t.takeWhile (fun d => ! isTerm d)) ++ t.dropWhile (fun d => ! isTerm d)
            from rfl]
        rw [runsAux_nonterm _ hcw _ []]
        simp
      rw [hlhs]
      cases ht' : t.dropWhile (fun d => ! isTerm d) with
      | nil =>
        show runsAux [] _ = _
        rw [runsAux]
        rw [if_neg (by simp)]
        simp [runs, runsAux]
      | cons e t'' =>
        have he : isTerm e = true := by
          have := dropWhile_head_false (fun d => ! isTerm d) t e t'' ht'
          simpa using this
        rw [runsAux_term_head he t'' _ (by simp)]
        rw [runs_cons_term he]
        simp [runs]

/-- A buffer with no span is all terminators and contributes no runs. -/
theorem runs_none : ∀ {u : List Char}, runSpan u = none → runs u = [] := by
  intro u
  induction u with
  | nil => intro _; rfl
  | cons c t ih =>
    intro h
    rw [runSpan] at h
    by_cases hc : isTerm c
    · rw [if_pos hc] at h
      cases ht : runSpan t with
      | none => rw [runs_cons_term hc]; exact ih ht
      | some q => rw [ht] at h; exact Option.noConfusion h
    · rw [if_neg hc] at h
      exact Option.noConfusion h

/-- A span that ends strictly before the end of the buffer is stable under
appending more data. -/
theorem runSpan_append : ∀ {u : List Char} {i j : ℕ}, runSpan u = some (i, j) →
    j < u.length → ∀ (v : List Char), runSpan (u ++ v) = some (i, j) := by
  intro u
  induction u with
  | nil => intro i j h; intro hj; simp [runSpan] at h
  | cons c t ih =>
    intro i j h hj v
    rw [runSpan] at h
    by_cases hc : isTerm c
    · rw [if_pos hc] at h
      cases ht : runSpan t with
      | none => rw [ht] at h; exact Option.noConfusion h
      | some q =>
        obtain ⟨i', j'⟩ := q
        rw [ht] at h
        simp at h
        obtain ⟨rfl, rfl⟩ := h
        have hj' : j' < t.length := by
          simp only [List.length_cons] at hj
          omega
        rw [List.cons_append, runSpan, if_pos hc, ih ht hj' v]
        rfl
    · rw [if_neg hc] at h
      simp at h
      obtain ⟨rfl, rfl⟩ := h
      have hw : ∀ d ∈ t.takeWhile (fun d => ! isTerm d), isTerm d = false := by
        intro d hd
        have := List.mem_takeWhile_imp hd
        simpa using this
      have hdec : t = t.takeWhile (fun d => ! isTerm d) ++ t.dropWhile (fun d => ! isTerm d) :=
        (List.takeWhile_append_dropWhile (p := fun d => ! isTerm d) (l := t)).symm
      have hlen : (t.takeWhile (fun d => ! isTerm d)).length < t.length := by
        simp only [List.length_cons] at hj
        omega
      cases ht' : t.dropWhile (fun d => ! isTerm d) with
      | nil =>
        exfalso
        have : t.length = (t.takeWhile (fun d => ! isTerm d)).length := by
          conv_lhs => rw [hdec]
          rw [ht']
          simp
        omega
      | cons e t'' =>
        have he : isTerm e = true := by
          have := dropWhile_head_false (fun d => ! isTerm d) t e t'' ht'
          simpa using this
        rw [List.cons_append, runSpan, if_neg hc]
        have htv : t ++ v = t.takeWhile (fun d => ! isTerm d) ++ e :: (t'' ++ v) := by
          conv_lhs => rw [hdec, ht']
          simp
        rw [htv, takeWhile_append_stop _ _ (by intro d hd; simp [hw d hd]) e (by simp [he])]

/-- Prepending an all-terminator buffer does not change the runs. -/
theorem runs_append_none : ∀ {u : List Char}, runSpan u = none →
    ∀ (v : List Char), runs (u ++ v) = runs v := by
  intro u
  induction u with
  | nil => intro _ v; rfl
  | cons c t ih =>
    intro h v
    rw [runSpan] at h
    by_cases hc : isTerm c
    · rw [if_pos hc] at h
      cases ht : runSpan t with
      | none => rw [List.cons_append, runs_cons_term hc]; exact ih ht v
      | some q => rw [ht] at h; exact Option.noConfusion h
    · rw [if_neg hc] at h
      exact Option.noConfusion h

/-- Consuming an interior span commutes with appending more data. -/
theorem runs_append_span {u : List Char} {i j : ℕ} (h : runSpan u = some (i, j))
    (hj : j < u.length) (v : List Char) :
    runs (u ++ v) = ((u.take j).drop i) :: runs (u.drop j ++ v) := by
  have hs := runs_eq_span (runSpan_append h hj v)
  rw [List.take_append_of_le_length (by omega), List.drop_append_of_le_length (by omega)]
    at hs
  exact hs

/-- `splitLinesF` consumes a prefix and preserves the runs of any
completion of the remnant. -/
theorem splitLinesF_spec : ∀ (fuel : ℕ) (u : List Char), u.length < fuel →
    (splitLinesF fuel u).2 ≤ u.length ∧
    ∀ v, runs (u ++ v)
        = ((splitLinesF fuel u).1).map String.data
            ++ runs (u.drop (splitLinesF fuel u).2 ++ v) := by
  intro fuel
  induction fuel with
  | zero => intro u hu; omega
  | succ fuel ih =>
    intro u hu
    rw [splitLinesF]
    cases hs : runSpan u with
    | none =>
      refine ⟨Nat.zero_le _, ?_⟩
      intro v
      rw [List.drop_zero, List.map_nil, List.nil_append]
    | some q =>
      obtain ⟨i, j⟩ := q
      dsimp only
      by_cases hj : j = u.length
      · rw [if_pos hj]
        refine ⟨Nat.zero_le _, ?_⟩
        intro v
        rw [List.drop_zero, List.map_nil, List.nil_append]
      · rw [if_neg hj]
        have hjlt : j < u.length := Nat.lt_of_le_of_ne (runSpan_le_len hs) hj
        have hij : i < j := runSpan_lt hs
        have hdlen : (u.drop j).length < fuel := by
          rw [List.length_drop]
          omega
        obtain ⟨ihk, ihr⟩ := ih (u.drop j) hdlen
        rcases hsp : splitLinesF fuel (u.drop j) with ⟨ls, k⟩
        rw [hsp] at ihk ihr
        dsimp only at ihk ihr ⊢
        refine ⟨by rw [List.length_drop] at ihk; omega, ?_⟩
        intro v
        rw [runs_append_span hs hjlt v, ihr v, List.map_cons, List.cons_append]
        rw [List.drop_drop]

theorem lsFold_nil (h : String → LState → LState × Bool) (cs : LState) :
    lsFold h [] cs = cs := rfl

theorem lsFold_cons (h : String → LState → LState × Bool) (l : String)
    (ls : List String) (cs : LState) :
    lsFold h (l :: ls) cs = lsFold h ls ((h l cs).1) := rfl

theorem lsFold_append (h : String → LState → LState × Bool) (ls₁ ls₂ : List String)
    (cs : LState) : lsFold h (ls₁ ++ ls₂) cs = lsFold h ls₂ (lsFold h ls₁ cs) :=
  List.foldl_append _ _ _ _

theorem onStatesUpdated_core (log : GLog) : (onStatesUpdated log).core = log.core := by
  rw [onStatesUpdated]
  split <;> rfl

theorem refreshD_core (d : DState) : (refreshD d).1.core = d.1.core :=
  onStatesUpdated_core d.1

theorem refreshD_storage (d : DState) : (refreshD d).2 = d.2 := rfl

theorem endD_core (d : DState) : (endD d).1.core = (endCS (d.1.core, d.2)).1 := by
  rw [endD, endCS]
  cases d.2.partialState with
  | none => exact onStatesUpdated_core _
  | some pws =>
    dsimp only
    rcases pws.appendTo d.1.core.states with ⟨pws2, states, b⟩
    exact onStatesUpdated_core _

theorem endD_storage (d : DState) : (endD d).2 = (endCS (d.1.core, d.2)).2 := by
  rw [endD, endCS]
  cases d.2.partialState with
  | none => rfl
  | some pws => dsimp only

theorem applyHandle_core (h : String → LState → LState × Bool) (l : String) (d : DState) :
    ((applyHandle h l d).1).1.core = ((h l (d.1.core, d.2)).1).1 := by
  rw [applyHandle]

theorem applyHandle_storage (h : String → LState → LState × Bool) (l : String)
    (d : DState) : ((applyHandle h l d).1).2 = ((h l (d.1.core, d.2)).1).2 := by
  rw [applyHandle]

/-- `next()` ignores the stored line. -/
theorem itNext_irrel (buf : List Char) (pos : ℕ) (l : Option String) (pb : Bool) :
    itNext ⟨buf, pos, l, pb⟩ = itNext ⟨buf, pos, none, pb⟩ := by
  rw [itNext, itNext]

/-- A failed `next()` leaves the iterator a fixed point of `next()`. -/
theorem itNext_idem (it : Iter) (h : (itNext it).2 = none) :
    itNext ((itNext it).1) = ((itNext it).1, none) := by
  rcases itNext_cases it with ⟨hs, heq⟩ | ⟨i, j, hs, ⟨hp, hj, heq⟩ | ⟨hC, heq⟩⟩
  · rw [heq]
    show itNext ⟨it.data, it.pos, none, it.partialData⟩ = _
    rw [itNext]
    dsimp only
    rw [hs]
  · rw [heq]
    show itNext ⟨it.data, it.pos, none, it.partialData⟩ = _
    rw [itNext]
    dsimp only
    rw [hs]
    dsimp only
    rw [if_pos ⟨hp, hj⟩]
  · rw [heq] at h
    exact Option.noConfusion h

/-- `splitLinesF` does not depend on the fuel, as long as it covers the
buffer length. -/
theorem splitLinesF_fuel_inv : ∀ (fuel fuel2 : ℕ) (u : List Char),
    u.length < fuel → u.length < fuel2 → splitLinesF fuel u = splitLinesF fuel2 u := by
  intro fuel
  induction fuel with
  | zero => intro fuel2 u h; omega
  | succ fuel ih =>
    intro fuel2 u hu hu2
    cases fuel2 with
    | zero => omega
    | succ fuel2 =>
      rw [splitLinesF, splitLinesF]
      cases hs : runSpan u with
      | none => rfl
      | some q =>
        obtain ⟨i, j⟩ := q
        dsimp only
        by_cases hj : j = u.length
        · rw [if_pos hj, if_pos hj]
        · rw [if_neg hj, if_neg hj]
          have hjlt : j < u.length := Nat.lt_of_le_of_ne (runSpan_le_len hs) hj
          have hij : i < j := runSpan_lt hs
          have h1 : (u.drop j).length < fuel := by rw [List.length_drop]; omega
          have h2 : (u.drop j).length < fuel2 := by rw [List.length_drop]; omega
          rw [ih fuel2 (u.drop j) h1 h2]

/-- The step equation of `splitLines` at an interior span. -/
theorem splitLines_step {u : List Char} {i j : ℕ} (hs : runSpan u = some (i, j))
    (hj : j < u.length) :
    splitLines u = (⟨(u.take j).drop i⟩ :: (splitLines (u.drop j)).1,
                    j + (splitLines (u.drop j)).2) := by
  have hij : i < j := runSpan_lt hs
  rw [splitLines, splitLinesF, hs]
  dsimp only
  rw [if_neg (by omega)]
  rw [splitLinesF_fuel_inv u.length ((u.drop j).length + 1) (u.drop j)
    (by rw [List.length_drop]; omega) (by rw [List.length_drop]; omega)]
  rfl

/-- `splitLines` consumes nothing when there is no span. -/
theorem splitLines_stop_none {u : List Char} (hs : runSpan u = none) :
    splitLines u = ([], 0) := by
  rw [splitLines, splitLinesF, hs]

/-- `splitLines` consumes nothing when the only span touches the end. -/
theorem splitLines_stop_touch {u : List Char} {i j : ℕ} (hs : runSpan u = some (i, j))
    (hj : j = u.length) : splitLines u = ([], 0) := by
  rw [splitLines, splitLinesF, hs]
  dsimp only
  rw [if_pos hj]

/-- The continuation-complete body loop on partial data: it consumes exactly
the complete lines of the remaining buffer, leaves the cursor before the
remnant, and its core/storage state is the fold of the handler over those
lines. -/
theorem drainLoop_partial (h : String → LState → LState × Bool)
    (hpres : ∀ l s, ((h l s).1).2.maxStates = s.2.maxStates) :
    ∀ (fuel : ℕ) (buf : List Char) (pos : ℕ) (d : DState) (cnt : ℕ),
      0 < d.2.maxStates →
      2 * (buf.length - pos) + 2 ≤ fuel →
      ∃ d' : DState,
        bodyDrainLoop h fuel ((itNext ⟨buf, pos, none, true⟩).1) d cnt
          = (⟨buf, pos + (splitLines (buf.drop pos)).2, none, true⟩, d') ∧
        d'.1.core = (lsFold h ((splitLines (buf.drop pos)).1) (d.1.core, d.2)).1 ∧
        d'.2 = (lsFold h ((splitLines (buf.drop pos)).1) (d.1.core, d.2)).2 := by
  intro fuel
  induction fuel using Nat.strong_induction_on with
  | _ fuel ih =>
  intro buf pos d cnt hmax hfuel
  rcases itNext_cases ⟨buf, pos, none, true⟩ with ⟨hs, heq⟩ | ⟨i, j, hs, hrest⟩
  · dsimp only at hs heq
    rw [heq, splitLines_stop_none hs]
    obtain ⟨f, rfl⟩ : ∃ f, fuel = f + 1 := ⟨fuel - 1, by omega⟩
    rw [bodyDrainLoop]
    dsimp only
    rw [if_neg (by simp)]
    refine ⟨(if cnt > 0 then refreshD d else d), by rw [Nat.add_zero], ?_, ?_⟩
    · rw [lsFold_nil]
      split
      · exact refreshD_core d
      · rfl
    · rw [lsFold_nil]
      split
      · exact refreshD_storage d
      · rfl
  · dsimp only at hs hrest
    have hij : i < j := runSpan_lt hs
    have hjle : j ≤ buf.length - pos := by
      have := runSpan_le_len hs
      rwa [List.length_drop] at this
    have hposlt : pos < buf.length := drop_ne_nil_of_runSpan hs
    rcases hrest with ⟨hp, hj, heq⟩ | ⟨hC, heq⟩
    · try dsimp only at hj heq
      rw [heq, splitLines_stop_touch hs (by rw [List.length_drop]; omega)]
      obtain ⟨f, rfl⟩ : ∃ f, fuel = f + 1 := ⟨fuel - 1, by omega⟩
      rw [bodyDrainLoop]
      dsimp only
      rw [if_neg (by simp)]
      refine ⟨(if cnt > 0 then refreshD d else d), by rw [Nat.add_zero], ?_, ?_⟩
      · rw [lsFold_nil]
        split
        · exact refreshD_core d
        · rfl
      · rw [lsFold_nil]
        split
        · exact refreshD_storage d
        · rfl
    · have hplt : pos + j < buf.length := by
        rcases Nat.lt_or_ge (pos + j) buf.length with hlt | hge
        · exact hlt
        · exact absurd ⟨rfl, by omega⟩ hC
      try dsimp only at heq
      rw [heq]
      have hstep := splitLines_step (u := buf.drop pos) hs
        (by rw [List.length_drop]; omega)
      have hdd : (buf.drop pos).drop j = buf.drop (pos + j) := by
        rw [List.drop_drop]
        try rw [Nat.add_comm j pos]
      rw [hdd] at hstep
      obtain ⟨f, rfl⟩ : ∃ f, fuel = f + 1 := ⟨fuel - 1, by omega⟩
      rw [bodyDrainLoop]
      dsimp only
      by_cases hcm : cnt ≥ d.2.maxStates
      · rw [if_pos hcm]
        have hd1max : (if cnt > 0 then refreshD d else d).2.maxStates = d.2.maxStates := by
          split
          · rfl
          · rfl
        obtain ⟨f2, rfl⟩ : ∃ f2, f = f2 + 1 := ⟨f - 1, by omega⟩
        rw [bodyDrainLoop]
        dsimp only
        rw [if_neg (by omega)]
        rcases hA : applyHandle h ⟨((buf.drop pos).take j).drop i⟩
            (if cnt > 0 then refreshD d else d) with ⟨d₂, isSt⟩
        dsimp only
        have hd2max : d₂.2.maxStates = d.2.maxStates := by
          have := applyHandle_max h hpres (⟨((buf.drop pos).take j).drop i⟩ : String)
            (if cnt > 0 then refreshD d else d)
          rw [hA] at this
          rw [this, hd1max]
        have hd2pair : (d₂.1.core, d₂.2)
            = (h ⟨((buf.drop pos).take j).drop i⟩ (d.1.core, d.2)).1 := by
          have h1 := applyHandle_core h ⟨((buf.drop pos).take j).drop i⟩
            (if cnt > 0 then refreshD d else d)
          have h2 := applyHandle_storage h ⟨((buf.drop pos).take j).drop i⟩
            (if cnt > 0 then refreshD d else d)
          rw [hA] at h1 h2
          have hcs : ((if cnt > 0 then refreshD d else d).1.core,
              (if cnt > 0 then refreshD d else d).2) = (d.1.core, d.2) := by
            split
            · exact Prod.ext (refreshD_core d) (refreshD_storage d)
            · rfl
          rw [hcs] at h1 h2
          exact Prod.ext h1 h2
        have hnx : (itNext { Iter.mk buf pos none true with
              pos := pos + j,
              line := some ⟨((buf.drop pos).take j).drop i⟩ }).1
            = (itNext ⟨buf, pos + j, none, true⟩).1 := by
          rw [show ({ Iter.mk buf pos none true with
                pos := pos + j,
                line := some ⟨((buf.drop pos).take j).drop i⟩ } : Iter)
              = ⟨buf, pos + j, some ⟨((buf.drop pos).take j).drop i⟩, true⟩ from rfl]
          rw [itNext_irrel]
        rw [hnx]
        obtain ⟨d₃, hleq, hcc, hcs⟩ := ih f2 (by omega) buf (pos + j) d₂
          (0 + if isSt then 1 else 0) (by omega) (by omega)
        refine ⟨d₃, ?_, ?_, ?_⟩
        · rw [hleq, hstep]
          dsimp only
          rw [Nat.add_assoc]
        · rw [hcc, hstep]
          dsimp only
          rw [lsFold_cons, hd2pair]
        · rw [hcs, hstep]
          dsimp only
          rw [lsFold_cons, hd2pair]
      · rw [if_neg hcm]
        rcases hA : applyHandle h ⟨((buf.drop pos).take j).drop i⟩ d with ⟨d₂, isSt⟩
        dsimp only
        have hd2max : d₂.2.maxStates = d.2.maxStates := by
          have := applyHandle_max h hpres (⟨((buf.drop pos).take j).drop i⟩ : String) d
          rw [hA] at this
          exact this
        have hd2pair : (d₂.1.core, d₂.2)
            = (h ⟨((buf.drop pos).take j).drop i⟩ (d.1.core, d.2)).1 := by
          have h1 := applyHandle_core h ⟨((buf.drop pos).take j).drop i⟩ d
          have h2 := applyHandle_storage h ⟨((buf.drop pos).take j).drop i⟩ d
          rw [hA] at h1 h2
          exact Prod.ext h1 h2
        have hnx : (itNext { Iter.mk buf pos none true with
              pos := pos + j,
              line := some ⟨((buf.drop pos).take j).drop i⟩ }).1
            = (itNext ⟨buf, pos + j, none, true⟩).1 := by
          rw [show ({ Iter.mk buf pos none true with
                pos := pos + j,
                line := some ⟨((buf.drop pos).take j).drop i⟩ } : Iter)
              = ⟨buf, pos + j, some ⟨((buf.drop pos).take j).drop i⟩, true⟩ from rfl]
          rw [itNext_irrel]
        rw [hnx]
        obtain ⟨d₃, hleq, hcc, hcs⟩ := ih f (by omega) buf (pos + j) d₂
          (cnt + if isSt then 1 else 0) (by omega) (by omega)
        refine ⟨d₃, ?_, ?_, ?_⟩
        · rw [hleq, hstep]
          dsimp only
          rw [Nat.add_assoc]
        · rw [hcc, hstep]
          dsimp only
          rw [lsFold_cons, hd2pair]
        · rw [hcs, hstep]
          dsimp only
          rw [lsFold_cons, hd2pair]

/-- The continuation-complete body loop on final (non-partial) data: it
consumes every line of the remaining buffer, disposes the cursor, and ends
with the end-of-data step applied to the fold of the handler over those
lines. -/
theorem drainLoop_full (h : String → LState → LState × Bool)
    (hpres : ∀ l s, ((h l s).1).2.maxStates = s.2.maxStates) :
    ∀ (fuel : ℕ) (buf : List Char) (pos : ℕ) (d : DState) (cnt : ℕ),
      0 < d.2.maxStates →
      2 * (buf.length - pos) + 2 ≤ fuel →
      ∃ d' : DState,
        bodyDrainLoop h fuel ((itNext ⟨buf, pos, none, false⟩).1) d cnt
          = (⟨[], 0, none, false⟩, d') ∧
        d'.1.core = (endCS (lsFold h
          ((runs (buf.drop pos)).map (fun l => (⟨l⟩ : String)))
          (d.1.core, d.2))).1 ∧
        d'.2 = (endCS (lsFold h
          ((runs (buf.drop pos)).map (fun l => (⟨l⟩ : String)))
          (d.1.core, d.2))).2 := by
  intro fuel
  induction fuel using Nat.strong_induction_on with
  | _ fuel ih =>
  intro buf pos d cnt hmax hfuel
  rcases itNext_cases ⟨buf, pos, none, false⟩ with ⟨hs, heq⟩ | ⟨i, j, hs, hrest⟩
  · try dsimp only at hs heq
    rw [heq, runs_none hs]
    obtain ⟨f, rfl⟩ : ∃ f, fuel = f + 1 := ⟨fuel - 1, by omega⟩
    rw [bodyDrainLoop]
    dsimp only
    rw [if_pos (by simp)]
    have hpair : ((if cnt > 0 then refreshD d else d).1.core,
        (if cnt > 0 then refreshD d else d).2) = (d.1.core, d.2) := by
      split
      · exact Prod.ext (refreshD_core d) (refreshD_storage d)
      · rfl
    refine ⟨endD (if cnt > 0 then refreshD d else d), rfl, ?_, ?_⟩
    · rw [List.map_nil, lsFold_nil, endD_core, hpair]
    · rw [List.map_nil, lsFold_nil, endD_storage, hpair]
  · try dsimp only at hs hrest
    have hij : i < j := runSpan_lt hs
    have hjle : j ≤ buf.length - pos := by
      have := runSpan_le_len hs
      rwa [List.length_drop] at this
    have hposlt : pos < buf.length := drop_ne_nil_of_runSpan hs
    rcases hrest with ⟨hp, hj, heq⟩ | ⟨hC, heq⟩
    · exact absurd hp (by simp)
    · try dsimp only at heq
      rw [heq]
      have hstep := runs_eq_span hs
      have hdd : (buf.drop pos).drop j = buf.drop (pos + j) := by
        rw [List.drop_drop]
        try rw [Nat.add_comm j pos]
      rw [hdd] at hstep
      obtain ⟨f, rfl⟩ : ∃ f, fuel = f + 1 := ⟨fuel - 1, by omega⟩
      rw [bodyDrainLoop]
      dsimp only
      by_cases hcm : cnt ≥ d.2.maxStates
      · rw [if_pos hcm]
        have hd1max : (if cnt > 0 then refreshD d else d).2.maxStates = d.2.maxStates := by
          split
          · rfl
          · rfl
        obtain ⟨f2, rfl⟩ : ∃ f2, f = f2 + 1 := ⟨f - 1, by omega⟩
        rw [bodyDrainLoop]
        dsimp only
        rw [if_neg (by omega)]
        rcases hA : applyHandle h ⟨((buf.drop pos).take j).drop i⟩
            (if cnt > 0 then refreshD d else d) with ⟨d₂, isSt⟩
        dsimp only
        have hd2max : d₂.2.maxStates = d.2.maxStates := by
          have := applyHandle_max h hpres (⟨((buf.drop pos).take j).drop i⟩ : String)
            (if cnt > 0 then refreshD d else d)
          rw [hA] at this
          rw [this, hd1max]
        have hd2pair : (d₂.1.core, d₂.2)
            = (h ⟨((buf.drop pos).take j).drop i⟩ (d.1.core, d.2)).1 := by
          have h1 := applyHandle_core h ⟨((buf.drop pos).take j).drop i⟩
            (if cnt > 0 then refreshD d else d)
          have h2 := applyHandle_storage h ⟨((buf.drop pos).take j).drop i⟩
            (if cnt > 0 then refreshD d else d)
          rw [hA] at h1 h2
          have hcs : ((if cnt > 0 then refreshD d else d).1.core,
              (if cnt > 0 then refreshD d else d).2) = (d.1.core, d.2) := by
            split
            · exact Prod.ext (refreshD_core d) (refreshD_storage d)
            · rfl
          rw [hcs] at h1 h2
          exact Prod.ext h1 h2
        have hnx : (itNext { Iter.mk buf pos none false with
              pos := pos + j,
              line := some ⟨((buf.drop pos).take j).drop i⟩ }).1
            = (itNext ⟨buf, pos + j, none, false⟩).1 := by
          rw [show ({ Iter.mk buf pos none false with
                pos := pos + j,
                line := some ⟨((buf.drop pos).take j).drop i⟩ } : Iter)
              = ⟨buf, pos + j, some ⟨((buf.drop pos).take j).drop i⟩, false⟩ from rfl]
          rw [itNext_irrel]
        rw [hnx]
        obtain ⟨d₃, hleq, hcc, hcs⟩ := ih f2 (by omega) buf (pos + j) d₂
          (0 + if isSt then 1 else 0) (by omega) (by omega)
        refine ⟨d₃, hleq, ?_, ?_⟩
        · rw [hcc, hstep]
          rw [List.map_cons, lsFold_cons, hd2pair]
        · rw [hcs, hstep]
          rw [List.map_cons, lsFold_cons, hd2pair]
      · rw [if_neg hcm]
        rcases hA : applyHandle h ⟨((buf.drop pos).take j).drop i⟩ d with ⟨d₂, isSt⟩
        dsimp only
        have hd2max : d₂.2.maxStates = d.2.maxStates := by
          have := applyHandle_max h hpres (⟨((buf.drop pos).take j).drop i⟩ : String) d
          rw [hA] at this
          exact this
        have hd2pair : (d₂.1.core, d₂.2)
            = (h ⟨((buf.drop pos).take j).drop i⟩ (d.1.core, d.2)).1 := by
          have h1 := applyHandle_core h ⟨((buf.drop pos).take j).drop i⟩ d
          have h2 := applyHandle_storage h ⟨((buf.drop pos).take j).drop i⟩ d
          rw [hA] at h1 h2
          exact Prod.ext h1 h2
        have hnx : (itNext { Iter.mk buf pos none false with
              pos := pos + j,
              line := some ⟨((buf.drop pos).take j).drop i⟩ }).1
            = (itNext ⟨buf, pos + j, none, false⟩).1 := by
          rw [show ({ Iter.mk buf pos none false with
                pos := pos + j,
                line := some ⟨((buf.drop pos).take j).drop i⟩ } : Iter)
              = ⟨buf, pos + j, some ⟨((buf.drop pos).take j).drop i⟩, false⟩ from rfl]
          rw [itNext_irrel]
        rw [hnx]
        obtain ⟨d₃, hleq, hcc, hcs⟩ := ih f (by omega) buf (pos + j) d₂
          (cnt + if isSt then 1 else 0) (by omega) (by omega)
        refine ⟨d₃, hleq, ?_, ?_⟩
        · rw [hcc, hstep]
          rw [List.map_cons, lsFold_cons, hd2pair]
        · rw [hcs, hstep]
          rw [List.map_cons, lsFold_cons, hd2pair]

/-- The per-line fold keeps the batch bound of a bound-preserving handler. -/
theorem lsFold_max (h : String → LState → LState × Bool)
    (hpres : ∀ l s, ((h l s).1).2.maxStates = s.2.maxStates) :
    ∀ (ls : List String) (cs : LState),
      ((lsFold h ls cs).2).maxStates = cs.2.maxStates := by
  intro ls
  induction ls with
  | nil => intro cs; rfl
  | cons l ls ih =>
    intro cs
    rw [lsFold_cons, ih ((h l cs).1), hpres l cs]

theorem itNext_data (it : Iter) : (itNext it).1.data = it.data := by
  rw [itNext]
  dsimp only
  cases runSpan (it.data.drop it.pos) with
  | none => rfl
  | some q =>
    obtain ⟨i, j⟩ := q
    dsimp only
    split <;> rfl

theorem itNext_partialData (it : Iter) : (itNext it).1.partialData = it.partialData := by
  rw [itNext]
  dsimp only
  cases runSpan (it.data.drop it.pos) with
  | none => rfl
  | some q =>
    obtain ⟨i, j⟩ := q
    dsimp only
    split <;> rfl

/-- Entering the body after a prefetched `next()` always lands the loop on
the canonical post-`next` iterator. -/
theorem bodyDrain_after_next (h : String → LState → LState × Bool)
    (buf : List Char) (pos : ℕ) (l : Option String) (pb : Bool) (d : DState) :
    bodyDrain h ((itNext ⟨buf, pos, l, pb⟩).1) d
      = bodyDrainLoop h (2 * buf.length + 4) ((itNext ⟨buf, pos, none, pb⟩).1) d 0 := by
  rw [itNext_irrel]
  rw [bodyDrain]
  rcases itNext_cases ⟨buf, pos, none, pb⟩ with ⟨hs, heq⟩ |
    ⟨i, j, hs, ⟨hp, hj, heq⟩ | ⟨hC, heq⟩⟩
  · rw [heq]
    have hid := itNext_idem ⟨buf, pos, none, pb⟩ (by rw [heq])
    rw [heq] at hid
    dsimp only at hid ⊢
    rw [if_pos (by rfl), hid]
  · rw [heq]
    have hid := itNext_idem ⟨buf, pos, none, pb⟩ (by rw [heq])
    rw [heq] at hid
    dsimp only at hid ⊢
    rw [if_pos (by rfl), hid]
  · rw [heq]
    dsimp only
    rw [if_neg (by simp)]

/-- The full effect of one body run on partial data entered after a
`next()`: the complete lines of the remnant are folded into the state and
the cursor stops before the unterminated tail. -/
theorem bodyDrain_partial_spec (h : String → LState → LState × Bool)
    (hpres : ∀ l s, ((h l s).1).2.maxStates = s.2.maxStates)
    (buf : List Char) (pos : ℕ) (l : Option String) (d : DState)
    (hmax : 0 < d.2.maxStates) :
    ∃ d' : DState,
      bodyDrain h ((itNext ⟨buf, pos, l, true⟩).1) d
        = (⟨buf, pos + (splitLines (buf.drop pos)).2, none, true⟩, d') ∧
      d'.1.core = (lsFold h ((splitLines (buf.drop pos)).1) (d.1.core, d.2)).1 ∧
      d'.2 = (lsFold h ((splitLines (buf.drop pos)).1) (d.1.core, d.2)).2 := by
  rw [bodyDrain_after_next]
  exact drainLoop_partial h hpres (2 * buf.length + 4) buf pos d 0 hmax (by omega)

/-- The same for a body run entered on a fresh cursor (position `0`). -/
theorem bodyDrain_fresh_partial (h : String → LState → LState × Bool)
    (hpres : ∀ l s, ((h l s).1).2.maxStates = s.2.maxStates)
    (buf : List Char) (d : DState) (hmax : 0 < d.2.maxStates) :
    ∃ d' : DState,
      bodyDrain h ⟨buf, 0, none, true⟩ d
        = (⟨buf, (splitLines buf).2, none, true⟩, d') ∧
      d'.1.core = (lsFold h ((splitLines buf).1) (d.1.core, d.2)).1 ∧
      d'.2 = (lsFold h ((splitLines buf).1) (d.1.core, d.2)).2 := by
  rw [bodyDrain]
  dsimp only
  rw [if_pos (by rfl)]
  rw [show (itNext (⟨buf, 0, none, true⟩ : Iter)).1.data = buf from itNext_data _]
  have := drainLoop_partial h hpres (2 * buf.length + 4) buf 0 d 0 hmax (by omega)
  rw [List.drop_zero, Nat.zero_add] at this
  exact this

/-- The full effect of one body run on final data entered after a
`next()`: every remaining line is folded and the end-of-data commit and
finalisation are applied. -/
theorem bodyDrain_full_spec (h : String → LState → LState × Bool)
    (hpres : ∀ l s, ((h l s).1).2.maxStates = s.2.maxStates)
    (buf : List Char) (pos : ℕ) (l : Option String) (d : DState)
    (hmax : 0 < d.2.maxStates) :
    ∃ d' : DState,
      bodyDrain h ((itNext ⟨buf, pos, l, false⟩).1) d
        = (⟨[], 0, none, false⟩, d') ∧
      d'.1.core = (endCS (lsFold h
        ((runs (buf.drop pos)).map (fun l => (⟨l⟩ : String))) (d.1.core, d.2))).1 ∧
      d'.2 = (endCS (lsFold h
        ((runs (buf.drop pos)).map (fun l => (⟨l⟩ : String))) (d.1.core, d.2))).2 := by
  rw [bodyDrain_after_next]
  exact drainLoop_full h hpres (2 * buf.length + 4) buf pos d 0 hmax (by omega)

/-- The same for a final body run entered on a fresh cursor. -/
theorem bodyDrain_fresh_full (h : String → LState → LState × Bool)
    (hpres : ∀ l s, ((h l s).1).2.maxStates = s.2.maxStates)
    (buf : List Char) (d : DState) (hmax : 0 < d.2.maxStates) :
    ∃ d' : DState,
      bodyDrain h ⟨buf, 0, none, false⟩ d
        = (⟨[], 0, none, false⟩, d') ∧
      d'.1.core = (endCS (lsFold h
        ((runs buf).map (fun l => (⟨l⟩ : String))) (d.1.core, d.2))).1 ∧
      d'.2 = (endCS (lsFold h
        ((runs buf).map (fun l => (⟨l⟩ : String))) (d.1.core, d.2))).2 := by
  rw [bodyDrain]
  dsimp only
  rw [if_pos (by rfl)]
  rw [show (itNext (⟨buf, 0, none, false⟩ : Iter)).1.data = buf from itNext_data _]
  have := drainLoop_full h hpres (2 * buf.length + 4) buf 0 d 0 hmax (by omega)
  rw [List.drop_zero] at this
  exact this

theorem uparse_init_partial (host : JsHost) (c₀ : String) (inc : Bool) {i j : ℕ}
    (hspan : runSpan c₀.data = some (i, j)) (hjlt : j < c₀.data.length)
    (hhead : ulgHeaderBad ⟨(c₀.data.take j).drop i⟩ = false) :
    ∃ d' : DState,
      (uparse host emptyUParser c₀ true inc).1
        = ⟨some ⟨c₀.data, j + (splitLines (c₀.data.drop j)).2, none, true⟩,
           some d'.1, some d'.2⟩ ∧
      d'.1.core = (lsFold (ulgHandle host) (splitLines (c₀.data.drop j)).1
          (ulgInitCS ⟨(c₀.data.take j).drop i⟩)).1 ∧
      d'.2 = (lsFold (ulgHandle host) (splitLines (c₀.data.drop j)).1
          (ulgInitCS ⟨(c₀.data.take j).drop i⟩)).2 := by
  have hnx : itNext (mkIter c₀ true)
      = (⟨c₀.data, j, some ⟨(c₀.data.take j).drop i⟩, true⟩,
         some ⟨(c₀.data.take j).drop i⟩) := by
    rw [mkIter, itNext]
    dsimp only
    rw [List.drop_zero, hspan]
    dsimp only
    rw [if_neg (fun hcon => absurd hcon.2 (by omega))]
    rw [Nat.zero_add]
  obtain ⟨d', hbd, hc, hst⟩ := bodyDrain_partial_spec (ulgHandle host)
    (ulgHandle_max host) c₀.data j (some ⟨(c₀.data.take j).drop i⟩)
    ((mkGLog simTWOD (jsParseIntDec (jsDrop ⟨(c₀.data.take j).drop i⟩ 3))),
     { mkStorage with partialState := some (mkPartialWorldState 0 (1/10) 0),
                      maxStates := 100 })
    (by show (0:ℕ) < 100; decide)
  refine ⟨d', ?_, hc, hst⟩
  rw [uparse]
  dsimp only [emptyUParser]
  rw [hnx]
  dsimp only
  rw [if_neg (by simp [hhead])]
  rw [show itNext (⟨c₀.data, j, some ⟨(c₀.data.take j).drop i⟩, true⟩ : Iter)
      = ((itNext (⟨c₀.data, j, some ⟨(c₀.data.take j).drop i⟩, true⟩ : Iter)).1,
         (itNext (⟨c₀.data, j, some ⟨(c₀.data.take j).drop i⟩, true⟩ : Iter)).2) from rfl]
  dsimp only
  rw [hbd]
  dsimp only
  rw [show d' = (d'.1, d'.2) from rfl]
  dsimp only
  rw [if_neg (by simp)]

theorem uparse_init_full (host : JsHost) (T : String) (inc : Bool) {i j : ℕ}
    (hspan : runSpan T.data = some (i, j))
    (hhead : ulgHeaderBad ⟨(T.data.take j).drop i⟩ = false) :
    ∃ d' : DState,
      (uparse host emptyUParser T false inc).1
        = ⟨some ⟨[], 0, none, false⟩, some d'.1, some d'.2⟩ ∧
      d'.1.core = (endCS (lsFold (ulgHandle host)
          ((runs (T.data.drop j)).map (fun l => (⟨l⟩ : String)))
          (ulgInitCS ⟨(T.data.take j).drop i⟩))).1 ∧
      d'.2 = (endCS (lsFold (ulgHandle host)
          ((runs (T.data.drop j)).map (fun l => (⟨l⟩ : String)))
          (ulgInitCS ⟨(T.data.take j).drop i⟩))).2 := by
  have hnx : itNext (mkIter T false)
      = (⟨T.data, j, some ⟨(T.data.take j).drop i⟩, false⟩,
         some ⟨(T.data.take j).drop i⟩) := by
    rw [mkIter, itNext]
    dsimp only
    rw [List.drop_zero, hspan]
    dsimp only
    rw [if_neg (by simp)]
    rw [Nat.zero_add]
  obtain ⟨d', hbd, hc, hst⟩ := bodyDrain_full_spec (ulgHandle host)
    (ulgHandle_max host) T.data j (some ⟨(T.data.take j).drop i⟩)
    ((mkGLog simTWOD (jsParseIntDec (jsDrop ⟨(T.data.take j).drop i⟩ 3))),
     { mkStorage with partialState := some (mkPartialWorldState 0 (1/10) 0),
                      maxStates := 100 })
    (by show (0:ℕ) < 100; decide)
  refine ⟨d', ?_, hc, hst⟩
  rw [uparse]
  dsimp only [emptyUParser]
  rw [hnx]
  dsimp only
  rw [if_neg (by simp [hhead])]
  rw [show itNext (⟨T.data, j, some ⟨(T.data.take j).drop i⟩, false⟩ : Iter)
      = ((itNext (⟨T.data, j, some ⟨(T.data.take j).drop i⟩, false⟩ : Iter)).1,
         (itNext (⟨T.data, j, some ⟨(T.data.take j).drop i⟩, false⟩ : Iter)).2) from rfl]
  dsimp only
  rw [hbd]
  dsimp only
  rw [show d' = (d'.1, d'.2) from rfl]
  dsimp only
  split <;> rfl

theorem uparse_progress_partial (host : JsHost) (buf : List Char) (pos : ℕ)
    (log : GLog) (st : LogParserStorage) (c : String) (hmax : 0 < st.maxStates) :
    ∃ d' : DState,
      (uparse host ⟨some ⟨buf, pos, none, true⟩, some log, some st⟩ c true true).1
        = ⟨some ⟨buf.drop pos ++ c.data,
              (splitLines (buf.drop pos ++ c.data)).2, none, true⟩,
           some d'.1, some d'.2⟩ ∧
      d'.1.core = (lsFold (ulgHandle host)
          (splitLines (buf.drop pos ++ c.data)).1 (log.core, st)).1 ∧
      d'.2 = (lsFold (ulgHandle host)
          (splitLines (buf.drop pos ++ c.data)).1 (log.core, st)).2 := by
  obtain ⟨d', hbd, hc, hst⟩ := bodyDrain_fresh_partial (ulgHandle host)
    (ulgHandle_max host) (buf.drop pos ++ c.data) (log, st) hmax
  refine ⟨d', ?_, hc, hst⟩
  rw [uparse]
  dsimp only
  simp only [itUpdate, Option.isNone_none, reduceIte]
  rw [hbd]
  dsimp only
  rw [if_neg (by simp)]

theorem uparse_progress_full (host : JsHost) (buf : List Char) (pos : ℕ)
    (log : GLog) (st : LogParserStorage) (c : String) (hmax : 0 < st.maxStates) :
    ∃ d' : DState,
      (uparse host ⟨some ⟨buf, pos, none, true⟩, some log, some st⟩ c false true).1
        = ⟨some ⟨[], 0, none, false⟩, some d'.1, some d'.2⟩ ∧
      d'.1.core = (endCS (lsFold (ulgHandle host)
          ((runs (buf.drop pos ++ c.data)).map (fun l => (⟨l⟩ : String)))
          (log.core, st))).1 ∧
      d'.2 = (endCS (lsFold (ulgHandle host)
          ((runs (buf.drop pos ++ c.data)).map (fun l => (⟨l⟩ : String)))
          (log.core, st))).2 := by
  obtain ⟨d', hbd, hc, hst⟩ := bodyDrain_fresh_full (ulgHandle host)
    (ulgHandle_max host) (buf.drop pos ++ c.data) (log, st) hmax
  refine ⟨d', ?_, hc, hst⟩
  rw [uparse]
  dsimp only
  simp only [itUpdate, Option.isNone_none, reduceIte]
  rw [hbd]
  dsimp only
  split <;> rfl

theorem sfoldl_data : ∀ (l : List String) (a : String),
    (l.foldl (· ++ ·) a).data = a.data ++ (l.map String.data).join := by
  intro l
  induction l with
  | nil => intro a; simp
  | cons c t ih =>
    intro a
    rw [List.foldl_cons, ih (a ++ c), List.map_cons, List.join]
    simp

theorem join_data (l : List String) :
    (String.join l).data = (l.map String.data).join := by
  rw [String.join, sfoldl_data]
  rfl

theorem join_cons_data (c : String) (l : List String) :
    (String.join (c :: l)).data = c.data ++ (String.join l).data := by
  rw [join_data, join_data, List.map_cons]
  rfl

theorem strs_roundtrip : ∀ (ls : List String),
    (ls.map String.data).map (fun l => (⟨l⟩ : String)) = ls := by
  intro ls
  induction ls with
  | nil => rfl
  | cons c t ih => rw [List.map_cons, List.map_cons, ih]

theorem chunksFrom_spec (host : JsHost) :
    ∀ (chunks : List String) (buf : List Char) (pos : ℕ) (log : GLog)
      (st : LogParserStorage),
      chunks ≠ [] → 0 < st.maxStates →
      ∃ it_f log_f st_f,
        ulgParseChunksFrom host ⟨some ⟨buf, pos, none, true⟩, some log, some st⟩ chunks
          = ⟨some it_f, some log_f, some st_f⟩ ∧
        log_f.core = (endCS (lsFold (ulgHandle host)
            ((runs (buf.drop pos ++ (String.join chunks).data)).map
              (fun l => (⟨l⟩ : String)))
            (log.core, st))).1 ∧
        st_f = (endCS (lsFold (ulgHandle host)
            ((runs (buf.drop pos ++ (String.join chunks).data)).map
              (fun l => (⟨l⟩ : String)))
            (log.core, st))).2 := by
  intro chunks
  induction chunks with
  | nil => intro _ _ _ _ hne _; exact absurd rfl hne
  | cons c rest ih =>
    intro buf pos log st hne hmax
    cases rest with
    | nil =>
      rw [show ulgParseChunksFrom host
            ⟨some ⟨buf, pos, none, true⟩, some log, some st⟩ [c]
          = (uparse host ⟨some ⟨buf, pos, none, true⟩, some log, some st⟩
              c false true).1 from rfl]
      obtain ⟨d', hu, hc, hst⟩ := uparse_progress_full host buf pos log st c hmax
      have hjoin : (String.join [c]).data = c.data := by
        rw [join_cons_data, join_data]
        simp
      refine ⟨⟨[], 0, none, false⟩, d'.1, d'.2, hu, ?_, ?_⟩
      · rw [hc, hjoin]
      · rw [hst, hjoin]
    | cons c₂ rest₂ =>
      rw [show ulgParseChunksFrom host
            ⟨some ⟨buf, pos, none, true⟩, some log, some st⟩ (c :: c₂ :: rest₂)
          = ulgParseChunksFrom host
              (uparse host ⟨some ⟨buf, pos, none, true⟩, some log, some st⟩
                c true true).1 (c₂ :: rest₂) from rfl]
      obtain ⟨d', hu, hc, hst⟩ := uparse_progress_partial host buf pos log st c hmax
      rw [hu]
      obtain ⟨it_f, log_f, st_f, hrec, hcf, hsf⟩ := ih (buf.drop pos ++ c.data)
        ((splitLines (buf.drop pos ++ c.data)).2) d'.1 d'.2 (by simp)
        (by rw [hst, lsFold_max _ (ulgHandle_max host)]; exact hmax)
      have hpair : (d'.1.core, d'.2)
          = lsFold (ulgHandle host) (splitLines (buf.drop pos ++ c.data)).1
              (log.core, st) := Prod.ext hc hst
      have hsplit := (splitLinesF_spec ((buf.drop pos ++ c.data).length + 1)
        (buf.drop pos ++ c.data) (by omega)).2 (String.join (c₂ :: rest₂)).data
      rw [show splitLinesF ((buf.drop pos ++ c.data).length + 1) (buf.drop pos ++ c.data)
          = splitLines (buf.drop pos ++ c.data) from rfl] at hsplit
      have hargs : lsFold (ulgHandle host)
            ((runs ((buf.drop pos ++ c.data).drop
                (splitLines (buf.drop pos ++ c.data)).2
              ++ (String.join (c₂ :: rest₂)).data)).map (fun l => (⟨l⟩ : String)))
            (lsFold (ulgHandle host) (splitLines (buf.drop pos ++ c.data)).1
              (log.core, st))
          = lsFold (ulgHandle host)
            ((runs (buf.drop pos ++ (String.join (c :: c₂ :: rest₂)).data)).map
              (fun l => (⟨l⟩ : String)))
            (log.core, st) := by
        rw [join_cons_data c (c₂ :: rest₂)]
        rw [show buf.drop pos ++ (c.data ++ (String.join (c₂ :: rest₂)).data)
            = (buf.drop pos ++ c.data) ++ (String.join (c₂ :: rest₂)).data
          from (List.append_assoc _ _ _).symm]
        rw [hsplit, List.map_append, strs_roundtrip, lsFold_append]
      refine ⟨it_f, log_f, st_f, hrec, ?_, ?_⟩
      · rw [hcf, hpair, hargs]
      · rw [hsf, hpair, hargs]

/-- Claim C1, counterexample: the decoders can produce a log whose committed
times are *not* strictly increasing.  On `cexTinyStepText` the `EP` line
installs `log_step = 0.25` ms, so the accumulator's time step `0.00025`
rounds to zero on every commit: the Replay parser produces two states, both
at time `0`. -/
theorem claim_C1_counterexample :
    (statesOfR (rplParseFull refHost cexTinyStepText).1).map WorldState.time = [0, 0] ∧
    ¬ timeStrictMono (statesOfR (rplParseFull refHost cexTinyStepText).1) := by
  refine ⟨by decide, by rw [timeStrictMono]; decide⟩

/-- Claim C1, amended: the committed WorldState sequence is strictly
increasing in time for every sequence of accumulator operations the
decoders perform — field setters, time-step installs, commits — provided
the initial time step and every installed time step is at least one
millisecond (`1/1000`).  Time only advances on commit, by the rounded
time step; below that threshold the millisecond rounding can collapse the
advance (see the counterexample). -/
theorem claim_C1_timeOrdering (ops : List PwsOp) (step g : ℚ)
    (hstep : 1/1000 ≤ step)
    (hops : ∀ q ∈ opsTimeSteps ops, 1/1000 ≤ q) :
    timeStrictMono (applyPwsOps ops (mkPartialWorldState 0 step g, [])).2 := by
  have h0 : pwsInv (mkPartialWorldState 0 step g, []) := by
    refine ⟨⟨0, by simp [mkPartialWorldState]⟩,
      by simpa [mkPartialWorldState] using hstep, ?_, rfl⟩
    intro w hw
    exact absurd hw (List.not_mem_nil w)
  exact (applyPwsOps_inv ops _ h0 hops).2.2.2

/-- Claim C1, witness: two commits with a 100 ms step from a fresh
accumulator give strictly increasing committed times. -/
theorem claim_C1_witness :
    timeStrictMono (applyPwsOps
      [.agentL 0 ⟨[0,0,0,0,0,0,1,0,0,10]⟩, .commit,
       .agentL 0 ⟨[0,0,0,0,0,0,1,0,0,10]⟩, .commit]
      (mkPartialWorldState 0 (1/10) 0, [])).2 := by
  refine claim_C1_timeOrdering _ (1/10) 0 (by norm_num) ?_
  intro q hq
  simp [opsTimeSteps] at hq

/-- Claim C2, counterexample: splitting the input inside the header line
breaks chunking invariance.  The whole text decodes to one state, but fed
as the chunks `["UL", "G5\n…"]` the first call throws on the truncated
header, the decoder restarts on the second chunk alone and throws again,
and no state is ever produced. -/
theorem claim_C2_counterexample :
    String.join ulgOneShowChunks = ulgOneShowText ∧
    (statesOfU (ulgParseFull refHost ulgOneShowText).1).length = 1 ∧
    statesOfU (ulgParseChunks refHost ulgOneShowChunks) = [] := by
  refine ⟨by decide, by decide, by decide⟩

/-- ULG chunking invariance under a complete first-chunk header line. -/
theorem ulgChunkInvariance (host : JsHost) (c₀ : String) (rest : List String) {i j : ℕ}
    (hspan : runSpan c₀.data = some (i, j)) (hjlt : j < c₀.data.length)
    (hhead : ulgHeaderBad ⟨(c₀.data.take j).drop i⟩ = false) :
    statesOfU (ulgParseChunks host (c₀ :: rest))
      = statesOfU (ulgParseFull host (String.join (c₀ :: rest))).1 := by
  cases rest with
  | nil =>
    have hj1 : String.join [c₀] = c₀ := rfl
    rw [show ulgParseChunks host [c₀]
        = (uparse host emptyUParser c₀ false true).1 from rfl]
    rw [ulgParseFull, hj1]
    rw [show uparse host emptyUParser c₀ false true
        = uparse host emptyUParser c₀ false false from rfl]
  | cons c₂ rest₂ =>
    obtain ⟨d₁, hu1, hc1, hs1⟩ := uparse_init_partial host c₀ true hspan hjlt hhead
    rw [show ulgParseChunks host (c₀ :: c₂ :: rest₂)
        = ulgParseChunksFrom host
            (uparse host emptyUParser c₀ true true).1 (c₂ :: rest₂) from rfl]
    rw [hu1]
    obtain ⟨it_f, log_f, st_f, hrec, hcf, hsf⟩ := chunksFrom_spec host (c₂ :: rest₂)
      c₀.data (j + (splitLines (c₀.data.drop j)).2) d₁.1 d₁.2 (by simp)
      (by rw [hs1, lsFold_max _ (ulgHandle_max host)]
          show (0:ℕ) < 100
          decide)
    rw [hrec]
    have hTdata : (String.join (c₀ :: c₂ :: rest₂)).data
        = c₀.data ++ (String.join (c₂ :: rest₂)).data := join_cons_data _ _
    have hspanT : runSpan (String.join (c₀ :: c₂ :: rest₂)).data = some (i, j) := by
      rw [hTdata]
      exact runSpan_append hspan hjlt _
    have hsegT : (((String.join (c₀ :: c₂ :: rest₂)).data.take j).drop i)
        = ((c₀.data.take j).drop i) := by
      rw [hTdata, List.take_append_of_le_length (le_of_lt hjlt)]
    obtain ⟨d₂, hu2, hc2, hs2⟩ := uparse_init_full host
      (String.join (c₀ :: c₂ :: rest₂)) false hspanT
      (by rw [show (⟨(((String.join (c₀ :: c₂ :: rest₂)).data.take j).drop i)⟩ : String)
            = (⟨((c₀.data.take j).drop i)⟩ : String) from by rw [hsegT]]
          exact hhead)
    rw [ulgParseFull, hu2]
    rw [statesOfU, statesOfU]
    dsimp only
    rw [hcf, hc2]
    have hpair : (d₁.1.core, d₁.2)
        = lsFold (ulgHandle host) (splitLines (c₀.data.drop j)).1
            (ulgInitCS ⟨(c₀.data.take j).drop i⟩) := Prod.ext hc1 hs1
    rw [hpair]
    rw [show (⟨(((String.join (c₀ :: c₂ :: rest₂)).data.take j).drop i)⟩ : String)
        = (⟨((c₀.data.take j).drop i)⟩ : String) from by rw [hsegT]]
    rw [show (String.join (c₀ :: c₂ :: rest₂)).data.drop j
        = c₀.data.drop j ++ (String.join (c₂ :: rest₂)).data from by
      rw [hTdata, List.drop_append_of_le_length (le_of_lt hjlt)]]
    have hsplit := (splitLinesF_spec ((c₀.data.drop j).length + 1)
      (c₀.data.drop j) (by omega)).2 (String.join (c₂ :: rest₂)).data
    rw [show splitLinesF ((c₀.data.drop j).length + 1) (c₀.data.drop j)
        = splitLines (c₀.data.drop j) from rfl] at hsplit
    rw [hsplit, List.map_append, strs_roundtrip, lsFold_append]
    rw [show (c₀.data.drop j).drop (splitLines (c₀.data.drop j)).2
        = c₀.data.drop (j + (splitLines (c₀.data.drop j)).2) from by
      rw [List.drop_drop]
      try rw [Nat.add_comm]]

theorem rInitStorage_pos (log : GLog) : 0 < (rInitStorage log).maxStates := by
  show 0 < (if log.core.simType = simTWOD then 300 else 50)
  split
  · decide
  · decide

theorem rparse_progress_partial (host : JsHost) (buf : List Char) (pos : ℕ)
    (log : GLog) (st : LogParserStorage) (c : String) (hmax : 0 < st.maxStates) :
    ∃ d' : DState,
      (rparse host ⟨some ⟨buf, pos, none, true⟩, some log, some st⟩ c true true).1
        = ⟨some ⟨buf.drop pos ++ c.data,
              (splitLines (buf.drop pos ++ c.data)).2, none, true⟩,
           some d'.1, some d'.2⟩ ∧
      d'.1.core = (lsFold (replayHandle host)
          (splitLines (buf.drop pos ++ c.data)).1 (log.core, st)).1 ∧
      d'.2 = (lsFold (replayHandle host)
          (splitLines (buf.drop pos ++ c.data)).1 (log.core, st)).2 := by
  obtain ⟨d', hbd, hc, hst⟩ := bodyDrain_fresh_partial (replayHandle host)
    (replayHandle_max host) (buf.drop pos ++ c.data) (log, st) hmax
  refine ⟨d', ?_, hc, hst⟩
  rw [rparse]
  dsimp only
  simp only [itUpdate, Option.isNone_none, reduceIte]
  rw [hbd]
  dsimp only
  rw [if_neg (by simp)]

theorem rparse_progress_full (host : JsHost) (buf : List Char) (pos : ℕ)
    (log : GLog) (st : LogParserStorage) (c : String) (hmax : 0 < st.maxStates) :
    ∃ d' : DState,
      (rparse host ⟨some ⟨buf, pos, none, true⟩, some log, some st⟩ c false true).1
        = ⟨some ⟨[], 0, none, false⟩, some d'.1, some d'.2⟩ ∧
      d'.1.core = (endCS (lsFold (replayHandle host)
          ((runs (buf.drop pos ++ c.data)).map (fun l => (⟨l⟩ : String)))
          (log.core, st))).1 ∧
      d'.2 = (endCS (lsFold (replayHandle host)
          ((runs (buf.drop pos ++ c.data)).map (fun l => (⟨l⟩ : String)))
          (log.core, st))).2 := by
  obtain ⟨d', hbd, hc, hst⟩ := bodyDrain_fresh_full (replayHandle host)
    (replayHandle_max host) (buf.drop pos ++ c.data) (log, st) hmax
  refine ⟨d', ?_, hc, hst⟩
  rw [rparse]
  dsimp only
  simp only [itUpdate, Option.isNone_none, reduceIte]
  rw [hbd]
  dsimp only
  split <;> rfl

theorem rChunksFrom_spec (host : JsHost) :
    ∀ (chunks : List String) (buf : List Char) (pos : ℕ) (log : GLog)
      (st : LogParserStorage),
      chunks ≠ [] → 0 < st.maxStates →
      ∃ it_f log_f st_f,
        rplParseChunksFrom host ⟨some ⟨buf, pos, none, true⟩, some log, some st⟩ chunks
          = ⟨some it_f, some log_f, some st_f⟩ ∧
        log_f.core = (endCS (lsFold (replayHandle host)
            ((runs (buf.drop pos ++ (String.join chunks).data)).map
              (fun l => (⟨l⟩ : String)))
            (log.core, st))).1 ∧
        st_f = (endCS (lsFold (replayHandle host)
            ((runs (buf.drop pos ++ (String.join chunks).data)).map
              (fun l => (⟨l⟩ : String)))
            (log.core, st))).2 := by
  intro chunks
  induction chunks with
  | nil => intro _ _ _ _ hne _; exact absurd rfl hne
  | cons c rest ih =>
    intro buf pos log st hne hmax
    cases rest with
    | nil =>
      rw [show rplParseChunksFrom host
            ⟨some ⟨buf, pos, none, true⟩, some log, some st⟩ [c]
          = (rparse host ⟨some ⟨buf, pos, none, true⟩, some log, some st⟩
              c false true).1 from rfl]
      obtain ⟨d', hu, hc, hst⟩ := rparse_progress_full host buf pos log st c hmax
      have hjoin : (String.join [c]).data = c.data := by
        rw [join_cons_data, join_data]
        simp
      refine ⟨⟨[], 0, none, false⟩, d'.1, d'.2, hu, ?_, ?_⟩
      · rw [hc, hjoin]
      · rw [hst, hjoin]
    | cons c₂ rest₂ =>
      rw [show rplParseChunksFrom host
            ⟨some ⟨buf, pos, none, true⟩, some log, some st⟩ (c :: c₂ :: rest₂)
          = rplParseChunksFrom host
              (rparse host ⟨some ⟨buf, pos, none, true⟩, some log, some st⟩
                c true true).1 (c₂ :: rest₂) from rfl]
      obtain ⟨d', hu, hc, hst⟩ := rparse_progress_partial host buf pos log st c hmax
      rw [hu]
      obtain ⟨it_f, log_f, st_f, hrec, hcf, hsf⟩ := ih (buf.drop pos ++ c.data)
        ((splitLines (buf.drop pos ++ c.data)).2) d'.1 d'.2 (by simp)
        (by rw [hst, lsFold_max _ (replayHandle_max host)]; exact hmax)
      have hpair : (d'.1.core, d'.2)
          = lsFold (replayHandle host) (splitLines (buf.drop pos ++ c.data)).1
              (log.core, st) := Prod.ext hc hst
      have hsplit := (splitLinesF_spec ((buf.drop pos ++ c.data).length + 1)
        (buf.drop pos ++ c.data) (by omega)).2 (String.join (c₂ :: rest₂)).data
      rw [show splitLinesF ((buf.drop pos ++ c.data).length + 1) (buf.drop pos ++ c.data)
          = splitLines (buf.drop pos ++ c.data) from rfl] at hsplit
      have hargs : lsFold (replayHandle host)
            ((runs ((buf.drop pos ++ c.data).drop
                (splitLines (buf.drop pos ++ c.data)).2
              ++ (String.join (c₂ :: rest₂)).data)).map (fun l => (⟨l⟩ : String)))
            (lsFold (replayHandle host) (splitLines (buf.drop pos ++ c.data)).1
              (log.core, st))
          = lsFold (replayHandle host)
            ((runs (buf.drop pos ++ (String.join (c :: c₂ :: rest₂)).data)).map
              (fun l => (⟨l⟩ : String)))
            (log.core, st) := by
        rw [join_cons_data c (c₂ :: rest₂)]
        rw [show buf.drop pos ++ (c.data ++ (String.join (c₂ :: rest₂)).data)
            = (buf.drop pos ++ c.data) ++ (String.join (c₂ :: rest₂)).data
          from (List.append_assoc _ _ _).symm]
        rw [hsplit, List.map_append, strs_roundtrip, lsFold_append]
      refine ⟨it_f, log_f, st_f, hrec, ?_, ?_⟩
      · rw [hcf, hpair, hargs]
      · rw [hsf, hpair, hargs]

theorem rFinishInit_partial_spec (host : JsHost) (buf : List Char) (pos : ℕ)
    (l : Option String) (log : GLog) :
    ∃ d' : DState,
      (rFinishInit host ((itNext ⟨buf, pos, l, true⟩).1) log true).1
        = ⟨some ⟨buf, pos + (splitLines (buf.drop pos)).2, none, true⟩,
           some d'.1, some d'.2⟩ ∧
      d'.1.core = (lsFold (replayHandle host) (splitLines (buf.drop pos)).1
          (log.core, rInitStorage log)).1 ∧
      d'.2 = (lsFold (replayHandle host) (splitLines (buf.drop pos)).1
          (log.core, rInitStorage log)).2 := by
  obtain ⟨d', hbd, hc, hst⟩ := bodyDrain_partial_spec (replayHandle host)
    (replayHandle_max host) buf pos l (log, rInitStorage log) (rInitStorage_pos log)
  refine ⟨d', ?_, hc, hst⟩
  rw [rFinishInit]
  dsimp only
  rw [show ({ mkStorage with
        maxStates := if log.core.simType = simTWOD then 300 else 50 } : LogParserStorage)
      = rInitStorage log from rfl]
  rw [hbd]
  dsimp only
  rw [show d' = (d'.1, d'.2) from rfl]
  dsimp only
  rw [if_neg (by simp)]

theorem rFinishInit_full_spec (host : JsHost) (buf : List Char) (pos : ℕ)
    (l : Option String) (log : GLog) :
    ∃ d' : DState,
      (rFinishInit host ((itNext ⟨buf, pos, l, false⟩).1) log false).1
        = ⟨some ⟨[], 0, none, false⟩, some d'.1, some d'.2⟩ ∧
      d'.1.core = (endCS (lsFold (replayHandle host)
          ((runs (buf.drop pos)).map (fun l => (⟨l⟩ : String)))
          (log.core, rInitStorage log))).1 ∧
      d'.2 = (endCS (lsFold (replayHandle host)
          ((runs (buf.drop pos)).map (fun l => (⟨l⟩ : String)))
          (log.core, rInitStorage log))).2 := by
  obtain ⟨d', hbd, hc, hst⟩ := bodyDrain_full_spec (replayHandle host)
    (replayHandle_max host) buf pos l (log, rInitStorage log) (rInitStorage_pos log)
  refine ⟨d', ?_, hc, hst⟩
  rw [rFinishInit]
  dsimp only
  rw [show ({ mkStorage with
        maxStates := if log.core.simType = simTWOD then 300 else 50 } : LogParserStorage)
      = rInitStorage log from rfl]
  rw [hbd]
  dsimp only
  rw [show d' = (d'.1, d'.2) from rfl]
  dsimp only
  split <;> rfl

/-- The post-header runs of both protocols agree: from the same header end
position and the same log, draining the first chunk's remainder and then
the later chunks equals draining the whole joined remainder at once. -/
theorem rFinish_chunks_eq (host : JsHost) (c₀ c₂ : String) (rest₂ : List String)
    (posH : ℕ) (log : GLog) (l l2 : Option String) (hpos : posH ≤ c₀.data.length) :
    statesOfR (rplParseChunksFrom host
        (rFinishInit host ((itNext ⟨c₀.data, posH, l, true⟩).1) log true).1
        (c₂ :: rest₂))
      = statesOfR ((rFinishInit host
          ((itNext ⟨(String.join (c₀ :: c₂ :: rest₂)).data, posH, l2, false⟩).1)
          log false).1) := by
  obtain ⟨d₁, hu1, hc1, hs1⟩ := rFinishInit_partial_spec host c₀.data posH l log
  rw [hu1]
  obtain ⟨it_f, log_f, st_f, hrec, hcf, hsf⟩ := rChunksFrom_spec host (c₂ :: rest₂)
    c₀.data (posH + (splitLines (c₀.data.drop posH)).2) d₁.1 d₁.2 (by simp)
    (by rw [hs1, lsFold_max _ (replayHandle_max host)]; exact rInitStorage_pos log)
  rw [hrec]
  have hTdata : (String.join (c₀ :: c₂ :: rest₂)).data
      = c₀.data ++ (String.join (c₂ :: rest₂)).data := join_cons_data _ _
  obtain ⟨d₂, hu2, hc2, hs2⟩ := rFinishInit_full_spec host
    (String.join (c₀ :: c₂ :: rest₂)).data posH l2 log
  rw [hu2]
  rw [statesOfR, statesOfR]
  dsimp only
  rw [hcf, hc2]
  have hpair : (d₁.1.core, d₁.2)
      = lsFold (replayHandle host) (splitLines (c₀.data.drop posH)).1
          (log.core, rInitStorage log) := Prod.ext hc1 hs1
  rw [hpair]
  rw [show (String.join (c₀ :: c₂ :: rest₂)).data.drop posH
      = c₀.data.drop posH ++ (String.join (c₂ :: rest₂)).data from by
    rw [hTdata, List.drop_append_of_le_length hpos]]
  have hsplit := (splitLinesF_spec ((c₀.data.drop posH).length + 1)
    (c₀.data.drop posH) (by omega)).2 (String.join (c₂ :: rest₂)).data
  rw [show splitLinesF ((c₀.data.drop posH).length + 1) (c₀.data.drop posH)
      = splitLines (c₀.data.drop posH) from rfl] at hsplit
  rw [hsplit, List.map_append, strs_roundtrip, lsFold_append]
  rw [show (c₀.data.drop posH).drop (splitLines (c₀.data.drop posH)).2
      = c₀.data.drop (posH + (splitLines (c₀.data.drop posH)).2) from by
    rw [List.drop_drop]
    try rw [Nat.add_comm]]

theorem rparse_init_RPL (host : JsHost) (c : String) (pd inc : Bool) {i j : ℕ}
    (hspan : runSpan c.data = some (i, j)) (hjlt : j < c.data.length)
    (hR : jsCharAt (⟨(c.data.take j).drop i⟩ : String) 0 = some 'R' ∧
          jsCharAt (⟨(c.data.take j).drop i⟩ : String) 1 = some 'P' ∧
          jsCharAt (⟨(c.data.take j).drop i⟩ : String) 2 = some 'L')
    (htk : ¬ (jsSplitSpace (⟨(c.data.take j).drop i⟩ : String)).length < 3) :
    rparse host emptyRParser c pd inc
      = rFinishInit host
          ((itNext ⟨c.data, j, some ⟨(c.data.take j).drop i⟩, pd⟩).1)
          (mkGLog
            (if (jsSplitSpace (⟨(c.data.take j).drop i⟩ : String)).getD 1 "" = "2D"
              then simTWOD else simTHREED)
            (jsParseIntDec
              ((jsSplitSpace (⟨(c.data.take j).drop i⟩ : String)).getD 2 "")))
          pd := by
  have hnx : itNext (mkIter c pd)
      = (⟨c.data, j, some ⟨(c.data.take j).drop i⟩, pd⟩,
         some ⟨(c.data.take j).drop i⟩) := by
    rw [mkIter, itNext]
    dsimp only
    rw [List.drop_zero, hspan]
    dsimp only
    rw [if_neg (fun hcon => absurd hcon.2 (by omega))]
    rw [Nat.zero_add]
  rw [rparse]
  dsimp only [emptyRParser]
  rw [hnx]
  dsimp only
  rw [if_pos hR, if_neg htk]

theorem rparse_init_T (host : JsHost) (c : String) (pd inc : Bool) {i j : ℕ}
    (hspan : runSpan c.data = some (i, j)) (hjlt : j < c.data.length)
    (hnR : ¬ (jsCharAt (⟨(c.data.take j).drop i⟩ : String) 0 = some 'R' ∧
          jsCharAt (⟨(c.data.take j).drop i⟩ : String) 1 = some 'P' ∧
          jsCharAt (⟨(c.data.take j).drop i⟩ : String) 2 = some 'L'))
    (hT : jsCharAt (⟨(c.data.take j).drop i⟩ : String) 0 = some 'T')
    (htk : ¬ (jsSplitSpace (⟨(c.data.take j).drop i⟩ : String)).length < 3) :
    rparse host emptyRParser c pd inc
      = rFinishInit host
          ((itNext ⟨c.data, j, some ⟨(c.data.take j).drop i⟩, pd⟩).1)
          (tLegacyLog ⟨(c.data.take j).drop i⟩) pd := by
  have hnx : itNext (mkIter c pd)
      = (⟨c.data, j, some ⟨(c.data.take j).drop i⟩, pd⟩,
         some ⟨(c.data.take j).drop i⟩) := by
    rw [mkIter, itNext]
    dsimp only
    rw [List.drop_zero, hspan]
    dsimp only
    rw [if_neg (fun hcon => absurd hcon.2 (by omega))]
    rw [Nat.zero_add]
  rw [rparse]
  dsimp only [emptyRParser]
  rw [hnx]
  dsimp only
  rw [if_neg hnR, if_pos hT, if_neg htk]
  rfl

theorem rparse_init_V (host : JsHost) (c : String) (pd inc : Bool)
    {i₁ j₁ i₂ j₂ i₃ j₃ : ℕ}
    (hspan1 : runSpan c.data = some (i₁, j₁)) (hjlt1 : j₁ < c.data.length)
    (hspan2 : runSpan (c.data.drop j₁) = some (i₂, j₂))
    (hjlt2 : j₁ + j₂ < c.data.length)
    (hspan3 : runSpan (c.data.drop (j₁ + j₂)) = some (i₃, j₃))
    (hjlt3 : j₁ + j₂ + j₃ < c.data.length)
    (hnR : ¬ (jsCharAt (⟨(c.data.take j₁).drop i₁⟩ : String) 0 = some 'R' ∧
          jsCharAt (⟨(c.data.take j₁).drop i₁⟩ : String) 1 = some 'P' ∧
          jsCharAt (⟨(c.data.take j₁).drop i₁⟩ : String) 2 = some 'L'))
    (hnT : ¬ jsCharAt (⟨(c.data.take j₁).drop i₁⟩ : String) 0 = some 'T')
    (hV : jsCharAt (⟨(c.data.take j₁).drop i₁⟩ : String) 0 = some 'V')
    (htk : ¬ (jsSplitSpace (⟨(c.data.take j₁).drop i₁⟩ : String)).length < 4)
    (hl2 : ¬ ((jsSplitSpace (⟨((c.data.drop j₁).take j₂).drop i₂⟩ : String)).length < 5 ∨
          (jsSplitSpace (⟨((c.data.drop j₁).take j₂).drop i₂⟩ : String)).getD 0 "" ≠ "T"))
    (hl3 : ¬ ((jsSplitSpace
            (⟨((c.data.drop (j₁ + j₂)).take j₃).drop i₃⟩ : String)).length < 2 ∨
          (jsSplitSpace
            (⟨((c.data.drop (j₁ + j₂)).take j₃).drop i₃⟩ : String)).getD 0 "" ≠ "F")) :
    rparse host emptyRParser c pd inc
      = rFinishInit host
          ((itNext ⟨c.data, j₁ + j₂ + j₃,
            some ⟨((c.data.drop (j₁ + j₂)).take j₃).drop i₃⟩, pd⟩).1)
          (vLegacyLog ⟨(c.data.take j₁).drop i₁⟩
            ⟨((c.data.drop j₁).take j₂).drop i₂⟩
            ⟨((c.data.drop (j₁ + j₂)).take j₃).drop i₃⟩) pd := by
  have hnx1 : itNext (mkIter c pd)
      = (⟨c.data, j₁, some ⟨(c.data.take j₁).drop i₁⟩, pd⟩,
         some ⟨(c.data.take j₁).drop i₁⟩) := by
    rw [mkIter, itNext]
    dsimp only
    rw [List.drop_zero, hspan1]
    dsimp only
    rw [if_neg (fun hcon => absurd hcon.2 (by omega))]
    rw [Nat.zero_add]
  have hj2le : j₂ ≤ c.data.length - j₁ := by
    have := runSpan_le_len hspan2
    rwa [List.length_drop] at this
  have hj3le : j₃ ≤ c.data.length - (j₁ + j₂) := by
    have := runSpan_le_len hspan3
    rwa [List.length_drop] at this
  have hnx2 : itNext (⟨c.data, j₁, some ⟨(c.data.take j₁).drop i₁⟩, pd⟩ : Iter)
      = (⟨c.data, j₁ + j₂, some ⟨((c.data.drop j₁).take j₂).drop i₂⟩, pd⟩,
         some ⟨((c.data.drop j₁).take j₂).drop i₂⟩) := by
    rw [itNext]
    dsimp only
    rw [hspan2]
    dsimp only
    rw [if_neg (fun hcon => absurd hcon.2 (by omega))]
  have hnx3 : itNext
        (⟨c.data, j₁ + j₂, some ⟨((c.data.drop j₁).take j₂).drop i₂⟩, pd⟩ : Iter)
      = (⟨c.data, j₁ + j₂ + j₃,
          some ⟨((c.data.drop (j₁ + j₂)).take j₃).drop i₃⟩, pd⟩,
         some ⟨((c.data.drop (j₁ + j₂)).take j₃).drop i₃⟩) := by
    rw [itNext]
    dsimp only
    rw [hspan3]
    dsimp only
    rw [if_neg (fun hcon => absurd hcon.2 (by omega))]
  rw [rparse]
  dsimp only [emptyRParser]
  rw [hnx1]
  dsimp only
  rw [if_neg hnR, if_neg hnT, if_pos hV, if_neg htk]
  rw [hnx2]
  dsimp only
  rw [if_neg hl2]
  rw [hnx3]
  dsimp only
  rw [if_neg hl3]
  rfl

theorem rplChunkInvariance_RPL (host : JsHost) (c₀ : String) (rest : List String)
    (i j : ℕ) (hspan : runSpan c₀.data = some (i, j)) (hjlt : j < c₀.data.length)
    (hR : jsCharAt (⟨(c₀.data.take j).drop i⟩ : String) 0 = some 'R' ∧
          jsCharAt (⟨(c₀.data.take j).drop i⟩ : String) 1 = some 'P' ∧
          jsCharAt (⟨(c₀.data.take j).drop i⟩ : String) 2 = some 'L')
    (htk : ¬ (jsSplitSpace (⟨(c₀.data.take j).drop i⟩ : String)).length < 3) :
    statesOfR (rplParseChunks host (c₀ :: rest))
      = statesOfR (rplParseFull host (String.join (c₀ :: rest))).1 := by
  cases rest with
  | nil =>
    rw [show rplParseChunks host [c₀]
        = (rparse host emptyRParser c₀ false true).1 from rfl]
    rw [rplParseFull, show String.join [c₀] = c₀ from rfl]
    rw [show rparse host emptyRParser c₀ false true
        = rparse host emptyRParser c₀ false false from rfl]
  | cons c₂ rest₂ =>
    rw [show rplParseChunks host (c₀ :: c₂ :: rest₂)
        = rplParseChunksFrom host
            (rparse host emptyRParser c₀ true true).1 (c₂ :: rest₂) from rfl]
    rw [rparse_init_RPL host c₀ true true hspan hjlt hR htk]
    have hTdata : (String.join (c₀ :: c₂ :: rest₂)).data
        = c₀.data ++ (String.join (c₂ :: rest₂)).data := join_cons_data _ _
    have hspanT : runSpan (String.join (c₀ :: c₂ :: rest₂)).data = some (i, j) := by
      rw [hTdata]
      exact runSpan_append hspan hjlt _
    have hjltT : j < (String.join (c₀ :: c₂ :: rest₂)).data.length := by
      rw [hTdata, List.length_append]
      omega
    have hsegT : (⟨((String.join (c₀ :: c₂ :: rest₂)).data.take j).drop i⟩ : String)
        = (⟨(c₀.data.take j).drop i⟩ : String) := by
      rw [hTdata, List.take_append_of_le_length (le_of_lt hjlt)]
    rw [rplParseFull]
    rw [rparse_init_RPL host (String.join (c₀ :: c₂ :: rest₂)) false false hspanT hjltT
      (by rw [hsegT]; exact hR) (by rw [hsegT]; exact htk)]
    rw [hsegT]
    exact rFinish_chunks_eq host c₀ c₂ rest₂ j _ _ _ (le_of_lt hjlt)

theorem rplChunkInvariance_T (host : JsHost) (c₀ : String) (rest : List String)
    (i j : ℕ) (hspan : runSpan c₀.data = some (i, j)) (hjlt : j < c₀.data.length)
    (hnR : ¬ (jsCharAt (⟨(c₀.data.take j).drop i⟩ : String) 0 = some 'R' ∧
          jsCharAt (⟨(c₀.data.take j).drop i⟩ : String) 1 = some 'P' ∧
          jsCharAt (⟨(c₀.data.take j).drop i⟩ : String) 2 = some 'L'))
    (hT : jsCharAt (⟨(c₀.data.take j).drop i⟩ : String) 0 = some 'T')
    (htk : ¬ (jsSplitSpace (⟨(c₀.data.take j).drop i⟩ : String)).length < 3) :
    statesOfR (rplParseChunks host (c₀ :: rest))
      = statesOfR (rplParseFull host (String.join (c₀ :: rest))).1 := by
  cases rest with
  | nil =>
    rw [show rplParseChunks host [c₀]
        = (rparse host emptyRParser c₀ false true).1 from rfl]
    rw [rplParseFull, show String.join [c₀] = c₀ from rfl]
    rw [show rparse host emptyRParser c₀ false true
        = rparse host emptyRParser c₀ false false from rfl]
  | cons c₂ rest₂ =>
    rw [show rplParseChunks host (c₀ :: c₂ :: rest₂)
        = rplParseChunksFrom host
            (rparse host emptyRParser c₀ true true).1 (c₂ :: rest₂) from rfl]
    rw [rparse_init_T host c₀ true true hspan hjlt hnR hT htk]
    have hTdata : (String.join (c₀ :: c₂ :: rest₂)).data
        = c₀.data ++ (String.join (c₂ :: rest₂)).data := join_cons_data _ _
    have hspanT : runSpan (String.join (c₀ :: c₂ :: rest₂)).data = some (i, j) := by
      rw [hTdata]
      exact runSpan_append hspan hjlt _
    have hjltT : j < (String.join (c₀ :: c₂ :: rest₂)).data.length := by
      rw [hTdata, List.length_append]
      omega
    have hsegT : (⟨((String.join (c₀ :: c₂ :: rest₂)).data.take j).drop i⟩ : String)
        = (⟨(c₀.data.take j).drop i⟩ : String) := by
      rw [hTdata, List.take_append_of_le_length (le_of_lt hjlt)]
    rw [rplParseFull]
    rw [rparse_init_T host (String.join (c₀ :: c₂ :: rest₂)) false false hspanT hjltT
      (by rw [hsegT]; exact hnR) (by rw [hsegT]; exact hT) (by rw [hsegT]; exact htk)]
    rw [hsegT]
    exact rFinish_chunks_eq host c₀ c₂ rest₂ j _ _ _ (le_of_lt hjlt)

theorem rplChunkInvariance_V (host : JsHost) (c₀ : String) (rest : List String)
    (i₁ j₁ i₂ j₂ i₃ j₃ : ℕ)
    (hspan1 : runSpan c₀.data = some (i₁, j₁)) (hjlt1 : j₁ < c₀.data.length)
    (hspan2 : runSpan (c₀.data.drop j₁) = some (i₂, j₂))
    (hjlt2 : j₁ + j₂ < c₀.data.length)
    (hspan3 : runSpan (c₀.data.drop (j₁ + j₂)) = some (i₃, j₃))
    (hjlt3 : j₁ + j₂ + j₃ < c₀.data.length)
    (hnR : ¬ (jsCharAt (⟨(c₀.data.take j₁).drop i₁⟩ : String) 0 = some 'R' ∧
          jsCharAt (⟨(c₀.data.take j₁).drop i₁⟩ : String) 1 = some 'P' ∧
          jsCharAt (⟨(c₀.data.take j₁).drop i₁⟩ : String) 2 = some 'L'))
    (hnT : ¬ jsCharAt (⟨(c₀.data.take j₁).drop i₁⟩ : String) 0 = some 'T')
    (hV : jsCharAt (⟨(c₀.data.take j₁).drop i₁⟩ : String) 0 = some 'V')
    (htk : ¬ (jsSplitSpace (⟨(c₀.data.take j₁).drop i₁⟩ : String)).length < 4)
    (hl2 : ¬ ((jsSplitSpace
            (⟨((c₀.data.drop j₁).take j₂).drop i₂⟩ : String)).length < 5 ∨
          (jsSplitSpace
            (⟨((c₀.data.drop j₁).take j₂).drop i₂⟩ : String)).getD 0 "" ≠ "T"))
    (hl3 : ¬ ((jsSplitSpace
            (⟨((c₀.data.drop (j₁ + j₂)).take j₃).drop i₃⟩ : String)).length < 2 ∨
          (jsSplitSpace
            (⟨((c₀.data.drop (j₁ + j₂)).take j₃).drop i₃⟩ : String)).getD 0 "" ≠ "F")) :
    statesOfR (rplParseChunks host (c₀ :: rest))
      = statesOfR (rplParseFull host (String.join (c₀ :: rest))).1 := by
  cases rest with
  | nil =>
    rw [show rplParseChunks host [c₀]
        = (rparse host emptyRParser c₀ false true).1 from rfl]
    rw [rplParseFull, show String.join [c₀] = c₀ from rfl]
    rw [show rparse host emptyRParser c₀ false true
        = rparse host emptyRParser c₀ false false from rfl]
  | cons c₂ rest₂ =>
    rw [show rplParseChunks host (c₀ :: c₂ :: rest₂)
        = rplParseChunksFrom host
            (rparse host emptyRParser c₀ true true).1 (c₂ :: rest₂) from rfl]
    rw [rparse_init_V host c₀ true true hspan1 hjlt1 hspan2 hjlt2 hspan3 hjlt3
      hnR hnT hV htk hl2 hl3]
    have hTdata : (String.join (c₀ :: c₂ :: rest₂)).data
        = c₀.data ++ (String.join (c₂ :: rest₂)).data := join_cons_data _ _
    have hd1 : (String.join (c₀ :: c₂ :: rest₂)).data.drop j₁
        = c₀.data.drop j₁ ++ (String.join (c₂ :: rest₂)).data := by
      rw [hTdata, List.drop_append_of_le_length (le_of_lt hjlt1)]
    have hd2 : (String.join (c₀ :: c₂ :: rest₂)).data.drop (j₁ + j₂)
        = c₀.data.drop (j₁ + j₂) ++ (String.join (c₂ :: rest₂)).data := by
      rw [hTdata, List.drop_append_of_le_length (by omega)]
    have hspan1T : runSpan (String.join (c₀ :: c₂ :: rest₂)).data = some (i₁, j₁) := by
      rw [hTdata]
      exact runSpan_append hspan1 hjlt1 _
    have hspan2T : runSpan ((String.join (c₀ :: c₂ :: rest₂)).data.drop j₁)
        = some (i₂, j₂) := by
      rw [hd1]
      exact runSpan_append hspan2 (by rw [List.length_drop]; omega) _
    have hspan3T : runSpan ((String.join (c₀ :: c₂ :: rest₂)).data.drop (j₁ + j₂))
        = some (i₃, j₃) := by
      rw [hd2]
      exact runSpan_append hspan3 (by rw [List.length_drop]; omega) _
    have hjlt1T : j₁ < (String.join (c₀ :: c₂ :: rest₂)).data.length := by
      rw [hTdata, List.length_append]
      omega
    have hjlt2T : j₁ + j₂ < (String.join (c₀ :: c₂ :: rest₂)).data.length := by
      rw [hTdata, List.length_append]
      omega
    have hjlt3T : j₁ + j₂ + j₃ < (String.join (c₀ :: c₂ :: rest₂)).data.length := by
      rw [hTdata, List.length_append]
      omega
    have hseg1 : (⟨((String.join (c₀ :: c₂ :: rest₂)).data.take j₁).drop i₁⟩ : String)
        = (⟨(c₀.data.take j₁).drop i₁⟩ : String) := by
      rw [hTdata, List.take_append_of_le_length (le_of_lt hjlt1)]
    have hseg2 : (⟨(((String.join (c₀ :: c₂ :: rest₂)).data.drop j₁).take j₂).drop i₂⟩
          : String)
        = (⟨((c₀.data.drop j₁).take j₂).drop i₂⟩ : String) := by
      rw [hd1, List.take_append_of_le_length (by rw [List.length_drop]; omega)]
    have hseg3 : (⟨(((String.join (c₀ :: c₂ :: rest₂)).data.drop (j₁ + j₂)).take
            j₃).drop i₃⟩ : String)
        = (⟨((c₀.data.drop (j₁ + j₂)).take j₃).drop i₃⟩ : String) := by
      rw [hd2, List.take_append_of_le_length (by rw [List.length_drop]; omega)]
    rw [rplParseFull]
    rw [rparse_init_V host (String.join (c₀ :: c₂ :: rest₂)) false false
      hspan1T hjlt1T hspan2T hjlt2T hspan3T hjlt3T
      (by rw [hseg1]; exact hnR) (by rw [hseg1]; exact hnT) (by rw [hseg1]; exact hV)
      (by rw [hseg1]; exact htk) (by rw [hseg2]; exact hl2) (by rw [hseg3]; exact hl3)]
    rw [hseg1, hseg2, hseg3]
    exact rFinish_chunks_eq host c₀ c₂ rest₂ (j₁ + j₂ + j₃) _ _ _ (le_of_lt hjlt3)

/-- Claim C2, amended: chunking invariance holds for both decoders whenever
the first chunk completely contains every header line the decoder consumes
before the body — one line for ULG, for the `RPL` header and for the
2D `T`-legacy format, three lines for the 3D `V`-legacy format — each
line's match ending strictly before the chunk end, and those lines satisfy
the decoder's header checks: then one `parse` call over the whole text and
the incremental-partial protocol over the chunks yield identical final
WorldState sequences.  The counterexample shows the invariance fails when
a header line is split across chunks. -/
theorem claim_C2_chunkInvariance :
    (∀ (host : JsHost) (c₀ : String) (rest : List String) (i j : ℕ),
        runSpan c₀.data = some (i, j) → j < c₀.data.length →
        ulgHeaderBad ⟨(c₀.data.take j).drop i⟩ = false →
        statesOfU (ulgParseChunks host (c₀ :: rest))
          = statesOfU (ulgParseFull host (String.join (c₀ :: rest))).1) ∧
    (∀ (host : JsHost) (c₀ : String) (rest : List String) (i j : ℕ),
        runSpan c₀.data = some (i, j) → j < c₀.data.length →
        (jsCharAt (⟨(c₀.data.take j).drop i⟩ : String) 0 = some 'R' ∧
         jsCharAt (⟨(c₀.data.take j).drop i⟩ : String) 1 = some 'P' ∧
         jsCharAt (⟨(c₀.data.take j).drop i⟩ : String) 2 = some 'L') →
        ¬ (jsSplitSpace (⟨(c₀.data.take j).drop i⟩ : String)).length < 3 →
        statesOfR (rplParseChunks host (c₀ :: rest))
          = statesOfR (rplParseFull host (String.join (c₀ :: rest))).1) ∧
    (∀ (host : JsHost) (c₀ : String) (rest : List String) (i j : ℕ),
        runSpan c₀.data = some (i, j) → j < c₀.data.length →
        ¬ (jsCharAt (⟨(c₀.data.take j).drop i⟩ : String) 0 = some 'R' ∧
           jsCharAt (⟨(c₀.data.take j).drop i⟩ : String) 1 = some 'P' ∧
           jsCharAt (⟨(c₀.data.take j).drop i⟩ : String) 2 = some 'L') →
        jsCharAt (⟨(c₀.data.take j).drop i⟩ : String) 0 = some 'T' →
        ¬ (jsSplitSpace (⟨(c₀.data.take j).drop i⟩ : String)).length < 3 →
        statesOfR (rplParseChunks host (c₀ :: rest))
          = statesOfR (rplParseFull host (String.join (c₀ :: rest))).1) ∧
    (∀ (host : JsHost) (c₀ : String) (rest : List String) (i₁ j₁ i₂ j₂ i₃ j₃ : ℕ),
        runSpan c₀.data = some (i₁, j₁) → j₁ < c₀.data.length →
        runSpan (c₀.data.drop j₁) = some (i₂, j₂) → j₁ + j₂ < c₀.data.length →
        runSpan (c₀.data.drop (j₁ + j₂)) = some (i₃, j₃) →
        j₁ + j₂ + j₃ < c₀.data.length →
        ¬ (jsCharAt (⟨(c₀.data.take j₁).drop i₁⟩ : String) 0 = some 'R' ∧
           jsCharAt (⟨(c₀.data.take j₁).drop i₁⟩ : String) 1 = some 'P' ∧
           jsCharAt (⟨(c₀.data.take j₁).drop i₁⟩ : String) 2 = some 'L') →
        ¬ jsCharAt (⟨(c₀.data.take j₁).drop i₁⟩ : String) 0 = some 'T' →
        jsCharAt (⟨(c₀.data.take j₁).drop i₁⟩ : String) 0 = some 'V' →
        ¬ (jsSplitSpace (⟨(c₀.data.take j₁).drop i₁⟩ : String)).length < 4 →
        ¬ ((jsSplitSpace
              (⟨((c₀.data.drop j₁).take j₂).drop i₂⟩ : String)).length < 5 ∨
           (jsSplitSpace
              (⟨((c₀.data.drop j₁).take j₂).drop i₂⟩ : String)).getD 0 "" ≠ "T") →
        ¬ ((jsSplitSpace
              (⟨((c₀.data.drop (j₁ + j₂)).take j₃).drop i₃⟩ : String)).length < 2 ∨
           (jsSplitSpace
              (⟨((c₀.data.drop (j₁ + j₂)).take j₃).drop i₃⟩ : String)).getD 0 ""
             ≠ "F") →
        statesOfR (rplParseChunks host (c₀ :: rest))
          = statesOfR (rplParseFull host (String.join (c₀ :: rest))).1) :=
  ⟨fun host c₀ rest _ _ h1 h2 h3 => ulgChunkInvariance host c₀ rest h1 h2 h3,
   rplChunkInvariance_RPL, rplChunkInvariance_T, rplChunkInvariance_V⟩

/-- Claim C2, witness: the amended theorem at a header-boundary split of a
one-show-line ULG log and of `RPL`, `T`-legacy and `V`-legacy replay logs
(the `V` first chunk holding all three header lines). -/
theorem claim_C2_witness :
    (statesOfU (ulgParseChunks refHost
        ["ULG5\n", "(show 1 ((b) 0 0) ((l 1) 0 0 0 0 0 0 0))\n"])
      = statesOfU (ulgParseFull refHost (String.join
          ["ULG5\n", "(show 1 ((b) 0 0) ((l 1) 0 0 0 0 0 0 0))\n"])).1) ∧
    (statesOfR (rplParseChunks refHost ["RPL 2D 2\n", "T a b\n"])
      = statesOfR (rplParseFull refHost (String.join ["RPL 2D 2\n", "T a b\n"])).1) ∧
    (statesOfR (rplParseChunks refHost ["T ab cd\n", "S 1 p 0 0\n"])
      = statesOfR (rplParseFull refHost
          (String.join ["T ab cd\n", "S 1 p 0 0\n"])).1) ∧
    (statesOfR (rplParseChunks refHost
        ["V 3D x 20\nT x aa bb cc dd\nF 62\n", "S 1 p 0 0\n"])
      = statesOfR (rplParseFull refHost (String.join
          ["V 3D x 20\nT x aa bb cc dd\nF 62\n", "S 1 p 0 0\n"])).1) := by
  have h := claim_C2_chunkInvariance
  exact ⟨h.1 refHost "ULG5\n" ["(show 1 ((b) 0 0) ((l 1) 0 0 0 0 0 0 0))\n"] 0 4
      (by decide) (by decide) (by decide),
    h.2.1 refHost "RPL 2D 2\n" ["T a b\n"] 0 8
      (by decide) (by decide) (by decide) (by decide),
    h.2.2.1 refHost "T ab cd\n" ["S 1 p 0 0\n"] 0 7
      (by decide) (by decide) (by decide) (by decide) (by decide),
    h.2.2.2 refHost "V 3D x 20\nT x aa bb cc dd\nF 62\n" ["S 1 p 0 0\n"]
      0 9 1 16 1 5 (by decide) (by decide) (by decide) (by decide) (by decide)
      (by decide) (by decide) (by decide) (by decide) (by decide) (by decide)
      (by decide)⟩

/-- Claim C3, counterexample: `gameStateList` is compressed by *instance*
identity, not by play-mode value.  In `cexPlaymodeFlipText` the play mode
changes away and back (`A`, `B`, `A`) between two commits, so all four
committed ticks carry play-mode value `A` (one maximal run of equal
values), yet `gameStateList` has two entries. -/
theorem claim_C3_counterexample :
    ((ulgParseFull refHost cexPlaymodeFlipText).1.sserverLog.map
      (fun l => (l.derived.gameStateList.length,
        runCount (l.core.states.map (fun w => w.gameState.playMode))))) =
    some (2, 1) := by
  decide

/-- Claim C3, amended: `gameStateList`/`gameScoreList` contain exactly one
entry per maximal run of identical consecutive *instances* (not values) in
the per-tick sequence: `changeTimeline` compresses by the allocation
identity that models the source's `!==`, `onStatesUpdated` applies it to
the full per-tick game-state/score sequences, and `setPlaymode`/`setScore`
do keep the same instance when the value is unchanged (a fresh instance —
breaking value-run compression — appears only when the value changed at
some point between two ticks; see the counterexample). -/
theorem claim_C3_runLength :
    (∀ (a : GameState) (l : List GameState),
        (changeTimeline a l).length = runCount (a :: l)) ∧
    (∀ log : GLog, log.core.states ≠ [] →
        (onStatesUpdated log).derived.gameStateList.length
            = runCount (log.core.states.map WorldState.gameState) ∧
        (onStatesUpdated log).derived.gameScoreList.length
            = runCount (log.core.states.map WorldState.score)) ∧
    (∀ (p : PartialWorldState) (pm : String),
        p.gameState.playMode = pm → p.setPlaymode pm = p) ∧
    (∀ (p : PartialWorldState) (a b c d e f : ℚ),
        p.score.goalsLeft = a → p.score.goalsRight = b →
        p.score.penaltyScoreLeft = c → p.score.penaltyMissLeft = d →
        p.score.penaltyScoreRight = e → p.score.penaltyMissRight = f →
        p.setScore a b c d e f = p) := by
  refine ⟨fun a l => changeTimeline_length a l, ?_, ?_, ?_⟩
  · intro log hne
    cases hst : log.core.states with
    | nil => exact absurd hst hne
    | cons s₀ rest =>
      simp only [onStatesUpdated, hst, List.map_cons]
      exact ⟨changeTimeline_length _ _, changeTimeline_length _ _⟩
  · intro p pm h
    simp [PartialWorldState.setPlaymode, h]
  · intro p a b c d e f h1 h2 h3 h4 h5 h6
    simp [PartialWorldState.setScore, h1, h2, h3, h4, h5, h6]

/-- Claim C3, witness: the amended theorem at a two-instance timeline, the
two-state log, and the fresh accumulator's current play mode and score. -/
theorem claim_C3_witness :
    (changeTimeline (⟨0, 0, "A"⟩ : GameState) [⟨0, 0, "A"⟩, ⟨1, 1, "B"⟩]).length
      = runCount [(⟨0, 0, "A"⟩ : GameState), ⟨0, 0, "A"⟩, ⟨1, 1, "B"⟩] ∧
    (onStatesUpdated cexC3Log).derived.gameStateList.length
      = runCount (cexC3Log.core.states.map WorldState.gameState) ∧
    (onStatesUpdated cexC3Log).derived.gameScoreList.length
      = runCount (cexC3Log.core.states.map WorldState.score) ∧
    (mkPartialWorldState 0 (1/10) 0).setPlaymode "unknown"
      = mkPartialWorldState 0 (1/10) 0 ∧
    (mkPartialWorldState 0 (1/10) 0).setScore 0 0 0 0 0 0
      = mkPartialWorldState 0 (1/10) 0 := by
  have h := claim_C3_runLength
  have h2 := h.2.1 cexC3Log (by decide)
  exact ⟨h.1 _ _, h2.1, h2.2, h.2.2.1 _ _ rfl,
    h.2.2.2 _ 0 0 0 0 0 0 rfl rfl rfl rfl rfl rfl⟩

/-- Claim C4, counterexample: the per-pass bound counts state-bearing lines
only, not lines.  A single invocation of the 3D replay body pass (bound
`maxStates = 50`) decodes fifty-one team-info lines without scheduling any
continuation. -/
theorem claim_C4_counterexample :
    (bodyPass (replayHandle refHost) (mkIter cexManyTeamLines false)
      (mkGLog simTHREED 1, { mkStorage with maxStates := 50 })).2.2.2.2 = 51 ∧
    (bodyPass (replayHandle refHost) (mkIter cexManyTeamLines false)
      (mkGLog simTHREED 1, { mkStorage with maxStates := 50 })).2.2.1 = false := by
  refine ⟨by decide, by decide⟩

/-- Claim C4, amended: a single body pass decodes at most `maxStates`
*state-committing* lines (the counter the loop bounds counts lines that
commit a new world state, not processed lines — see the counterexample);
when the pass does not schedule a continuation, the cursor is exhausted
(no complete line remains); every per-line handler of both decoders keeps
the batch bound unchanged; and the bounds installed by the entry points
are 100 for ULG and 300/50 for the 2D/3D Replay families. -/
theorem claim_C4_batchBound :
    (∀ (h : String → LState → LState × Bool),
        (∀ l s, ((h l s).1).2.maxStates = s.2.maxStates) →
        ∀ (it : Iter) (d : DState),
          (bodyPass h it d).2.2.2.1 ≤ d.2.maxStates ∧
          ((bodyPass h it d).2.2.1 = false → ((bodyPass h it d).1).line = none)) ∧
    (∀ (host : JsHost) (l : String) (s : LState),
        ((ulgHandle host l s).1).2.maxStates = s.2.maxStates) ∧
    (∀ (host : JsHost) (l : String) (s : LState),
        ((replayHandle host l s).1).2.maxStates = s.2.maxStates) ∧
    (∀ (host : JsHost) (it : Iter) (log : GLog) (pd : Bool) (st' : LogParserStorage),
        (rFinishInit host it log pd).1.storage = some st' →
        st'.maxStates = if log.core.simType = simTWOD then 300 else 50) ∧
    (∀ (host : JsHost) (data : String) (pd inc : Bool) (st' : LogParserStorage),
        (uparse host emptyUParser data pd inc).1.storage = some st' →
        st'.maxStates = 100) := by
  refine ⟨?_, ulgHandle_max, replayHandle_max, ?_, ?_⟩
  · intro h hpres it d
    simp only [bodyPass]
    rcases hL : bodyPassLoop h
        (2 * (if it.line.isNone then (itNext it).1 else it).data.length + 2)
        (if it.line.isNone then (itNext it).1 else it) d 0 0 with ⟨it₂, d₂, cnt, ln⟩
    have hB := bodyPassLoop_inv h hpres
        (2 * (if it.line.isNone then (itNext it).1 else it).data.length + 2)
        (if it.line.isNone then (itNext it).1 else it) d 0 0 (Nat.zero_le _)
    rw [hL] at hB
    dsimp only
    by_cases hs : it₂.line.isSome
    · rw [if_pos hs]
      exact ⟨hB.2, by intro hfalse; cases hfalse⟩
    · rw [if_neg hs]
      by_cases hp : ¬ it₂.partialData
      · rw [if_pos hp]
        exact ⟨hB.2, fun _ => rfl⟩
      · rw [if_neg hp]
        exact ⟨hB.2, fun _ => Option.not_isSome_iff_eq_none.mp hs⟩
  · intro host it log pd st' hst
    simp only [rFinishInit] at hst
    rcases hD : bodyDrain (replayHandle host) it
        (log, { mkStorage with maxStates := if log.core.simType = simTWOD then 300 else 50 })
      with ⟨it₂, d₂⟩
    have hM := bodyDrain_max (replayHandle host) (replayHandle_max host) it
        (log, { mkStorage with maxStates := if log.core.simType = simTWOD then 300 else 50 })
    rw [hD] at hst hM
    dsimp only at hst hM
    split at hst <;>
      (simp only [UParserObj.storage, Option.some.injEq] at hst ⊢
       cases hst
       exact hM)
  · intro host data pd inc st' hst
    simp only [uparse, emptyUParser] at hst
    rcases hN : itNext (mkIter data pd) with ⟨it₁, lineQ⟩
    rw [hN] at hst
    cases lineQ with
    | none => exact absurd hst (by simp)
    | some line =>
      dsimp only at hst
      by_cases hbad : ulgHeaderBad line
      · rw [if_pos hbad] at hst
        exact absurd hst (by simp)
      · rw [if_neg hbad] at hst
        rcases hN2 : itNext it₁ with ⟨it₃, q⟩
        rw [hN2] at hst
        dsimp only at hst
        rcases hD : bodyDrain (ulgHandle host) it₃
            (mkGLog simTWOD (jsParseIntDec (jsDrop line 3)),
             { mkStorage with partialState := some (mkPartialWorldState 0 (1/10) 0),
                              maxStates := 100 })
          with ⟨it₄, d₄⟩
        have hM := bodyDrain_max (ulgHandle host) (ulgHandle_max host) it₃
            (mkGLog simTWOD (jsParseIntDec (jsDrop line 3)),
             { mkStorage with partialState := some (mkPartialWorldState 0 (1/10) 0),
                              maxStates := 100 })
        rw [hD] at hst hM
        dsimp only at hst hM
        split at hst <;>
          (simp only [Option.some.injEq] at hst
           cases hst
           exact hM)

/-- Claim C4, witness: the amended theorem at a one-line buffer with the
default bound, both dispatchers on sample lines, and the two entry-point
initialisations on minimal inputs. -/
theorem claim_C4_witness :
    (bodyPass (ulgHandle refHost) (mkIter "x" false) (mkGLog simTWOD 5, mkStorage)).2.2.2.1
        ≤ ((mkGLog simTWOD 5, mkStorage) : DState).2.maxStates ∧
    ((bodyPass (ulgHandle refHost) (mkIter "x" false)
        (mkGLog simTWOD 5, mkStorage)).2.2.1 = false →
      ((bodyPass (ulgHandle refHost) (mkIter "x" false)
        (mkGLog simTWOD 5, mkStorage)).1).line = none) ∧
    ((ulgHandle refHost "(msg hi)" sample2DState).1).2.maxStates
        = sample2DState.2.maxStates ∧
    ((replayHandle refHost "T a b" sample3DState).1).2.maxStates
        = sample3DState.2.maxStates ∧
    ({ mkStorage with maxStates := 300 } : LogParserStorage).maxStates
        = (if (mkGLog simTWOD 5).core.simType = simTWOD then 300 else 50) ∧
    ({ mkStorage with
        partialState := some (mkPartialWorldState 0 (1/10) 0),
        maxStates := 100 } : LogParserStorage).maxStates = 100 := by
  have h := claim_C4_batchBound
  have h1 := h.1 (ulgHandle refHost) (h.2.1 refHost) (mkIter "x" false)
    (mkGLog simTWOD 5, mkStorage)
  exact ⟨h1.1, h1.2, h.2.1 refHost "(msg hi)" sample2DState,
    h.2.2.1 refHost "T a b" sample3DState,
    h.2.2.2.1 refHost (mkIter "" false) (mkGLog simTWOD 5) false _ (by decide),
    h.2.2.2.2 refHost "ULG5\n" false false _ (by decide)⟩

/-- Claim C5, counterexample: a malformed ULG `server_param` line does *not*
leave the environment-parameter map as it was: the map is cleared before
the token-tree parse, so the previous contents (here one key) are lost. -/
theorem claim_C5_counterexample :
    ((parseServerParamLineU badServerParamLine
        (sampleEnvCore, { mkStorage with maxStates := 100 })).1.environmentParams).isEmpty
      = true ∧
    sampleEnvCore.environmentParams.isEmpty = false := by
  refine ⟨by decide, by decide⟩

/-- Claim C5, amended: a Replay `EP`/`PP`/`PT` line with malformed JSON
leaves the corresponding parameter map exactly as it was, and a failing ULG
`player_type` line leaves the whole state untouched; but a ULG
`server_param`/`player_param` line on which the token-tree parse throws
leaves the corresponding map *empty* (it is cleared before the parse, never
partially overwritten), all other fields untouched. -/
theorem claim_C5_paramFailure :
    (∀ (host : JsHost) (line : String) (s : LState),
        host.jsonParse (jsDrop line 3) = none →
        (parseEnvParamsR host line s).1.environmentParams = s.1.environmentParams) ∧
    (∀ (host : JsHost) (line : String) (s : LState),
        host.jsonParse (jsDrop line 3) = none →
        parsePlayerParamsR host line s = s) ∧
    (∀ (host : JsHost) (line : String) (s : LState),
        (∀ t, host.jsonParse t = none) →
        parsePlayerTypeParamsR host line s = s) ∧
    (∀ (line : String) (s : LState),
        (parseParametersU line []).isOk = false →
        parseServerParamLineU line s = ({ s.1 with environmentParams := [] }, s.2) ∧
        parsePlayerParamLineU line s = ({ s.1 with playerParams := [] }, s.2) ∧
        parsePlayerTypeLineU line s = s) := by
  refine ⟨?_, ?_, ?_, ?_⟩
  · intro host line s h
    simp only [parseEnvParamsR, h]
    unfold updateFrequency
    cases hstep : (if s.1.simType = simTWOD then
        getNumberP s.1.environmentParams simulatorStepKey
      else getNumberP s.1.environmentParams logStepKey) with
    | none => rfl
    | some v =>
      by_cases hv : v ≠ 0
      · simp only [if_pos hv]
      · simp only [if_neg hv]
  · intro host line s h
    simp only [parsePlayerParamsR, h]
  · intro host line s h
    unfold parsePlayerTypeParamsR
    cases hidx : jsIndexOfFrom line ' ' 4 with
    | none => rfl
    | some idx =>
      by_cases hr : 3 < idx ∧ idx < 10
      · simp only [if_pos hr, h]
      · simp only [if_neg hr]
  · intro line s h
    cases hp : parseParametersU line [] with
    | ok ps => rw [hp] at h; simp [Except.isOk, Except.toBool] at h
    | error e =>
      refine ⟨?_, ?_, ?_⟩
      · simp only [parseServerParamLineU, hp]
      · simp only [parsePlayerParamLineU, hp]
      · simp only [parsePlayerTypeLineU, hp]

/-- Claim C5, witness: the amended theorem at a malformed Replay `EP`/`PP`
line, a throwing host on a `PT` line, and the unconverted `server_param`
line, from a core with one known environment key. -/
theorem claim_C5_witness :
    (parseEnvParamsR refHost "EP x" (sampleEnvCore, mkStorage)).1.environmentParams
      = sampleEnvCore.environmentParams ∧
    parsePlayerParamsR refHost "PP x" (sampleEnvCore, mkStorage) = (sampleEnvCore, mkStorage) ∧
    parsePlayerTypeParamsR noJsonHost "PT 1 x" (sampleEnvCore, mkStorage)
      = (sampleEnvCore, mkStorage) ∧
    parseServerParamLineU badServerParamLine (sampleEnvCore, mkStorage)
      = ({ sampleEnvCore with environmentParams := [] }, mkStorage) ∧
    parsePlayerParamLineU badServerParamLine (sampleEnvCore, mkStorage)
      = ({ sampleEnvCore with playerParams := [] }, mkStorage) ∧
    parsePlayerTypeLineU badServerParamLine (sampleEnvCore, mkStorage)
      = (sampleEnvCore, mkStorage) := by
  have h := claim_C5_paramFailure
  have h4 := h.2.2.2 badServerParamLine (sampleEnvCore, mkStorage) rfl
  exact ⟨h.1 refHost "EP x" (sampleEnvCore, mkStorage) rfl,
    h.2.1 refHost "PP x" (sampleEnvCore, mkStorage) rfl,
    h.2.2.1 noJsonHost "PT 1 x" (sampleEnvCore, mkStorage) (fun _ => rfl),
    h4.1, h4.2.1, h4.2.2⟩

/-- Claim C6: the header check uses `&&` where the intent (the error message
says "no ULG header found", and the spec fixes the header to `ULG<version>`)
requires `||`: a first line `XXG5`, which does not begin with `ULG`, is
accepted because its third character matches, and decoding proceeds to a
one-state log instead of raising the structural error. -/
theorem claim_C6_headerAccepted :
    jsSliceNat cexBadHeaderText 0 3 ≠ "ULG" ∧
    (ulgParseFull refHost cexBadHeaderText).2.toOption = some true ∧
    (statesOfU (ulgParseFull refHost cexBadHeaderText).1).length = 1 := by
  refine ⟨by decide, by decide, by decide⟩

/-- Claim C7: the Replay 3D version-0 agent line with raw fields
`1000 2000 500 1000 0 0 0` decodes to position `(1.0, 0.5, -2.0)` (scaled
by 1/1000, source y/z swapped, depth negated) and orientation quaternion
`(0, 0, 0, 1)`. -/
theorem claim_C7_agentDecode :
    ((parseAgentStateV03D refHost sampleAgentLine3D sample3DState true).2.partialState.bind
        (fun p => p.leftAgentStates.getD 1 none)).map
      (fun a =>
        [(ObjectState.mk a.state).x, (ObjectState.mk a.state).y, (ObjectState.mk a.state).z,
         (ObjectState.mk a.state).qx, (ObjectState.mk a.state).qy,
         (ObjectState.mk a.state).qz, (ObjectState.mk a.state).qw]) =
    some [1, 1/2, -2, 0, 0, 0, 1] := by
  decide

/-- Claim C8, counterexample: the ULG team line stores the *raw tokens* as
team names, including the surrounding double quotes: the left team name
becomes `"TeamA"` (seven characters), not `TeamA`. -/
theorem claim_C8_counterexample :
    (parseTeamLineU sampleTeamLine sample2DState).1.leftTeam.name = "\"TeamA\"" ∧
    ("\"TeamA\"" : String) ≠ "TeamA" := by
  refine ⟨by decide, by decide⟩

/-- Claim C8, amended: decoding the ULG line `(team 100 "TeamA" "TeamB" 1 0)`
while a partial state exists sets the left team name to the raw token
`"TeamA"` (quotes included) and the right team name to `"TeamB"` (quotes
included), the score to goals-left 1 / goals-right 0, and the game time to
`10` (the encoded time 100 divided by 10). -/
theorem claim_C8_teamLine (s : LState) (pws : PartialWorldState)
    (h : s.2.partialState = some pws) :
    (parseTeamLineU sampleTeamLine s).1.leftTeam.name = "\"TeamA\"" ∧
    (parseTeamLineU sampleTeamLine s).1.rightTeam.name = "\"TeamB\"" ∧
    ∃ p, (parseTeamLineU sampleTeamLine s).2.partialState = some p ∧
      p.gameTime = 10 ∧ p.score.goalsLeft = 1 ∧ p.score.goalsRight = 0 := by
  have hsym : symParse sampleTeamLine =
      .ok (.mk ["team", "100", "\"TeamA\"", "\"TeamB\"", "1", "0"] []) := rfl
  simp only [parseTeamLineU, h, hsym]
  rcases hA : pws.appendTo
      ({ s.1 with
          leftTeam := s.1.leftTeam.setName (copyString "\"TeamA\""),
          rightTeam := s.1.rightTeam.setName (copyString "\"TeamB\"") } : GCore).states
    with ⟨p1, s1, b1⟩
  simp only [SymbolNode.values, List.length_cons, List.length_nil, Nat.reduceAdd, hA]
  rw [if_pos (by norm_num : (6:ℕ) > 5), if_neg (by norm_num : ¬ (6:ℕ) > 9)]
  refine ⟨by simp only [TeamDescription.setName, copyString]; decide,
    by simp only [TeamDescription.setName, copyString]; decide, ?_⟩
  refine ⟨_, rfl, ?_, ?_, ?_⟩
  · rw [setScore_gameTime]
    simp only [PartialWorldState.setGameTime]
    decide
  · exact (setScore_goals _ _ _ _ _ _ _).1.trans (by decide)
  · exact (setScore_goals _ _ _ _ _ _ _).2.trans (by decide)

/-- Claim C8, witness: the amended theorem at the fresh 2D decoder state. -/
theorem claim_C8_witness :
    (parseTeamLineU sampleTeamLine sample2DState).1.leftTeam.name = "\"TeamA\"" ∧
    (parseTeamLineU sampleTeamLine sample2DState).1.rightTeam.name = "\"TeamB\"" ∧
    ∃ p, (parseTeamLineU sampleTeamLine sample2DState).2.partialState = some p ∧
      p.gameTime = 10 ∧ p.score.goalsLeft = 1 ∧ p.score.goalsRight = 0 :=
  claim_C8_teamLine sample2DState (mkPartialWorldState 0 (1/10) 0) rfl

/-- Claim C10: a no-argument `ObjectState` has the origin position and the
unit quaternion and is valid; a fresh `PartialWorldState` carries exactly
this ball state, and committing it before any ball line was decoded stores
this valid origin ball state in the world state (not the all-zero
"absent" sentinel). -/
theorem claim_C10_defaultBall :
    (ObjectState.default.x = 0 ∧ ObjectState.default.y = 0 ∧ ObjectState.default.z = 0 ∧
     ObjectState.default.qx = 0 ∧ ObjectState.default.qy = 0 ∧
     ObjectState.default.qz = 0 ∧ ObjectState.default.qw = 1 ∧
     ObjectState.default.isValid = true) ∧
    (∀ t step g : ℚ, (mkPartialWorldState t step g).ballState = ObjectState.default) ∧
    (∀ (t step g : ℚ) (a : AgentState),
      (({ mkPartialWorldState t step g with
          leftAgentStates := [some a] }).appendTo []).2.1.map WorldState.ballStateArr =
        [ObjectState.default.state]) ∧
    (ObjectState.mk ObjectState.default.state).isValid = true := by
  refine ⟨by decide, fun t step g => rfl, ?_, by decide⟩
  intro t step g a
  simp [PartialWorldState.appendTo, mkPartialWorldState, unwrapAgentStates,
    ObjectState.default]

end Replayer
